import Mathlib

/-!
# AIOUSB continuous buffer: ring, clock divisors

A shallow embedding of `lib/AIOContinuousBuffer.c`.  The C type `unsigned` is
taken to be 32 bits wide: every `unsigned` sum, difference and product is
written with `uadd`, `usub`, `umul`, which reduce modulo `2^32`.  Memory is
modelled cell by cell: a buffer is a function from cell index to cell value, a
cell being `bufunitsize` bytes of the ring's storage.
-/

set_option linter.unusedVariables false

namespace AIOUSB

/-! ## Machine arithmetic -/

/-- Sum of two `unsigned` values. -/
def uadd (a b : Nat) : Nat := (a + b) % 4294967296

/-- Difference of two `unsigned` values (`a`, `b` below `2^32`). -/
def usub (a b : Nat) : Nat := (a + 4294967296 - b) % 4294967296

/-- Product of two `unsigned` values. -/
def umul (a b : Nat) : Nat := (a * b) % 4294967296

/-- The C library `abs` applied to an `unsigned` value: the argument is
converted to `int` (two's complement) and its magnitude is returned. -/
def abs_int (u : Nat) : Nat := if u < 2147483648 then u else 4294967296 - u

/-! ## Types of the library -/

/-- Result codes used by the functions embedded here (`AIOUSB_SUCCESS` is the
`ok` side of `AIORET_TYPE`).  `other result` is a code known by its number
only, such as the `result` a device lookup stores. -/
inductive ResultCode where
  | AIOUSB_ERROR_INVALID_PARAMETER
  | AIOUSB_ERROR_NOT_ENOUGH_MEMORY
  | AIOUSB_ERROR_INVALID_AIOCONTINUOUS_BUFFER
  | AIOUSB_ERROR_INVALID_USBDEVICE
  | AIOUSB_ERROR_USBDEVICE_NOT_FOUND
  | AIOUSB_ERROR_INVALID_DEVICE_SETTING
  | other (result : Nat)
  deriving DecidableEq, Repr

/-- The type `AIORET_TYPE`: a signed result, non-negative (a count) on success
and the negated result code on failure. -/
abbrev AIORET_TYPE := Except ResultCode Nat

/-- The enum `AIOContinuousBufMode`, the `flag` of `AIOContinuousBufWrite`. -/
inductive AIOContinuousBufMode where
  | AIOCONTINUOUS_BUF_ALLORNONE
  | AIOCONTINUOUS_BUF_NORMAL
  | AIOCONTINUOUS_BUF_OVERRIDE
  deriving DecidableEq, Repr

/-- Modelled from the spec: the numeric values of `AIOContinuousBufMode`; the
enum is declared in AIOContinuousBuffer.h, which is not among the sources.  The
enumerators count up from 0 in the order all-or-none, normal, override, the
order in which the spec lists the modes. -/
def AIOContinuousBufMode.toNat : AIOContinuousBufMode → Nat
  | .AIOCONTINUOUS_BUF_ALLORNONE => 0
  | .AIOCONTINUOUS_BUF_NORMAL => 1
  | .AIOCONTINUOUS_BUF_OVERRIDE => 2

/-- The enum `THREAD_STATUS` held in `buf->status`. -/
inductive THREAD_STATUS where
  | NOT_STARTED
  | RUNNING
  | TERMINATED
  | JOINED
  deriving DecidableEq, Repr

/-- Modelled from the spec: `sizeof(AIOBufferType)`; the typedef is in
AIOTypes.h, which is not among the sources.  The spec calls the volts element
float-like; the conversion in `AIOContinuousBuf_SmartCountsToVolts` is carried
out in `double`, eight bytes. -/
def sizeofAIOBufferType : Nat := 8

/-- The C expression `sizeof(unsigned short)`. -/
def sizeofUnsignedShort : Nat := 2

/-- The struct `AIOContinuousBuf`, with the fields the embedded functions use.
`buffer` is the ring's storage, one cell per element of `bufunitsize` bytes;
`num_channels` is the number of signals of `buf->mask`. -/
structure AIOContinuousBuf (α : Type) where
  DeviceIndex : Nat
  testing : Bool
  size : Nat
  buffer : Nat → α
  bufunitsize : Nat
  basesize : Nat
  exitcode : Int
  usbbuf_size : Nat
  _read_pos : Nat
  _write_pos : Nat
  status : THREAD_STATUS
  hz : Nat
  timeout : Nat
  extra : Nat
  divisora : Nat
  divisorb : Nat
  num_channels : Nat

/-- The constructor `NewAIOContinuousBufWithoutConfig`; `mem` is the content of
the freshly allocated storage. -/
def NewAIOContinuousBufWithoutConfig {α : Type} (mem : Nat → α) (DeviceIndex scancounts
    num_channels : Nat) (counts : Bool) : AIOContinuousBuf α :=
  { DeviceIndex := DeviceIndex
    testing := false
    size := umul num_channels scancounts
    buffer := mem
    bufunitsize := if counts then sizeofUnsignedShort else sizeofAIOBufferType
    basesize := scancounts
    exitcode := 0
    usbbuf_size := 128 * 512
    _read_pos := 0
    _write_pos := 0
    status := THREAD_STATUS.NOT_STARTED
    hz := 100000
    timeout := 1000
    extra := 0
    divisora := 0
    divisorb := 0
    num_channels := num_channels }

/-- The constructor `NewAIOContinuousBuf`: a ring of volts. -/
def NewAIOContinuousBuf {α : Type} (mem : Nat → α) (DeviceIndex scancounts num_channels : Nat) :
    AIOContinuousBuf α :=
  NewAIOContinuousBufWithoutConfig mem DeviceIndex scancounts num_channels false

/-- The constructor `NewAIOContinuousBufForCounts`: a ring of 16-bit counts. -/
def NewAIOContinuousBufForCounts {α : Type} (mem : Nat → α) (DeviceIndex scancounts
    num_channels : Nat) : AIOContinuousBuf α :=
  NewAIOContinuousBufWithoutConfig mem DeviceIndex scancounts num_channels true

/-! ## Positions and sizes -/

section Ring

variable {α : Type}

/-- The C function `buffer_size`. -/
def buffer_size (buf : AIOContinuousBuf α) : Nat := buf.size

/-- The C function `buffer_max`. -/
def buffer_max (buf : AIOContinuousBuf α) : Nat := usub (buffer_size buf) 1

/-- The C function `get_read_pos`. -/
def get_read_pos (buf : AIOContinuousBuf α) : Nat := buf._read_pos

/-- The C function `get_write_pos`. -/
def get_write_pos (buf : AIOContinuousBuf α) : Nat := buf._write_pos

/-- The C function `set_read_pos`: the position is clamped to `buffer_max`. -/
def set_read_pos (buf : AIOContinuousBuf α) (pos : Nat) : AIOContinuousBuf α :=
  if pos > buffer_max buf then { buf with _read_pos := buffer_max buf }
  else { buf with _read_pos := pos }

/-- The C function `set_write_pos`: the position is clamped to `buffer_max`. -/
def set_write_pos (buf : AIOContinuousBuf α) (pos : Nat) : AIOContinuousBuf α :=
  if pos > buffer_max buf then { buf with _write_pos := buffer_max buf }
  else { buf with _write_pos := pos }

/-- The C function `write_size`: the number of cells between the write and the
read position, the whole ring when the two coincide. -/
def write_size (buf : AIOContinuousBuf α) : Nat :=
  if get_read_pos buf > get_write_pos buf then usub (get_read_pos buf) (get_write_pos buf)
  else usub (buffer_size buf) (usub (get_write_pos buf) (get_read_pos buf))

/-- The C function `read_size`: the amount of data available in the ring. -/
def read_size (buf : AIOContinuousBuf α) : Nat := usub (buffer_size buf) (write_size buf)

/-- The C function `AIOContinuousBufAvailableReadSize`. -/
def AIOContinuousBufAvailableReadSize (buf : AIOContinuousBuf α) : Nat := read_size buf

/-- The C function `AIOContinuousBufReset`. -/
def AIOContinuousBufReset (buf : AIOContinuousBuf α) : AIOContinuousBuf α :=
  set_write_pos (set_read_pos buf 0) 0

/-! ## Copies -/

/-- The C library `memcpy` on cells: `n` cells of `src` from cell `soff` go to
`dst` from cell `doff`. -/
def memcpy (dst : Nat → α) (doff : Nat) (src : Nat → α) (soff n : Nat) : Nat → α :=
  fun i => if doff ≤ i ∧ i < doff + n then src (soff + (i - doff)) else dst i

/-- The cell at which `&p[i]` points when `p` is an `AIOBufferType *` into a
buffer whose cells are `bufunitsize` bytes: the index is scaled by
`sizeof(AIOBufferType)`, not by `bufunitsize`. -/
def elemOffset (buf : AIOContinuousBuf α) (i : Nat) : Nat :=
  i * (sizeofAIOBufferType / buf.bufunitsize)

/-- The C function `AIOContinuousBufRead`: result, ring and the caller's
`readbuf` after the call.  `retval` is an `AIORET_TYPE`, wider than `unsigned`,
so the new read position is computed without wrap-around. -/
def AIOContinuousBufRead (buf : AIOContinuousBuf α) (readbuf : Nat → α) (readbufsize size : Nat) :
    AIORET_TYPE × AIOContinuousBuf α × (Nat → α) :=
  let basic_copy :=
    if get_read_pos buf ≤ get_write_pos buf then
      min size (usub (get_write_pos buf) (get_read_pos buf))
    else min size (usub (buffer_size buf) (get_read_pos buf))
  let wrap_copy :=
    if get_read_pos buf ≤ get_write_pos buf then 0
    else min (usub size basic_copy) (get_write_pos buf)
  let readbuf1 := memcpy readbuf 0 buf.buffer (get_read_pos buf) basic_copy
  let readbuf2 := memcpy readbuf1 (elemOffset buf basic_copy) buf.buffer 0 wrap_copy
  let retval := if wrap_copy ≠ 0 then uadd basic_copy wrap_copy else basic_copy
  (Except.ok retval,
   set_read_pos buf (((get_read_pos buf + retval) % buffer_size buf) % 4294967296),
   readbuf2)

/-- The C function `AIOContinuousBufWrite`: result and ring after the call.
Every value of the mode type is a valid enumerator, so the validity test at the
head of the function passes. -/
def AIOContinuousBufWrite (buf : AIOContinuousBuf α) (writebuf : Nat → α) (wrbufsize size : Nat)
    (flag : AIOContinuousBufMode) : AIORET_TYPE × AIOContinuousBuf α :=
  if size > buffer_size buf then
    (Except.error ResultCode.AIOUSB_ERROR_NOT_ENOUGH_MEMORY, buf)
  else if write_size buf > size ∨ flag = AIOContinuousBufMode.AIOCONTINUOUS_BUF_NORMAL then
    let basic_copy :=
      if get_read_pos buf > get_write_pos buf then
        min wrbufsize (min size (usub (usub (get_read_pos buf) (get_write_pos buf)) 1))
      else min (min size (uadd (usub (buffer_max buf) (get_write_pos buf)) 1)) wrbufsize
    let wrap_copy :=
      if get_read_pos buf > get_write_pos buf then 0
      else min (usub size basic_copy) (get_read_pos buf)
    let buffer1 := memcpy buf.buffer (get_write_pos buf) writebuf 0 basic_copy
    let buffer2 := memcpy buffer1 0 writebuf (elemOffset buf basic_copy) wrap_copy
    let buf1 := { buf with buffer := buffer2 }
    (Except.ok (uadd basic_copy wrap_copy),
     set_write_pos buf1 (uadd (uadd (get_write_pos buf) basic_copy) wrap_copy % buffer_size buf))
  else if Nat.land flag.toNat AIOContinuousBufMode.AIOCONTINUOUS_BUF_OVERRIDE.toNat ≠ 0 then
    let basic_copy := min size (usub (buffer_max buf) (get_write_pos buf))
    let wrap_copy := usub size basic_copy
    let buffer1 := memcpy buf.buffer (get_write_pos buf) writebuf 0 basic_copy
    let buffer2 := memcpy buffer1 0 writebuf (elemOffset buf basic_copy) wrap_copy
    let buf1 := { buf with buffer := buffer2 }
    (Except.ok (uadd basic_copy wrap_copy),
     set_write_pos buf1 (uadd (uadd (get_write_pos buf) basic_copy) wrap_copy % buffer_size buf))
  else
    (Except.error ResultCode.AIOUSB_ERROR_NOT_ENOUGH_MEMORY, buf)

/-- The C function `AIOContinuousBufWriteCounts`: the `unsigned short` data is
handed to `AIOContinuousBufWrite` as an `AIOBufferType *`. -/
def AIOContinuousBufWriteCounts (buf : AIOContinuousBuf α) (data : Nat → α) (datasize size : Nat)
    (flag : AIOContinuousBufMode) : AIORET_TYPE × AIOContinuousBuf α :=
  AIOContinuousBufWrite buf data datasize size flag

end Ring

/-! ## Ring states -/

section RingStates

variable {α : Type}

/-- A ring state as the spec describes it: `S ≥ 1` cells, `S` an `unsigned`
value, both positions in `[0, S)`. -/
def RingOK (buf : AIOContinuousBuf α) : Prop :=
  1 ≤ buf.size ∧ buf.size < 4294967296 ∧ buf._read_pos < buf.size ∧ buf._write_pos < buf.size

instance (buf : AIOContinuousBuf α) : Decidable (RingOK buf) := by
  unfold RingOK; infer_instance

/-- Occupancy as the spec words it: `(write_pos − read_pos) mod S`. -/
def occupancy (buf : AIOContinuousBuf α) : Nat :=
  (buf._write_pos + buf.size - buf._read_pos) % buf.size

/-- Free space as the spec words it: `S − 1 − occupancy`, one slot reserved. -/
def available (buf : AIOContinuousBuf α) : Nat := buf.size - 1 - occupancy buf

/-- The first `n` cells of a caller's buffer, in order. -/
def firstCells (f : Nat → α) (n : Nat) : List α := (List.range n).map f

/-- The stored elements of a ring, oldest first: the `occupancy` cells from the
read position on, wrapping at `S`. -/
def contents (buf : AIOContinuousBuf α) : List α :=
  (List.range (occupancy buf)).map (fun i => buf.buffer ((buf._read_pos + i) % buf.size))

/-- One call made on the ring by its producer or its consumer. -/
inductive RingOp (α : Type) where
  | write (writebuf : Nat → α) (wrbufsize size : Nat)
  | read (readbuf : Nat → α) (readbufsize size : Nat)

/-- A ring together with the record of what went in and what came out: the
elements of the accepted writes and the elements returned by the reads, each
concatenated in call order. -/
structure RingRun (α : Type) where
  buf : AIOContinuousBuf α
  written : List α
  readout : List α

/-- One call on the ring: an all-or-none write of the first `size` cells of
`writebuf`, or a read of up to `size` elements into `readbuf`. -/
def RingRun.step (t : RingRun α) : RingOp α → RingRun α
  | .write writebuf wrbufsize size =>
    let r := AIOContinuousBufWrite t.buf writebuf wrbufsize size
      AIOContinuousBufMode.AIOCONTINUOUS_BUF_ALLORNONE
    match r.1 with
    | .ok k => { buf := r.2, written := t.written ++ firstCells writebuf k, readout := t.readout }
    | .error _ => { buf := r.2, written := t.written, readout := t.readout }
  | .read readbuf readbufsize size =>
    let r := AIOContinuousBufRead t.buf readbuf readbufsize size
    match r.1 with
    | .ok k => { buf := r.2.1, written := t.written, readout := t.readout ++ firstCells r.2.2 k }
    | .error _ => { buf := r.2.1, written := t.written, readout := t.readout }

/-- A finite interleaving of writes and reads, run from a ring with nothing
recorded yet. -/
def runOps (buf : AIOContinuousBuf α) (ops : List (RingOp α)) : RingRun α :=
  ops.foldl RingRun.step { buf := buf, written := [], readout := [] }

/-- The arguments of a call are well-formed: the source buffer of a write holds
at least the elements to write, and the count asked of a read is an `unsigned`
value. -/
def RingOp.argsOK : RingOp α → Prop
  | .write _ wrbufsize size => size ≤ wrbufsize
  | .read _ _ size => size < 4294967296

/-- The record of a run accounts for every element: what was written is what
was read followed by what the ring still stores, on a ring state of
`AIOBufferType` elements with `S ≤ 2^31`. -/
def RingRun.Accounted (t : RingRun α) : Prop :=
  RingOK t.buf ∧ t.buf.bufunitsize = sizeofAIOBufferType ∧ t.buf.size ≤ 2147483648 ∧
    t.written = t.readout ++ contents t.buf

end RingStates

/-- A constructed ring of `S` cells on one channel, of counts or of volts, with
its positions set through the clamping setters. -/
def ringAt {α : Type} (mem : Nat → α) (S : Nat) (counts : Bool) (read_pos write_pos : Nat) :
    AIOContinuousBuf α :=
  set_write_pos (set_read_pos (NewAIOContinuousBufWithoutConfig mem 0 S 1 counts) read_pos)
    write_pos

/-- Scenario S1 of the spec as calls on a ring of 10 cells: write `[1..9]`,
read 5, write `[10..14]`, read 5, read 4.  The second source buffer has 16
cells, of which the first 5 are written. -/
def scenarioS1 : List (RingOp Nat) :=
  [RingOp.write (fun i => 1 + i) 9 9, RingOp.read (fun _ => 0) 5 5,
   RingOp.write (fun i => 10 + i) 16 5, RingOp.read (fun _ => 0) 5 5,
   RingOp.read (fun _ => 0) 4 4]

/-- Scenario S3 of the spec, first half: a fresh volts ring of 4 cells filled
with `[1, 2, 3]` by an all-or-none write. -/
def scenarioS3_filled : AIOContinuousBuf Nat :=
  (AIOContinuousBufWrite (NewAIOContinuousBuf (fun _ => 0) 0 4 1) (fun i => 1 + i) 3 3
    AIOContinuousBufMode.AIOCONTINUOUS_BUF_ALLORNONE).2

/-- Scenario S3 of the spec, second half: `write([4, 5, 6], OVERRIDE)` on the
filled ring. -/
def scenarioS3_override : AIORET_TYPE × AIOContinuousBuf Nat :=
  AIOContinuousBufWrite scenarioS3_filled (fun i => 4 + i) 3 3
    AIOContinuousBufMode.AIOCONTINUOUS_BUF_OVERRIDE

/-! ## Clock divisors -/

/-- The local `ROOTCLOCK` of `CalculateClocks`. -/
def ROOTCLOCK : Nat := 10000000

/-- The C expression `(int)round((double)n / d)` for `unsigned` `n`, `d` below
`2^24`, `d > 0`: the quotient rounded to the nearest integer, halves away from
zero.  The fractional part of `n / d` is a multiple of `1 / d`, so the `double`
quotient falls on the same side of every half-integer as the exact one. -/
def round_div (n d : Nat) : Nat := (2 * n + d) / (2 * d)

/-- The C expression `round(sqrt(n))` for `unsigned` `n` below `2^32`: the
integer nearest to the square root (never a tie: no integer has a half-integer
root, and the nearest half-integer is further away than `double` precision). -/
def round_sqrt (n : Nat) : Nat :=
  if n - Nat.sqrt n * Nat.sqrt n > Nat.sqrt n then Nat.sqrt n + 1 else Nat.sqrt n

/-- The magnitude `|x − y|` of a difference of two integers. -/
def absdiff (x y : Nat) : Nat := if y ≤ x then x - y else y - x

/-- The locals `divisora`, `divisorb`, `min_err` of `CalculateClocks`. -/
structure ClockSearch where
  divisora : Nat
  divisorb : Nat
  min_err : Nat
  deriving DecidableEq, Repr

/-- The `for` loop of `CalculateClocks`, `lv` counting down to 2.  The first
`break` leaves the locals as they are; the second stores the zero-error pair.
The last statement of the body divides `unsigned` by `unsigned`, so it
truncates. -/
def sweep (divisorab : Nat) : Nat → ClockSearch → ClockSearch
  | 0, st => st
  | 1, st => st
  | lv + 2, st =>
    let olddivisora := round_div divisorab (lv + 2)
    if olddivisora > 0xffff then st
    else
      let err := abs_int (usub divisorab (umul olddivisora (lv + 2)))
      if err ≤ 0 then { divisora := olddivisora, divisorb := lv + 2, min_err := 0 }
      else
        let divisorb := if err < st.min_err then lv + 2 else st.divisorb
        let min_err := if err < st.min_err then err else st.min_err
        sweep divisorab (lv + 1)
          { divisora := divisorab / divisorb, divisorb := divisorb, min_err := min_err }

/-- The candidate pairs `(round(divisorab / lv), lv)` whose error the loop of
`CalculateClocks` evaluates when started at `lv`: it stops before a candidate
above `0xffff` and after a candidate of error zero. -/
def swept (divisorab : Nat) : Nat → List (Nat × Nat)
  | 0 => []
  | 1 => []
  | lv + 2 =>
    if round_div divisorab (lv + 2) > 0xffff then []
    else if abs_int (usub divisorab (umul (round_div divisorab (lv + 2)) (lv + 2))) ≤ 0 then
      [(round_div divisorab (lv + 2), lv + 2)]
    else (round_div divisorab (lv + 2), lv + 2) :: swept divisorab (lv + 1)

/-- The error the loop of `CalculateClocks` computes for a candidate pair `c`:
`abs((ROOTCLOCK / hz) - (c.1 * c.2))`, in `unsigned` arithmetic with the
difference read as an `int`. -/
def sweep_err (divisorab : Nat) (c : Nat × Nat) : Nat :=
  abs_int (usub divisorab (umul c.1 c.2))

/-- The C function `CalculateClocks`: result and ring object after the call.
`fdivisora` stands for the value of `round(divisorab / l)`, which the code
computes in single precision floating point from `l = sqrt(divisorab)`; it is
left open.  The test `l > 0xffff` on that root is written on its square; with
`divisorab ≤ ROOTCLOCK` it never holds.  The first `min_err` is a difference of
integers below `2^24`, exact in single precision. -/
def CalculateClocks {α : Type} (fdivisora : Nat) (buf : AIOContinuousBuf α) :
    AIORET_TYPE × AIOContinuousBuf α :=
  let hz := buf.hz
  if hz = 0 then (Except.error ResultCode.AIOUSB_ERROR_INVALID_PARAMETER, buf)
  else if umul hz 4 ≥ ROOTCLOCK then (Except.ok 0, { buf with divisora := 2, divisorb := 2 })
  else
    let divisorab := ROOTCLOCK / hz
    if divisorab > 0xffff * 0xffff then
      (Except.ok 0, { buf with divisora := 0xffff, divisorb := 0xffff })
    else
      let l := round_sqrt divisorab
      let st := sweep divisorab l
        { divisora := fdivisora, divisorb := l, min_err := absdiff divisorab (fdivisora * l) }
      (Except.ok 0, { buf with divisora := st.divisora, divisorb := st.divisorb })

/-- The C function `AIOContinuousBufSetClock`. -/
def AIOContinuousBufSetClock {α : Type} (buf : AIOContinuousBuf α) (hz : Nat) :
    AIOContinuousBuf α :=
  { buf with hz := hz }

/-! ## Counts to volts and packets -/

/-- An entry of the table `adRanges`: the span of a gain range and its lower
end, in volts. -/
structure ADRange where
  range : ℚ
  minVolts : ℚ

/-- What the embedded functions read of a device descriptor: the cached gain
code of each channel, `ADC_GainCode_Cached(&deviceDesc->cachedConfigBlock, channel)`,
and the oversample setting, `ADCConfigBlockGetOversample`. -/
structure AIOUSBDevice where
  cachedGain : Nat → Nat
  oversample : Nat

/-- The outcome of `AIODeviceTableGetDeviceAtIndex(index, &result)`: a `result`
other than `AIOUSB_SUCCESS`, or success with a null descriptor, or success with
a descriptor. -/
inductive DeviceLookup where
  | failed (result : Nat)
  | null
  | found (device : AIOUSBDevice)

/-- The declarations the embedded functions use from files that are not among
the sources, taken as parameters: the constant `AI_16_MAX_COUNTS`, the table
`adRanges` keyed by gain code, the device table behind
`AIODeviceTableGetDeviceAtIndex`, and the function `cull_and_average_counts`,
which rewrites the packet in place and its length. -/
structure Externals where
  AI_16_MAX_COUNTS : Nat
  adRanges : Nat → ADRange
  AIODeviceTableGetDeviceAtIndex : Nat → DeviceLookup
  cull_and_average_counts : Nat → (Nat → Nat) → Nat → Nat → (Nat → Nat) × Nat

/-- The C expression `((double)count / (double)AI_16_MAX_COUNTS) * range->range
+ range->minVolts` for `range = &adRanges[gain]`, as an exact rational. -/
def countsToVolts (env : Externals) (gain count : Nat) : ℚ :=
  ((count : ℚ) / (env.AI_16_MAX_COUNTS : ℚ)) * (env.adRanges gain).range
    + (env.adRanges gain).minVolts

/-- The variables the loop of `AIOContinuousBuf_SmartCountsToVolts` updates:
`*channel`, the memory `tobuf` points into, `*pos` and `retval`. -/
structure CountsToVoltsState where
  channel : Nat
  tobuf : Nat → ℚ
  pos : Nat
  retval : Nat

/-- One pass of the loop of `AIOContinuousBuf_SmartCountsToVolts` at index `ch`:
the body, then `*channel = (*channel + 1) % number_channels` and `*pos += 1`.
`data` and `tobuf` are memories, `dbase` and `tobase` the cells the pointers
passed to the function point at. -/
def SmartCountsToVolts_pass (env : Externals) (device : AIOUSBDevice) (number_channels : Nat)
    (data : Nat → Nat) (dbase tobase : Nat) (st : CountsToVoltsState) (ch : Nat) :
    CountsToVoltsState :=
  { tobuf := fun i =>
      if i = tobase + st.pos then
        countsToVolts env (device.cachedGain st.channel) (data (dbase + ch))
      else st.tobuf i
    retval := st.retval + 1
    channel := uadd st.channel 1 % number_channels
    pos := uadd st.pos 1 }

/-- What `AIOContinuousBuf_SmartCountsToVolts` leaves behind: its result and the
final `*channel`, output memory and `*pos`. -/
structure CountsToVoltsResult where
  retval : AIORET_TYPE
  channel : Nat
  tobuf : Nat → ℚ
  pos : Nat

/-- The C function `AIOContinuousBuf_SmartCountsToVolts`.  A failed lookup
returns `-result`, a null descriptor returns `-1`; otherwise the loop runs over
`ch = 0 .. count - 1`. -/
def AIOContinuousBuf_SmartCountsToVolts {α : Type} (env : Externals) (buf : AIOContinuousBuf α)
    (channel : Nat) (data : Nat → Nat) (dbase count : Nat) (tobuf : Nat → ℚ)
    (tobase pos : Nat) : CountsToVoltsResult :=
  match env.AIODeviceTableGetDeviceAtIndex buf.DeviceIndex with
  | .failed result =>
    { retval := Except.error (ResultCode.other result), channel := channel, tobuf := tobuf,
      pos := pos }
  | .null =>
    { retval := Except.error (ResultCode.other 1), channel := channel, tobuf := tobuf,
      pos := pos }
  | .found device =>
    let st := (List.range count).foldl
      (SmartCountsToVolts_pass env device buf.num_channels data dbase tobase)
      { channel := channel, tobuf := tobuf, pos := pos, retval := 0 }
    { retval := Except.ok st.retval, channel := st.channel, tobuf := st.tobuf, pos := st.pos }

/-- The C statement `write_count += retval` for an `unsigned` `write_count` and
an `AIORET_TYPE` `retval`: the sum is taken in the wider signed type and cut to
32 bits.  A negated code known by its number is subtracted. -/
def uaddRet (write_count : Nat) (retval : AIORET_TYPE) : Nat :=
  match retval with
  | .ok n => (write_count + n) % 4294967296
  | .error (.other result) => (write_count + 4294967296 - result % 4294967296) % 4294967296
  | .error _ => write_count

/-- The C expression `AIOContinuousBufGetOverSample(buf) + 1` as
`AIOContinuousBufCopyData` tests it: a failed lookup gives `-result + 1`, which
is returned as an error when negative and is 0 when `result` is 1.  (With a
null descriptor the C code dereferences it; the embedding takes the oversample
setting as 0 there.) -/
def number_oversamples {α : Type} (env : Externals) (buf : AIOContinuousBuf α) : AIORET_TYPE :=
  match env.AIODeviceTableGetDeviceAtIndex buf.DeviceIndex with
  | .failed result =>
    if 1 < result then Except.error (ResultCode.other (result - 1)) else Except.ok (1 - result)
  | .null => Except.ok 1
  | .found device => Except.ok (device.oversample + 1)

/-- What `AIOContinuousBufCopyData` leaves behind: its result, the ring object,
the packet memory `data` and the conversion buffer `buf->tmpbuf`. -/
structure CopyDataResult where
  retval : AIORET_TYPE
  buf : AIOContinuousBuf ℚ
  data : Nat → Nat
  tmpbuf : Nat → ℚ

/-- The C function `AIOContinuousBufCopyData` on a packet of `size` samples in
the memory `data`; `tmpbuf` is the content of the conversion buffer
`AIOContinuousBufCreateTmpBuf` hands out, on entry.  The two conversions of the
block `if (buf->extra)` are named `first` and `second` and enter the result
only when `extra` is not 0.  A quotient by 0 (`number_oversamples` or
`number_channels` equal to 0, a division by zero in C) is taken as 0. -/
def AIOContinuousBufCopyData (env : Externals) (buf : AIOContinuousBuf ℚ) (data : Nat → Nat)
    (size : Nat) (tmpbuf : Nat → ℚ) : CopyDataResult :=
  match number_oversamples env buf with
  | .error e => { retval := Except.error e, buf := buf, data := data, tmpbuf := tmpbuf }
  | .ok oversamples =>
    let number_channels := buf.num_channels
    let core_size := size / oversamples
    let data1 := (env.cull_and_average_counts buf.DeviceIndex data size number_channels).1
    let first :=
      AIOContinuousBuf_SmartCountsToVolts env buf (usub number_channels buf.extra) data1 0
        buf.extra tmpbuf 0 0
    let write_count1 := uaddRet 0 first.retval
    let second :=
      AIOContinuousBuf_SmartCountsToVolts env buf first.channel data1 0
        (usub number_channels write_count1) first.tobuf first.pos first.pos
    let write_count2 := uaddRet write_count1 second.retval
    let channel := if buf.extra ≠ 0 then second.channel else 0
    let pos := if buf.extra ≠ 0 then second.pos else 0
    let tmpbuf2 := if buf.extra ≠ 0 then second.tobuf else tmpbuf
    let write_count := if buf.extra ≠ 0 then write_count2 else 0
    let tmpcount := usub write_count buf.extra
    let stopval := (usub core_size tmpcount / number_channels * number_channels) % 4294967296
    let third :=
      AIOContinuousBuf_SmartCountsToVolts env buf channel data1 tmpcount stopval tmpbuf2 0 pos
    let write_count3 := uaddRet tmpcount third.retval
    let extra := usub core_size write_count3
    let data2 := memcpy data1 size data1 write_count3 extra
    let buf1 := { buf with extra := extra }
    let written := AIOContinuousBufWrite buf1 third.tobuf (size / oversamples) write_count3
      AIOContinuousBufMode.AIOCONTINUOUS_BUF_ALLORNONE
    { retval := written.1, buf := written.2, data := data2, tmpbuf := third.tobuf }

/-- A packet handed to `AIOContinuousBufCopyData`: the memory holding it and
its length `*size`. -/
structure Packet where
  data : Nat → Nat
  size : Nat

/-- The ring object and the conversion buffer between two packets. -/
structure CopyState where
  buf : AIOContinuousBuf ℚ
  tmpbuf : Nat → ℚ

/-- One call of `AIOContinuousBufCopyData` on the next packet. -/
def CopyState.copy (env : Externals) (st : CopyState) (pkt : Packet) : CopyState :=
  { buf := (AIOContinuousBufCopyData env st.buf pkt.data pkt.size st.tmpbuf).buf
    tmpbuf := (AIOContinuousBufCopyData env st.buf pkt.data pkt.size st.tmpbuf).tmpbuf }

/-- Consecutive packets handed to `AIOContinuousBufCopyData`, in order. -/
def copyPackets (env : Externals) (st : CopyState) (packets : List Packet) : CopyState :=
  packets.foldl (CopyState.copy env) st

/-- The number of samples the ring accepted over consecutive packets: the sum
of the non-negative results of `AIOContinuousBufCopyData`. -/
def samplesWritten (env : Externals) : CopyState → List Packet → Nat
  | _, [] => 0
  | st, pkt :: rest =>
    (match (AIOContinuousBufCopyData env st.buf pkt.data pkt.size st.tmpbuf).retval with
      | .ok n => n
      | .error _ => 0)
    + samplesWritten env (st.copy env pkt) rest

/-- Scenario S5 of the spec as externals: one device, found at every index, on
which channel `ch` has gain code `ch` and the oversample setting is 0; the gain
range of code `g` spans `g + 1` volts from 0, so that channels are told apart
by their volts; culling at oversample 0 leaves the packet as it is.
`AI_16_MAX_COUNTS` is 65535, the value for which the test `PopulateBuffer` of
the repository finds exactly 5.0 volts for the count `0xffff` on the 0-5 V
range. -/
def scenarioS5_externals : Externals :=
  { AI_16_MAX_COUNTS := 65535
    adRanges := fun gain => { range := (gain : ℚ) + 1, minVolts := 0 }
    AIODeviceTableGetDeviceAtIndex := fun _ =>
      DeviceLookup.found { cachedGain := fun channel => channel, oversample := 0 }
    cull_and_average_counts := fun _ data size _ => (data, size) }

/-- Scenario S5 of the spec: a fresh volts ring for 3 channels (4 scans), with
a cleared conversion buffer. -/
def scenarioS5_start : CopyState :=
  { buf := NewAIOContinuousBuf (fun _ => 0) 0 4 3, tmpbuf := fun _ => 0 }

/-- Scenario S5 of the spec: a packet of 5 samples, all at the count `0xffff`. -/
def scenarioS5_packet : Packet := { data := fun _ => 65535, size := 5 }

/-! ## Calls on a ring -/

section RingCalls

variable {α : Type}

/-- One call on a constructed ring: the reset, one of the two clamping setters,
a read, or a write in one of the three modes. -/
inductive RingCall (α : Type) where
  | reset
  | set_read_pos (pos : Nat)
  | set_write_pos (pos : Nat)
  | read (readbuf : Nat → α) (readbufsize size : Nat)
  | write (writebuf : Nat → α) (wrbufsize size : Nat) (flag : AIOContinuousBufMode)

/-- The ring after one call. -/
def RingCall.apply (buf : AIOContinuousBuf α) : RingCall α → AIOContinuousBuf α
  | .reset => AIOContinuousBufReset buf
  | .set_read_pos pos => AIOUSB.set_read_pos buf pos
  | .set_write_pos pos => AIOUSB.set_write_pos buf pos
  | .read readbuf readbufsize size => (AIOContinuousBufRead buf readbuf readbufsize size).2.1
  | .write writebuf wrbufsize size flag =>
    (AIOContinuousBufWrite buf writebuf wrbufsize size flag).2

/-- The ring after a finite sequence of calls, in order. -/
def callRing (buf : AIOContinuousBuf α) (calls : List (RingCall α)) : AIOContinuousBuf α :=
  calls.foldl RingCall.apply buf

/-! ## Scan counts -/

/-- The spacing of `float` values (IEEE 754 single precision, 24 significant
bits) around an integer `n` up to `2^32`. -/
def float_ulp (n : Nat) : Nat :=
  if n < 16777216 then 1 else if n < 33554432 then 2 else if n < 67108864 then 4
  else if n < 134217728 then 8 else if n < 268435456 then 16 else if n < 536870912 then 32
  else if n < 1073741824 then 64 else if n < 2147483648 then 128 else 256

/-- The C conversion to `float` of a non-negative integer `n` up to `2^32`, and
the rounding of a `float` result of that size: the nearest multiple of
`float_ulp n`, a tie going to the even multiple.  The value is an integer. -/
def to_float (n : Nat) : Nat :=
  if 2 * (n % float_ulp n) < float_ulp n then n / float_ulp n * float_ulp n
  else if 2 * (n % float_ulp n) > float_ulp n then n / float_ulp n * float_ulp n + float_ulp n
  else if n / float_ulp n % 2 = 0 then n / float_ulp n * float_ulp n
  else n / float_ulp n * float_ulp n + float_ulp n

/-- The C function `write_size_num_scan_counts`.  The quotient is an integer
division, so `tmp` holds an integer and `tmp > (int)tmp` is false (the cast is
defined for `tmp` below `2^31`); the other branch stores 0 for `tmp = 0` and
the `float` difference `tmp - 1` otherwise, which the return converts to
`unsigned`. -/
def write_size_num_scan_counts (buf : AIOContinuousBuf α) : Nat :=
  if to_float (write_size buf / buf.num_channels) = 0 then 0
  else to_float (to_float (write_size buf / buf.num_channels) - 1)

/-- The C function `AIOContinuousBufNumberWriteScansInCounts`. -/
def AIOContinuousBufNumberWriteScansInCounts (buf : AIOContinuousBuf α) : AIORET_TYPE :=
  Except.ok (buf.num_channels * write_size_num_scan_counts buf)

/-- The C conversion of an `unsigned` value to `int`. -/
def int_of_unsigned (x : Nat) : Int :=
  if x % 4294967296 < 2147483648 then (x % 4294967296 : Nat) else (x % 4294967296 : Nat) - 4294967296

/-- The body of the loop of `AIOContinuousBufReadIntegerScanCounts` at offset
`pos`: one read of `N` elements to `&tmp[pos]`, added to `retval`
(`AIOContinuousBufRead` has no error return).  The state is `retval`, the ring
and the memory `tmp`, whose cells are the `unsigned short` elements of a ring
of counts. -/
def ReadIntegerScanCounts_pass (tmpsize pos : Nat)
    (st : Nat × AIOContinuousBuf α × (Nat → α)) : Nat × AIOContinuousBuf α × (Nat → α) :=
  let r := AIOContinuousBufRead st.2.1 (fun j => st.2.2 (pos + j)) (usub tmpsize pos)
    st.2.1.num_channels
  ((match r.1 with
    | .ok k => st.1 + k
    | .error _ => st.1),
   r.2.1,
   fun j => if pos ≤ j then r.2.2 (j - pos) else st.2.2 j)

/-- The loop of `AIOContinuousBufReadIntegerScanCounts`: at most `numscans`
passes, `pos` stepping by `N`, while `pos + N - 1 < (int)size`. -/
def ReadIntegerScanCounts_loop (N tmpsize size : Nat) :
    Nat → Nat → Nat × AIOContinuousBuf α × (Nat → α) → Nat × AIOContinuousBuf α × (Nat → α)
  | 0, _, st => st
  | numscans + 1, pos, st =>
    if (pos : Int) + (N : Int) - 1 < int_of_unsigned size then
      ReadIntegerScanCounts_loop N tmpsize size numscans (pos + N)
        (ReadIntegerScanCounts_pass tmpsize pos st)
    else st

/-- The C function `AIOContinuousBufReadIntegerScanCounts`: result, ring and
destination memory after the call. -/
def AIOContinuousBufReadIntegerScanCounts (buf : AIOContinuousBuf α) (tmp : Nat → α)
    (tmpsize size : Nat) : AIORET_TYPE × AIOContinuousBuf α × (Nat → α) :=
  if size < buf.num_channels % 4294967296 then
    (Except.error ResultCode.AIOUSB_ERROR_NOT_ENOUGH_MEMORY, buf, tmp)
  else
    let r := ReadIntegerScanCounts_loop buf.num_channels tmpsize size
      (int_of_unsigned (size / buf.num_channels)).toNat 0 (0, buf, tmp)
    (Except.ok r.1, r.2.1, r.2.2)

end RingCalls

/-! ## Device bring-up -/

/-- A control transfer as the code issues it; `data` is what goes out to the
device, the first `wLength` bytes of the buffer on a host-to-device request. -/
structure ControlTransfer where
  bmRequestType : Nat
  bRequest : Nat
  wValue : Nat
  wIndex : Nat
  data : List Nat
  wLength : Nat
  timeout : Nat
  deriving DecidableEq, Repr

/-- What the embedded functions use of a `USBDevice`: the result of
`usb_control_transfer`, which may depend on the transfers issued before. -/
structure USBDevice where
  usb_control_transfer : List ControlTransfer → ControlTransfer → Int

/-- The outcome of `AIODeviceTableGetUSBDeviceAtIndex(index, &result)`: a
`result` other than `AIOUSB_SUCCESS`, or success with a null pointer, or
success with a device. -/
inductive USBLookup where
  | failed (result : Nat)
  | null
  | found (usb : USBDevice)

/-- The declarations the bring-up and worker functions use from files that are
not among the sources, taken as parameters: the USB device table, the lookup
`AIOUSB_GetDevice_Lock` (its `result` and whether the descriptor is non-null),
the macro `LIBUSB_RESULT_TO_AIOUSB_RESULT`, the request constants, and the
result of `pthread_create`. -/
structure USBExternals where
  AIODeviceTableGetUSBDeviceAtIndex : Nat → USBLookup
  AIOUSB_GetDevice_Lock : Nat → Nat × Bool
  LIBUSB_RESULT_TO_AIOUSB_RESULT : Int → Nat
  USB_WRITE_TO_DEVICE : Nat
  AUR_CTR_MODE : Nat
  AUR_START_ACQUIRING_BLOCK : Nat
  AUR_CTR_MODELOAD : Nat
  pthread_create : Nat

/-- The value `-(AIORET_TYPE)code` of a result code known by its number; the
code 0 gives `AIOUSB_SUCCESS`. -/
def negated (code : Nat) : AIORET_TYPE :=
  if code = 0 then Except.ok 0 else Except.error (ResultCode.other code)

/-- The test `retval != AIOUSB_SUCCESS`, negated. -/
def isSuccess (retval : AIORET_TYPE) : Bool :=
  match retval with
  | .ok 0 => true
  | _ => false

/-- What the bring-up functions act on: the ring object, the control transfers
issued so far (oldest first), whether `cachedConfigBlock.size` has been set to
`AD_MUX_CONFIG_REGISTERS`, and whether the worker thread has been created. -/
structure Session (α : Type) where
  buf : AIOContinuousBuf α
  transfers : List ControlTransfer
  mux_config : Bool
  worker : Bool

section Bringup

variable {α : Type}

/-- One call of `usb->usb_control_transfer`: its result, and the session with
the transfer recorded. -/
def control_transfer (usb : USBDevice) (s : Session α) (t : ControlTransfer) : Int × Session α :=
  (usb.usb_control_transfer s.transfers t, { s with transfers := s.transfers ++ [t] })

/-- The C function `ResetCounters`.  Both failure paths of the lookup jump to
the label `out_ResetCounters` with `retval` as initialised. -/
def ResetCounters (env : USBExternals) (s : Session α) : AIORET_TYPE × Session α :=
  match env.AIODeviceTableGetUSBDeviceAtIndex s.buf.DeviceIndex with
  | .failed _ => (Except.ok 0, s)
  | .null => (Except.ok 0, s)
  | .found usb =>
    let r1 := control_transfer usb s
      { bmRequestType := env.USB_WRITE_TO_DEVICE, bRequest := env.AUR_CTR_MODE, wValue := 0x7400,
        wIndex := 0, data := [], wLength := 0, timeout := s.buf.timeout }
    if r1.1 ≠ 0 then (negated (env.LIBUSB_RESULT_TO_AIOUSB_RESULT r1.1), r1.2)
    else
      let r2 := control_transfer usb r1.2
        { bmRequestType := env.USB_WRITE_TO_DEVICE, bRequest := env.AUR_CTR_MODE,
          wValue := 0xb600, wIndex := 0, data := [], wLength := 0, timeout := s.buf.timeout }
      if r2.1 ≠ 0 then (negated (env.LIBUSB_RESULT_TO_AIOUSB_RESULT r2.1), r2.2)
      else (Except.ok 0, r2.2)

/-- The C function `SetConfig`: on a failed lookup it returns `result` itself,
not negated. -/
def SetConfig (env : USBExternals) (s : Session α) : AIORET_TYPE × Session α :=
  if (env.AIOUSB_GetDevice_Lock s.buf.DeviceIndex).2 = false
      ∨ (env.AIOUSB_GetDevice_Lock s.buf.DeviceIndex).1 ≠ 0 then
    (Except.ok (env.AIOUSB_GetDevice_Lock s.buf.DeviceIndex).1, s)
  else if s.buf.num_channels > 16 then (Except.ok 0, { s with mux_config := true })
  else (Except.ok 0, s)

/-- The C function `StartStreaming`.  (With a null device and a success result
the C code calls through the null pointer; the embedding issues no transfer
and returns the device-not-found code there.) -/
def StartStreaming (env : USBExternals) (s : Session α) : AIORET_TYPE × Session α :=
  match env.AIODeviceTableGetUSBDeviceAtIndex s.buf.DeviceIndex with
  | .failed _ => (Except.error ResultCode.AIOUSB_ERROR_INVALID_USBDEVICE, s)
  | .null => (Except.error ResultCode.AIOUSB_ERROR_USBDEVICE_NOT_FOUND, s)
  | .found usb =>
    let r := control_transfer usb s
      { bmRequestType := env.USB_WRITE_TO_DEVICE, bRequest := env.AUR_START_ACQUIRING_BLOCK,
        wValue := 0, wIndex := 0, data := [0x07, 0x0, 0x0, 0x1], wLength := 4,
        timeout := s.buf.timeout }
    if r.1 < 0 then (negated (env.LIBUSB_RESULT_TO_AIOUSB_RESULT r.1), r.2)
    else (Except.ok 0, r.2)

/-- The C function `AIOContinuousBufLoadCounters`.  (Null device: as in
`StartStreaming`.) -/
def AIOContinuousBufLoadCounters (env : USBExternals) (s : Session α) (countera counterb : Nat) :
    AIORET_TYPE × Session α :=
  match env.AIODeviceTableGetUSBDeviceAtIndex s.buf.DeviceIndex with
  | .failed result => (negated result, s)
  | .null => (Except.error ResultCode.AIOUSB_ERROR_USBDEVICE_NOT_FOUND, s)
  | .found usb =>
    let r1 := control_transfer usb s
      { bmRequestType := env.USB_WRITE_TO_DEVICE, bRequest := env.AUR_CTR_MODELOAD,
        wValue := 0x7400, wIndex := countera, data := [], wLength := 0, timeout := 3000 }
    if r1.1 ≠ 0 then (negated (env.LIBUSB_RESULT_TO_AIOUSB_RESULT r1.1), r1.2)
    else
      let r2 := control_transfer usb r1.2
        { bmRequestType := env.USB_WRITE_TO_DEVICE, bRequest := env.AUR_CTR_MODELOAD,
          wValue := 0xb600, wIndex := counterb, data := [], wLength := 0, timeout := 3000 }
      if r2.1 ≠ 0 then (negated (env.LIBUSB_RESULT_TO_AIOUSB_RESULT r2.1), r2.2)
      else (Except.ok 0, r2.2)

/-- The C function `AIOContinuousBufStart`, built with `HAS_PTHREAD` and without
`HIGH_PRIORITY`: the status is set to `RUNNING` before the thread is created. -/
def AIOContinuousBufStart (env : USBExternals) (s : Session α) : AIORET_TYPE × Session α :=
  if env.pthread_create ≠ 0 then
    (Except.error (ResultCode.other 1),
     { s with buf := { s.buf with status := THREAD_STATUS.TERMINATED } })
  else
    (Except.ok 0,
     { s with buf := { s.buf with status := THREAD_STATUS.RUNNING }, worker := true })

/-- The C function `continuous_end`: four transfers, their results not read. -/
def continuous_end (usb : USBDevice) (s : Session α) : Session α :=
  let s1 := (control_transfer usb s
    { bmRequestType := 0x40, bRequest := 0xbc, wValue := 0, wIndex := 0,
      data := [0x2, 0, 0x2, 0], wLength := 4, timeout := 1000 }).2
  let s2 := (control_transfer usb s1
    { bmRequestType := 0xc0, bRequest := 0xbc, wValue := 0, wIndex := 0,
      data := [], wLength := 4, timeout := 1000 }).2
  let s3 := (control_transfer usb s2
    { bmRequestType := 0x40, bRequest := 0x21, wValue := 0x7400, wIndex := 0,
      data := [], wLength := 0, timeout := 1000 }).2
  (control_transfer usb s3
    { bmRequestType := 0x40, bRequest := 0x21, wValue := 0xb600, wIndex := 0,
      data := [], wLength := 0, timeout := 1000 }).2

/-- The C function `AIOContinuousBufCleanup`.  (Null device: no transfer.) -/
def AIOContinuousBufCleanup (env : USBExternals) (s : Session α) : AIORET_TYPE × Session α :=
  match env.AIODeviceTableGetUSBDeviceAtIndex s.buf.DeviceIndex with
  | .failed result => (negated result, s)
  | .null => (Except.error ResultCode.AIOUSB_ERROR_USBDEVICE_NOT_FOUND, s)
  | .found usb => (Except.ok 0, continuous_end usb s)

/-- The C function `AIOContinuousBufCallbackStart`; `fdivisora` is the
floating-point quotient left open in `CalculateClocks`. -/
def AIOContinuousBufCallbackStart (env : USBExternals) (fdivisora : Nat) (s : Session α) :
    AIORET_TYPE × Session α :=
  let r1 := ResetCounters env s
  if isSuccess r1.1 = false then r1
  else
    let r2 := SetConfig env r1.2
    if isSuccess r2.1 = false then r2
    else
      let r3 := CalculateClocks fdivisora r2.2.buf
      if isSuccess r3.1 = false then (r3.1, { r2.2 with buf := r3.2 })
      else
        let r4 := StartStreaming env { r2.2 with buf := r3.2 }
        if isSuccess r4.1 = false then r4
        else
          let r5 := AIOContinuousBufLoadCounters env r4.2 r4.2.buf.divisora r4.2.buf.divisorb
          if isSuccess r5.1 = false then r5
          else
            let r6 := AIOContinuousBufStart env r5.2
            if isSuccess r6.1 = false then (r6.1, (AIOContinuousBufCleanup env r6.2).2)
            else r6

end Bringup

/-! ## Producer workers -/

/-- The outcome of one `usb_bulk_transfer` of a worker: its result, the number
of bytes transferred and the memory `data` after it. -/
structure BulkOutcome (α : Type) where
  usbresult : Int
  bytes : Nat
  data : Nat → α

/-- The ring object and the locals of `ActualWorkFunction` between two passes
of its loop, with the conversion buffer. -/
structure ActualWork where
  buf : AIOContinuousBuf ℚ
  tmpbuf : Nat → ℚ
  usbfail : Nat
  retval : AIORET_TYPE

/-- One pass of the loop of `ActualWorkFunction` (`usbfail_count` is 5).  The
packet goes to `AIOContinuousBufCopyData` with `bytes` as its `*size`. -/
def ActualWork.pass (env : Externals) (uenv : USBExternals) (w : ActualWork)
    (o : BulkOutcome Nat) : ActualWork :=
  if o.bytes ≠ 0 then
    { w with
      buf := (AIOContinuousBufCopyData env w.buf o.data o.bytes w.tmpbuf).buf
      tmpbuf := (AIOContinuousBufCopyData env w.buf o.data o.bytes w.tmpbuf).tmpbuf
      retval := (AIOContinuousBufCopyData env w.buf o.data o.bytes w.tmpbuf).retval }
  else if o.usbresult < 0 ∧ w.usbfail < 5 then { w with usbfail := w.usbfail + 1 }
  else if w.usbfail ≥ 5 then
    { w with
      retval := negated (uenv.LIBUSB_RESULT_TO_AIOUSB_RESULT o.usbresult)
      buf := { w.buf with
        status := THREAD_STATUS.TERMINATED
        exitcode := -(uenv.LIBUSB_RESULT_TO_AIOUSB_RESULT o.usbresult : Int) } }
  else w

/-- The loop of `ActualWorkFunction` over the outcomes of its bulk transfers:
a pass is made while the status is `RUNNING`. -/
def ActualWork.loop (env : Externals) (uenv : USBExternals) :
    ActualWork → List (BulkOutcome Nat) → ActualWork
  | w, [] => w
  | w, o :: rest =>
    if w.buf.status = THREAD_STATUS.RUNNING then ActualWork.loop env uenv (w.pass env uenv o) rest
    else w

/-- The ring object and the locals of `RawCountsWorkFunction` between two
passes of its loop. -/
structure RawCountsWork (α : Type) where
  buf : AIOContinuousBuf α
  usbfail : Nat
  count : Nat
  retval : AIORET_TYPE

section RawCounts

variable {α : Type}

/-- The C conversion of a `long` value to `int`. -/
def int_of_long (x : Int) : Int := (x + 2147483648) % 4294967296 - 2147483648

/-- The local `tmpcount` of `RawCountsWorkFunction`:
`MIN((int)((buffer_size(buf) - get_write_pos(buf)) - N), (int)(bytes / 2))`. -/
def RawCountsWork.tmpcount (w : RawCountsWork α) (bytes : Nat) : Int :=
  min
    (int_of_long
      ((usub (buffer_size w.buf) (get_write_pos w.buf) : Nat) - (w.buf.num_channels : Int)))
    ((bytes : Int) / 2)

/-- One pass of the loop of `RawCountsWorkFunction`, built without `TESTING`
(`usbfail_count` is 5, `datasize` is `N * 16 * 512`).  The result of the write
is kept in an `int` and added to `count` when it is not negative. -/
def RawCountsWork.pass (uenv : USBExternals) (w : RawCountsWork α) (o : BulkOutcome α) :
    RawCountsWork α :=
  if o.bytes ≠ 0 then
    let written := AIOContinuousBufWriteCounts w.buf o.data
      ((w.buf.num_channels * 16 * 512) % 4294967296 / 2)
      ((w.tmpcount o.bytes % 4294967296).toNat) AIOContinuousBufMode.AIOCONTINUOUS_BUF_ALLORNONE
    let count : Nat :=
      match written.1 with
      | .ok k => if 0 ≤ int_of_unsigned k then uadd w.count k else w.count
      | .error _ => w.count
    if (count : Int) ≥ (buffer_size written.2 : Int) - (w.buf.num_channels : Int) then
      { w with count := count, buf := { written.2 with status := THREAD_STATUS.TERMINATED } }
    else { w with count := count, buf := written.2 }
  else if o.usbresult < 0 ∧ w.usbfail < 5 then { w with usbfail := w.usbfail + 1 }
  else if w.usbfail ≥ 5 then
    { w with
      retval := negated (uenv.LIBUSB_RESULT_TO_AIOUSB_RESULT o.usbresult)
      buf := { w.buf with
        status := THREAD_STATUS.TERMINATED
        exitcode := -(uenv.LIBUSB_RESULT_TO_AIOUSB_RESULT o.usbresult : Int) } }
  else w

/-- The loop of `RawCountsWorkFunction` over the outcomes of its bulk
transfers: a pass is made while the status is `RUNNING`. -/
def RawCountsWork.loop (uenv : USBExternals) :
    RawCountsWork α → List (BulkOutcome α) → RawCountsWork α
  | w, [] => w
  | w, o :: rest =>
    if w.buf.status = THREAD_STATUS.RUNNING then RawCountsWork.loop uenv (w.pass uenv o) rest
    else w

/-- What happens next to the state of the counts worker: the worker is at the
head of its loop with the outcome of its next bulk transfer, or the consumer
makes a read. -/
inductive RawCountsEvent (α : Type) where
  | transfer (o : BulkOutcome α)
  | read (readbuf : Nat → α) (readbufsize size : Nat)

/-- The state of the counts worker after one event; the worker makes a pass
only while the status is `RUNNING`. -/
def RawCountsWork.event (uenv : USBExternals) (w : RawCountsWork α) :
    RawCountsEvent α → RawCountsWork α
  | .transfer o => if w.buf.status = THREAD_STATUS.RUNNING then w.pass uenv o else w
  | .read readbuf readbufsize size =>
    { w with buf := (AIOContinuousBufRead w.buf readbuf readbufsize size).2.1 }

/-- The state of the counts worker after a finite interleaving of its passes
with reads of the consumer. -/
def RawCountsWork.run (uenv : USBExternals) (w : RawCountsWork α)
    (events : List (RawCountsEvent α)) : RawCountsWork α :=
  events.foldl (RawCountsWork.event uenv) w

end RawCounts

/-- A set of externals for the scenarios of the bring-up: one USB device, found
at every index, whose control transfers all return 0, a descriptor that is
found, request constants as the byte traces in the comments of
`continuous_setup` give them, the USB result mapped to its magnitude, and a
thread creation that succeeds. -/
def scenarioUSB : USBExternals :=
  { AIODeviceTableGetUSBDeviceAtIndex := fun _ =>
      USBLookup.found { usb_control_transfer := fun _ _ => 0 }
    AIOUSB_GetDevice_Lock := fun _ => (0, true)
    LIBUSB_RESULT_TO_AIOUSB_RESULT := fun usbresult => usbresult.natAbs
    USB_WRITE_TO_DEVICE := 0x40
    AUR_CTR_MODE := 0x21
    AUR_START_ACQUIRING_BLOCK := 0xBC
    AUR_CTR_MODELOAD := 0x23
    pthread_create := 0 }

/-- A session before bring-up: a fresh volts ring of 4 cells with the clock
set to `hz`, no transfer issued, no worker. -/
def scenarioSession (hz : Nat) : Session Nat :=
  { buf := AIOContinuousBufSetClock (NewAIOContinuousBuf (fun _ => 0) 0 4 1) hz
    transfers := [], mux_config := false, worker := false }

/-- A volts worker at the head of its loop in scenario S5: the fresh ring for 3
channels with status `RUNNING`, no failure counted. -/
def scenarioActualWork : ActualWork :=
  { buf := { scenarioS5_start.buf with status := THREAD_STATUS.RUNNING }
    tmpbuf := scenarioS5_start.tmpbuf, usbfail := 0, retval := Except.ok 0 }

/-- A counts worker at the head of its loop: a fresh ring of counts of 10 scans
of 2 channels with status `RUNNING`, no failure counted, nothing copied. -/
def scenarioRawCountsWork : RawCountsWork Nat :=
  { buf := { NewAIOContinuousBufForCounts (fun _ => 0) 0 10 2 with
      status := THREAD_STATUS.RUNNING }
    usbfail := 0, count := 0, retval := Except.ok 0 }

/-- A bulk transfer that delivers nothing and returns the error `-1`. -/
def scenarioFailure : BulkOutcome Nat := { usbresult := -1, bytes := 0, data := fun _ => 0 }

/-- A bulk transfer that delivers 4 bytes and returns 0. -/
def scenarioDelivery : BulkOutcome Nat := { usbresult := 0, bytes := 4, data := fun i => 100 + i }

/-- A transfer that delivered zero bytes with an error. -/
def BulkOutcome.errored {α : Type} (o : BulkOutcome α) : Bool :=
  decide (o.bytes = 0 ∧ o.usbresult < 0)

/-- The state of a fixed-length capture by the counts worker that the consumer
only reads from: a ring state of fewer than `2^31` cells with `N ≥ 1`
channels, the read position not past the write position, the write position
at most `S - N`, and the accumulated count equal to the write position. -/
def RawCountsWork.Capturing {α : Type} (w : RawCountsWork α) : Prop :=
  RingOK w.buf ∧ w.buf.size < 2147483648 ∧ 1 ≤ w.buf.num_channels ∧
    w.buf._read_pos ≤ w.buf._write_pos ∧ w.buf._write_pos + w.buf.num_channels ≤ w.buf.size ∧
    w.count = w.buf._write_pos

/-- The events that can occur during a capture: the transfers deliver at most
`datasize` bytes, the size asked of a read is arbitrary. -/
def RawCountsEvent.bounded {α : Type} (N : Nat) : RawCountsEvent α → Prop
  | .transfer o => o.bytes ≤ (N * 16 * 512) % 4294967296
  | .read _ _ _ => True

instance {α : Type} (N : Nat) (e : RawCountsEvent α) : Decidable (e.bounded N) := by
  cases e <;> unfold RawCountsEvent.bounded <;> infer_instance

/-- A ring of counts of 2 scans of 2 channels (4 cells) after an all-or-none
write of the three counts 11, 12, 13: one scan and a half. -/
def scenarioHalfScan : AIOContinuousBuf Nat :=
  (AIOContinuousBufWriteCounts (NewAIOContinuousBufForCounts (fun _ => 0) 0 2 2)
    (fun i => 11 + i) 3 3 AIOContinuousBufMode.AIOCONTINUOUS_BUF_ALLORNONE).2

/-! # Theorems -/

section RingFacts

variable {α : Type}

theorem usub_of_le {a b : Nat} (h : b ≤ a) (ha : a < 4294967296) : usub a b = a - b := by
  unfold usub; omega

theorem uadd_of_lt {a b : Nat} (h : a + b < 4294967296) : uadd a b = a + b := by
  unfold uadd; omega

theorem mod_of_lt_two_mul {x S : Nat} (h : x < 2 * S) :
    x % S = if x < S then x else x - S := by
  split
  · exact Nat.mod_eq_of_lt (by assumption)
  · rw [Nat.mod_eq_sub_mod (by omega)]
    exact Nat.mod_eq_of_lt (by omega)

theorem occupancy_eq {buf : AIOContinuousBuf α} (h : RingOK buf) :
    occupancy buf = if buf._read_pos > buf._write_pos
      then buf.size - (buf._read_pos - buf._write_pos) else buf._write_pos - buf._read_pos := by
  obtain ⟨h1, h2, h3, h4⟩ := h
  unfold occupancy
  rw [mod_of_lt_two_mul (by omega)]
  split <;> split <;> omega

theorem occupancy_lt {buf : AIOContinuousBuf α} (h : RingOK buf) : occupancy buf < buf.size := by
  rw [occupancy_eq h]; obtain ⟨h1, h2, h3, h4⟩ := h
  split <;> omega

theorem buffer_max_eq {buf : AIOContinuousBuf α} (h : RingOK buf) :
    buffer_max buf = buf.size - 1 := by
  obtain ⟨h1, h2, h3, h4⟩ := h
  unfold buffer_max buffer_size usub; omega

theorem write_size_eq {buf : AIOContinuousBuf α} (h : RingOK buf) :
    write_size buf = buf.size - occupancy buf := by
  rw [occupancy_eq h]; obtain ⟨h1, h2, h3, h4⟩ := h
  unfold write_size get_read_pos get_write_pos buffer_size usub
  split <;> omega

theorem read_size_eq {buf : AIOContinuousBuf α} (h : RingOK buf) :
    read_size buf = occupancy buf := by
  have ho := occupancy_lt h
  unfold read_size
  rw [write_size_eq h]; obtain ⟨h1, h2, h3, h4⟩ := h
  unfold buffer_size usub; omega

theorem set_write_pos_of_lt {buf : AIOContinuousBuf α} {pos : Nat} (h : 1 ≤ buf.size)
    (h2 : buf.size < 4294967296) (hp : pos < buf.size) :
    set_write_pos buf pos = { buf with _write_pos := pos } := by
  unfold set_write_pos buffer_max buffer_size usub
  rw [if_neg (by omega)]

theorem set_read_pos_of_lt {buf : AIOContinuousBuf α} {pos : Nat} (h : 1 ≤ buf.size)
    (h2 : buf.size < 4294967296) (hp : pos < buf.size) :
    set_read_pos buf pos = { buf with _read_pos := pos } := by
  unfold set_read_pos buffer_max buffer_size usub
  rw [if_neg (by omega)]


/-- An accepted write, whatever the mode: when `size` is below `write_size`
(that is, at most `available`) and the source holds `size` cells, the call
returns `size`, copies a first part to the cells from the write position and
the rest to the cells from 0, and moves the write position by `size`, the sum
being taken in `unsigned`. -/
theorem write_fits {buf : AIOContinuousBuf α} (hok : RingOK buf) (writebuf : Nat → α)
    {wrbufsize size : Nat} (hsrc : size ≤ wrbufsize) (hfit : size ≤ available buf)
    (flag : AIOContinuousBufMode) :
    AIOContinuousBufWrite buf writebuf wrbufsize size flag =
      (Except.ok size,
       { buf with
         buffer := memcpy (memcpy buf.buffer buf._write_pos writebuf 0
             (if buf._read_pos > buf._write_pos then size else min size (buf.size - buf._write_pos)))
           0 writebuf
           (elemOffset buf
             (if buf._read_pos > buf._write_pos then size else min size (buf.size - buf._write_pos)))
           (size - (if buf._read_pos > buf._write_pos then size
             else min size (buf.size - buf._write_pos)))
         _write_pos := ((buf._write_pos + size) % 4294967296) % buf.size }) := by
  have hocc := occupancy_eq hok
  have hws := write_size_eq hok
  have hbm := buffer_max_eq hok
  obtain ⟨h1, h2, h3, h4⟩ := hok
  unfold available at hfit
  have hlt : size < write_size buf := by
    rw [hws]; split at hocc <;> omega
  unfold AIOContinuousBufWrite
  rw [if_neg (by unfold buffer_size; rw [hws] at hlt; omega), if_pos (Or.inl hlt)]
  simp only [hbm, get_read_pos, get_write_pos, buffer_size]
  by_cases hrw : buf._read_pos > buf._write_pos
  · simp only [hrw, if_true]
    rw [if_pos hrw] at hocc
    have e1 : usub (usub buf._read_pos buf._write_pos) 1 = buf._read_pos - buf._write_pos - 1 := by
      unfold usub; omega
    have e2 : min wrbufsize (min size (buf._read_pos - buf._write_pos - 1)) = size := by
      omega
    rw [e1, e2]
    have e3 : uadd size 0 = size := by unfold uadd; omega
    have e4 : uadd (uadd buf._write_pos size) 0 = (buf._write_pos + size) % 4294967296 := by
      unfold uadd; omega
    rw [e3, e4, Nat.sub_self]
    rw [set_write_pos_of_lt] <;> first | exact h1 | exact h2 | exact Nat.mod_lt _ (by omega)
  · simp only [hrw, if_false]
    rw [if_neg hrw] at hocc
    have e1 : uadd (usub (buf.size - 1) buf._write_pos) 1 = buf.size - buf._write_pos := by
      unfold uadd usub; omega
    rw [e1]
    have e2 : min (min size (buf.size - buf._write_pos)) wrbufsize
        = min size (buf.size - buf._write_pos) := by omega
    rw [e2]
    have e3 : usub size (min size (buf.size - buf._write_pos))
        = size - min size (buf.size - buf._write_pos) := by
      unfold usub; omega
    rw [e3]
    have e4 : min (size - min size (buf.size - buf._write_pos)) buf._read_pos
        = size - min size (buf.size - buf._write_pos) := by omega
    rw [e4]
    have e5 : uadd (min size (buf.size - buf._write_pos))
        (size - min size (buf.size - buf._write_pos)) = size := by
      unfold uadd; omega
    have e6 : uadd (uadd buf._write_pos (min size (buf.size - buf._write_pos)))
        (size - min size (buf.size - buf._write_pos)) = (buf._write_pos + size) % 4294967296 := by
      unfold uadd; omega
    rw [e5, e6]
    rw [set_write_pos_of_lt] <;> first | exact h1 | exact h2 | exact Nat.mod_lt _ (by omega)

/-- An all-or-none write that does not fit is refused and returns the ring it
was given. -/
theorem write_allornone_refused {buf : AIOContinuousBuf α} (hok : RingOK buf)
    (writebuf : Nat → α) (wrbufsize : Nat) {size : Nat} (hfit : available buf < size) :
    AIOContinuousBufWrite buf writebuf wrbufsize size
        AIOContinuousBufMode.AIOCONTINUOUS_BUF_ALLORNONE =
      (Except.error ResultCode.AIOUSB_ERROR_NOT_ENOUGH_MEMORY, buf) := by
  have hocc := occupancy_lt hok
  have hws := write_size_eq hok
  unfold available at hfit
  unfold AIOContinuousBufWrite
  by_cases hs : size > buffer_size buf
  · rw [if_pos hs]
  · rw [if_neg hs, if_neg, if_neg]
    · simp only [AIOContinuousBufMode.toNat]; decide
    · rw [hws]
      simp only [reduceCtorEq, or_false, not_lt]
      omega


/-! ## All-or-none writes -/

/-- C1 (amended): for every ring state (`S ≥ 1`, both positions in `[0, S)`) and
every count with a source buffer of at least count elements, an all-or-none
write returns `NotEnoughMemory` exactly when `count > S − 1 − occupancy`;
otherwise it returns exactly count and the write position becomes
`(write_pos + count) mod 2^32 mod S`, which is `(write_pos + count) mod S`
whenever `write_pos + count` is below `2^32`. -/
theorem write_allornone_result (buf : AIOContinuousBuf α) (writebuf : Nat → α)
    (wrbufsize size : Nat) (hok : RingOK buf) (hsrc : size ≤ wrbufsize) :
    ((AIOContinuousBufWrite buf writebuf wrbufsize size
          AIOContinuousBufMode.AIOCONTINUOUS_BUF_ALLORNONE).1
        = Except.error ResultCode.AIOUSB_ERROR_NOT_ENOUGH_MEMORY
      ↔ size > buf.size - 1 - occupancy buf) ∧
    (¬ size > buf.size - 1 - occupancy buf →
      (AIOContinuousBufWrite buf writebuf wrbufsize size
          AIOContinuousBufMode.AIOCONTINUOUS_BUF_ALLORNONE).1 = Except.ok size ∧
      (AIOContinuousBufWrite buf writebuf wrbufsize size
          AIOContinuousBufMode.AIOCONTINUOUS_BUF_ALLORNONE).2._write_pos
        = (buf._write_pos + size) % 4294967296 % buf.size ∧
      (buf._write_pos + size < 4294967296 →
        (AIOContinuousBufWrite buf writebuf wrbufsize size
            AIOContinuousBufMode.AIOCONTINUOUS_BUF_ALLORNONE).2._write_pos
          = (buf._write_pos + size) % buf.size)) := by
  by_cases hfit : size > buf.size - 1 - occupancy buf
  · have hfit' : available buf < size := by unfold available; exact hfit
    have hr := write_allornone_refused hok writebuf wrbufsize hfit'
    rw [hr]
    exact ⟨⟨fun _ => hfit, fun _ => rfl⟩, fun h => absurd hfit h⟩
  · have ha := write_fits hok writebuf hsrc (by unfold available; omega)
      AIOContinuousBufMode.AIOCONTINUOUS_BUF_ALLORNONE
    rw [ha]
    refine ⟨⟨fun h => ?_, fun h => absurd h hfit⟩, fun _ => ⟨rfl, rfl, fun hlt => ?_⟩⟩
    · simp at h
    · show (buf._write_pos + size) % 4294967296 % buf.size = _
      rw [Nat.mod_eq_of_lt hlt]

/-- C1, witness: a volts ring of 10 cells holding 4 elements accepts a write of
5 and refuses nothing it could hold. -/
theorem write_allornone_result_witness :
    ((AIOContinuousBufWrite (ringAt (fun _ => (0 : Nat)) 10 false 5 9) (fun i => 10 + i) 5 5
          AIOContinuousBufMode.AIOCONTINUOUS_BUF_ALLORNONE).1
        = Except.error ResultCode.AIOUSB_ERROR_NOT_ENOUGH_MEMORY
      ↔ 5 > (ringAt (fun _ => (0 : Nat)) 10 false 5 9).size - 1
          - occupancy (ringAt (fun _ => (0 : Nat)) 10 false 5 9)) ∧
    (¬ 5 > (ringAt (fun _ => (0 : Nat)) 10 false 5 9).size - 1
          - occupancy (ringAt (fun _ => (0 : Nat)) 10 false 5 9) →
      (AIOContinuousBufWrite (ringAt (fun _ => (0 : Nat)) 10 false 5 9) (fun i => 10 + i) 5 5
          AIOContinuousBufMode.AIOCONTINUOUS_BUF_ALLORNONE).1 = Except.ok 5 ∧
      (AIOContinuousBufWrite (ringAt (fun _ => (0 : Nat)) 10 false 5 9) (fun i => 10 + i) 5 5
          AIOContinuousBufMode.AIOCONTINUOUS_BUF_ALLORNONE).2._write_pos
        = ((ringAt (fun _ => (0 : Nat)) 10 false 5 9)._write_pos + 5) % 4294967296
          % (ringAt (fun _ => (0 : Nat)) 10 false 5 9).size ∧
      ((ringAt (fun _ => (0 : Nat)) 10 false 5 9)._write_pos + 5 < 4294967296 →
        (AIOContinuousBufWrite (ringAt (fun _ => (0 : Nat)) 10 false 5 9) (fun i => 10 + i) 5 5
            AIOContinuousBufMode.AIOCONTINUOUS_BUF_ALLORNONE).2._write_pos
          = ((ringAt (fun _ => (0 : Nat)) 10 false 5 9)._write_pos + 5)
            % (ringAt (fun _ => (0 : Nat)) 10 false 5 9).size)) :=
  write_allornone_result (ringAt (fun _ => (0 : Nat)) 10 false 5 9) (fun i => 10 + i) 5 5
    (by decide) (by decide)

/-- C1, counterexample: a ring of `3 * 2^30` cells, empty at its last cell,
accepts an all-or-none write of `2^30 + 1` elements (the source holds as many)
and returns that count, but the `unsigned` sum `write_pos + count` is `2^32`
and wraps to 0: the write position becomes 0, not
`(write_pos + count) mod S = 2^30`. -/
theorem write_allornone_wraps :
    RingOK (ringAt (fun _ => (0 : Nat)) 3221225472 false 3221225471 3221225471) ∧
    occupancy (ringAt (fun _ => (0 : Nat)) 3221225472 false 3221225471 3221225471) = 0 ∧
    (AIOContinuousBufWrite (ringAt (fun _ => (0 : Nat)) 3221225472 false 3221225471 3221225471)
        (fun i => i) 1073741825 1073741825
        AIOContinuousBufMode.AIOCONTINUOUS_BUF_ALLORNONE).1 = Except.ok 1073741825 ∧
    (AIOContinuousBufWrite (ringAt (fun _ => (0 : Nat)) 3221225472 false 3221225471 3221225471)
        (fun i => i) 1073741825 1073741825
        AIOContinuousBufMode.AIOCONTINUOUS_BUF_ALLORNONE).2._write_pos = 0 ∧
    ((ringAt (fun _ => (0 : Nat)) 3221225472 false 3221225471 3221225471)._write_pos
        + 1073741825) % (ringAt (fun _ => (0 : Nat)) 3221225472 false 3221225471 3221225471).size
      = 1073741824 := by
  refine ⟨by decide, by decide, by rfl, by rfl, by decide⟩

/-- C2: whenever an all-or-none write is refused with `NotEnoughMemory`, the
ring is returned exactly as it was given: positions, `extra` and every stored
element (indeed every field) are unchanged. -/
theorem write_allornone_refusal_keeps_ring (buf : AIOContinuousBuf α) (writebuf : Nat → α)
    (wrbufsize size : Nat)
    (href : (AIOContinuousBufWrite buf writebuf wrbufsize size
        AIOContinuousBufMode.AIOCONTINUOUS_BUF_ALLORNONE).1
      = Except.error ResultCode.AIOUSB_ERROR_NOT_ENOUGH_MEMORY) :
    (AIOContinuousBufWrite buf writebuf wrbufsize size
        AIOContinuousBufMode.AIOCONTINUOUS_BUF_ALLORNONE).2 = buf := by
  unfold AIOContinuousBufWrite at href ⊢
  split_ifs at href ⊢ <;> rfl

/-- C2, witness (scenario S2): a ring of 4 cells holding 2 elements refuses an
all-or-none write of 3 and is left as it was. -/
theorem write_allornone_refusal_keeps_ring_witness :
    (AIOContinuousBufWrite (ringAt (fun _ => (0 : Nat)) 4 false 0 2) (fun i => i) 3 3
        AIOContinuousBufMode.AIOCONTINUOUS_BUF_ALLORNONE).1
      = Except.error ResultCode.AIOUSB_ERROR_NOT_ENOUGH_MEMORY ∧
    (AIOContinuousBufWrite (ringAt (fun _ => (0 : Nat)) 4 false 0 2) (fun i => i) 3 3
        AIOContinuousBufMode.AIOCONTINUOUS_BUF_ALLORNONE).2
      = ringAt (fun _ => (0 : Nat)) 4 false 0 2 :=
  ⟨by rfl, write_allornone_refusal_keeps_ring (ringAt (fun _ => (0 : Nat)) 4 false 0 2)
    (fun i => i) 3 3 (by rfl)⟩


/-! ## The ring as a queue -/

theorem mod_cases {x S : Nat} (h : x < 2 * S) :
    (x < S ∧ x % S = x) ∨ (S ≤ x ∧ x % S = x - S) := by
  have := mod_of_lt_two_mul h
  by_cases hx : x < S
  · left; rw [if_pos hx] at this; exact ⟨hx, this⟩
  · right; rw [if_neg hx] at this; exact ⟨by omega, this⟩

theorem elemOffset_volts {buf : AIOContinuousBuf α}
    (hv : buf.bufunitsize = sizeofAIOBufferType) (i : Nat) : elemOffset buf i = i := by
  unfold elemOffset; rw [hv]; simp [sizeofAIOBufferType]

theorem contents_eq_of_cells {buf buf' : AIOContinuousBuf α} {n : Nat} {tail : Nat → α}
    (hsize : buf'.size = buf.size) (hread : buf'._read_pos = buf._read_pos)
    (hocc : occupancy buf' = occupancy buf + n)
    (hold : ∀ i, i < occupancy buf →
      buf'.buffer ((buf._read_pos + i) % buf.size) = buf.buffer ((buf._read_pos + i) % buf.size))
    (hnew : ∀ j, j < n →
      buf'.buffer ((buf._read_pos + (occupancy buf + j)) % buf.size) = tail j) :
    contents buf' = contents buf ++ firstCells tail n := by
  unfold contents firstCells
  rw [hocc, hsize, hread, List.range_add, List.map_append, List.map_map]
  congr 1
  · apply List.map_congr_left
    intro i hi
    exact hold i (List.mem_range.mp hi)
  · apply List.map_congr_left
    intro j hj
    exact hnew j (List.mem_range.mp hj)


/-- The ring left by an accepted write, as a queue: it is a ring state, it holds
`size` elements more, and they are the first `size` cells of the source, after
the elements it held. -/
theorem queue_after_write {buf : AIOContinuousBuf α} (hok : RingOK buf)
    (writebuf : Nat → α) {size B : Nat}
    (hfit : size ≤ available buf)
    (hB : B = if buf._read_pos > buf._write_pos then size
      else min size (buf.size - buf._write_pos)) :
    RingOK { buf with
      buffer := memcpy (memcpy buf.buffer buf._write_pos writebuf 0 B) 0 writebuf B (size - B)
      _write_pos := (buf._write_pos + size) % buf.size } ∧
    occupancy { buf with
      buffer := memcpy (memcpy buf.buffer buf._write_pos writebuf 0 B) 0 writebuf B (size - B)
      _write_pos := (buf._write_pos + size) % buf.size } = occupancy buf + size ∧
    contents { buf with
      buffer := memcpy (memcpy buf.buffer buf._write_pos writebuf 0 B) 0 writebuf B (size - B)
      _write_pos := (buf._write_pos + size) % buf.size }
      = contents buf ++ firstCells writebuf size := by
  have hocc := occupancy_eq hok
  have hoccl := occupancy_lt hok
  obtain ⟨h1, h2, h3, h4⟩ := hok
  unfold available at hfit
  have hwlt : (buf._write_pos + size) % buf.size < buf.size := Nat.mod_lt _ (by omega)
  have hok' : RingOK { buf with
      buffer := memcpy (memcpy buf.buffer buf._write_pos writebuf 0 B) 0 writebuf B (size - B)
      _write_pos := (buf._write_pos + size) % buf.size } := ⟨h1, h2, h3, hwlt⟩
  have hocc' : occupancy { buf with
      buffer := memcpy (memcpy buf.buffer buf._write_pos writebuf 0 B) 0 writebuf B (size - B)
      _write_pos := (buf._write_pos + size) % buf.size } = occupancy buf + size := by
    rw [occupancy_eq hok']
    simp only
    rcases mod_cases (x := buf._write_pos + size) (S := buf.size) (by omega) with ⟨_, e⟩ | ⟨_, e⟩ <;>
      rw [e] <;> split at hocc <;> split <;> omega
  refine ⟨hok', hocc', ?_⟩
  refine @contents_eq_of_cells α buf _ _ _ rfl rfl hocc' ?_ ?_
  · intro i hi
    simp only [memcpy]
    by_cases hrw : buf._read_pos > buf._write_pos
    · rw [if_pos hrw] at hocc hB
      rcases mod_cases (x := buf._read_pos + i) (S := buf.size) (by omega)
        with ⟨hx, e⟩ | ⟨hx, e⟩ <;>
        rw [e, if_neg (by omega), if_neg (by omega)]
    · rw [if_neg hrw] at hocc hB
      rcases mod_cases (x := buf._read_pos + i) (S := buf.size) (by omega)
        with ⟨hx, e⟩ | ⟨hx, e⟩ <;>
        rw [e, if_neg (by omega), if_neg (by omega)]
  · intro j hj
    simp only [memcpy]
    by_cases hrw : buf._read_pos > buf._write_pos
    · rw [if_pos hrw] at hocc hB
      rcases mod_cases (x := buf._read_pos + (occupancy buf + j)) (S := buf.size) (by omega)
        with ⟨hx, e⟩ | ⟨hx, e⟩ <;>
        rw [e] <;> split_ifs <;> first | omega | (congr 1; omega)
    · rw [if_neg hrw] at hocc hB
      rcases mod_cases (x := buf._read_pos + (occupancy buf + j)) (S := buf.size) (by omega)
        with ⟨hx, e⟩ | ⟨hx, e⟩ <;>
        rw [e] <;> split_ifs <;> first | omega | (congr 1; omega)

/-- An accepted write on a ring of `AIOBufferType` elements, when the `unsigned`
sum `write_pos + size` does not wrap, appends the first `size` cells of the
source to the stored elements. -/
theorem write_fits_queue {buf : AIOContinuousBuf α} (hok : RingOK buf)
    (hv : buf.bufunitsize = sizeofAIOBufferType)
    (hsum : buf._write_pos + size < 4294967296)
    (writebuf : Nat → α) {wrbufsize : Nat} (hsrc : size ≤ wrbufsize)
    (hfit : size ≤ available buf) (flag : AIOContinuousBufMode) :
    RingOK (AIOContinuousBufWrite buf writebuf wrbufsize size flag).2 ∧
    (AIOContinuousBufWrite buf writebuf wrbufsize size flag).2.bufunitsize = buf.bufunitsize ∧
    (AIOContinuousBufWrite buf writebuf wrbufsize size flag).2.size = buf.size ∧
    (AIOContinuousBufWrite buf writebuf wrbufsize size flag).2._read_pos = buf._read_pos ∧
    occupancy (AIOContinuousBufWrite buf writebuf wrbufsize size flag).2 = occupancy buf + size ∧
    contents (AIOContinuousBufWrite buf writebuf wrbufsize size flag).2
      = contents buf ++ firstCells writebuf size := by
  have hw : (buf._write_pos + size) % 4294967296 = buf._write_pos + size :=
    Nat.mod_eq_of_lt hsum
  have A := queue_after_write hok writebuf hfit rfl
  rw [write_fits hok writebuf hsrc hfit flag, hw, elemOffset_volts hv]
  exact ⟨A.1, rfl, rfl, rfl, A.2.1, A.2.2⟩


/-! ## Reads -/

/-- What a read does on a ring state: it returns `min size occupancy`, advances
the read position by that count modulo `S`, and copies a first part from the
cells at the read position and the rest from the cells at 0, the latter to
where `&readbuf[basic_copy]` points. -/
theorem read_result {buf : AIOContinuousBuf α} (hok : RingOK buf) (readbuf : Nat → α)
    (readbufsize : Nat) {size : Nat} (hsz : size < 4294967296) :
    AIOContinuousBufRead buf readbuf readbufsize size =
      (Except.ok (min size (occupancy buf)),
       { buf with _read_pos := (buf._read_pos + min size (occupancy buf)) % buf.size },
       memcpy
         (memcpy readbuf 0 buf.buffer buf._read_pos
           (if buf._read_pos ≤ buf._write_pos then min size (occupancy buf)
            else min size (buf.size - buf._read_pos)))
         (elemOffset buf
           (if buf._read_pos ≤ buf._write_pos then min size (occupancy buf)
            else min size (buf.size - buf._read_pos)))
         buf.buffer 0
         (min size (occupancy buf) -
           (if buf._read_pos ≤ buf._write_pos then min size (occupancy buf)
            else min size (buf.size - buf._read_pos)))) := by
  have hocc := occupancy_eq hok
  obtain ⟨h1, h2, h3, h4⟩ := hok
  unfold AIOContinuousBufRead
  simp only [get_read_pos, get_write_pos, buffer_size]
  by_cases hrw : buf._read_pos ≤ buf._write_pos
  · rw [if_neg (by omega)] at hocc
    simp only [hrw, if_true]
    have e1 : usub buf._write_pos buf._read_pos = occupancy buf := by
      unfold usub; omega
    rw [e1]
    simp only [ne_eq, not_true_eq_false, if_false, Nat.sub_self]
    have e2 : (buf._read_pos + min size (occupancy buf)) % buf.size % 4294967296
        = (buf._read_pos + min size (occupancy buf)) % buf.size :=
      Nat.mod_eq_of_lt (lt_trans (Nat.mod_lt _ (by omega)) h2)
    rw [e2, set_read_pos_of_lt h1 h2 (Nat.mod_lt _ (by omega))]
  · rw [if_pos (by omega)] at hocc
    simp only [hrw, if_false]
    have e1 : usub buf.size buf._read_pos = buf.size - buf._read_pos := by
      unfold usub; omega
    rw [e1]
    have e2 : usub size (min size (buf.size - buf._read_pos))
        = size - min size (buf.size - buf._read_pos) := by
      unfold usub; omega
    rw [e2]
    have e3 : min (size - min size (buf.size - buf._read_pos)) buf._write_pos
        = min size (occupancy buf) - min size (buf.size - buf._read_pos) := by omega
    rw [e3]
    have e4 : (if min size (occupancy buf) - min size (buf.size - buf._read_pos) ≠ 0
          then uadd (min size (buf.size - buf._read_pos))
            (min size (occupancy buf) - min size (buf.size - buf._read_pos))
          else min size (buf.size - buf._read_pos)) = min size (occupancy buf) := by
      unfold uadd; split <;> omega
    rw [e4]
    have e5 : (buf._read_pos + min size (occupancy buf)) % buf.size % 4294967296
        = (buf._read_pos + min size (occupancy buf)) % buf.size :=
      Nat.mod_eq_of_lt (lt_trans (Nat.mod_lt _ (by omega)) h2)
    rw [e5, set_read_pos_of_lt h1 h2 (Nat.mod_lt _ (by omega))]


/-- Advancing the read position by `K ≤ occupancy` removes the `K` oldest
elements from the stored ones and nothing else. -/
theorem queue_after_read {buf : AIOContinuousBuf α} (hok : RingOK buf) {K : Nat}
    (hK : K ≤ occupancy buf) :
    RingOK { buf with _read_pos := (buf._read_pos + K) % buf.size } ∧
    occupancy { buf with _read_pos := (buf._read_pos + K) % buf.size } = occupancy buf - K ∧
    contents buf = (List.range K).map (fun i => buf.buffer ((buf._read_pos + i) % buf.size))
      ++ contents { buf with _read_pos := (buf._read_pos + K) % buf.size } := by
  have hocc := occupancy_eq hok
  have hoccl := occupancy_lt hok
  obtain ⟨h1, h2, h3, h4⟩ := hok
  have hrlt : (buf._read_pos + K) % buf.size < buf.size := Nat.mod_lt _ (by omega)
  have hok' : RingOK { buf with _read_pos := (buf._read_pos + K) % buf.size } :=
    ⟨h1, h2, hrlt, h4⟩
  have hocc' : occupancy { buf with _read_pos := (buf._read_pos + K) % buf.size }
      = occupancy buf - K := by
    rw [occupancy_eq hok']
    simp only
    rcases mod_cases (x := buf._read_pos + K) (S := buf.size) (by omega) with ⟨_, e⟩ | ⟨_, e⟩ <;>
      rw [e] <;> split at hocc <;> split <;> omega
  refine ⟨hok', hocc', ?_⟩
  have hsplit : occupancy buf = K + (occupancy buf - K) := by omega
  unfold contents
  rw [hocc']
  conv_lhs => rw [hsplit, List.range_add, List.map_append, List.map_map]
  congr 1
  apply List.map_congr_left
  intro i _
  simp only [Function.comp]
  rw [Nat.mod_add_mod, Nat.add_assoc]

/-- On a ring of `AIOBufferType` elements a read delivers the elements it
removes to the first cells of `readbuf`, oldest first. -/
theorem read_delivers {buf : AIOContinuousBuf α} (hok : RingOK buf)
    (hv : buf.bufunitsize = sizeofAIOBufferType) (readbuf : Nat → α) (readbufsize : Nat)
    {size : Nat} (hsz : size < 4294967296) :
    firstCells (AIOContinuousBufRead buf readbuf readbufsize size).2.2 (min size (occupancy buf))
      = (List.range (min size (occupancy buf))).map
          (fun i => buf.buffer ((buf._read_pos + i) % buf.size)) := by
  rw [read_result hok readbuf readbufsize hsz, elemOffset_volts hv]
  have hocc := occupancy_eq hok
  obtain ⟨h1, h2, h3, h4⟩ := hok
  unfold firstCells
  apply List.map_congr_left
  intro j hj
  have hj' := List.mem_range.mp hj
  simp only [memcpy]
  by_cases hrw : buf._read_pos ≤ buf._write_pos
  · rw [if_neg (by omega)] at hocc
    simp only [hrw, if_true]
    rw [if_neg (by omega), if_pos (by omega), Nat.mod_eq_of_lt (by omega)]
    congr 1
  · rw [if_pos (by omega)] at hocc
    simp only [hrw, if_false]
    rcases mod_cases (x := buf._read_pos + j) (S := buf.size) (by omega) with ⟨hx, e⟩ | ⟨hx, e⟩
    · rw [e, if_neg (by omega), if_pos (by omega)]
      congr 1
    · rw [e, if_pos (by omega)]
      congr 1
      omega


/-! ## First in, first out -/

theorem step_accounted {t : RingRun α} (ht : t.Accounted) {op : RingOp α} (hop : op.argsOK) :
    (t.step op).Accounted := by
  obtain ⟨hok, hv, hS, hacc⟩ := ht
  cases op with
  | write writebuf wrbufsize size =>
    simp only [RingOp.argsOK] at hop
    by_cases hfit : size ≤ available t.buf
    · have hsum : t.buf._write_pos + size < 4294967296 := by
        have hoccl := occupancy_lt hok
        obtain ⟨h1, h2, h3, h4⟩ := hok
        unfold available at hfit
        omega
      have hq := write_fits_queue hok hv hsum writebuf hop hfit
        AIOContinuousBufMode.AIOCONTINUOUS_BUF_ALLORNONE
      have hr : (AIOContinuousBufWrite t.buf writebuf wrbufsize size
          AIOContinuousBufMode.AIOCONTINUOUS_BUF_ALLORNONE).1 = Except.ok size := by
        rw [write_fits hok writebuf hop hfit]
      simp only [RingRun.step, hr]
      refine ⟨hq.1, hq.2.1.trans hv, ?_, ?_⟩
      · show (AIOContinuousBufWrite t.buf writebuf wrbufsize size
          AIOContinuousBufMode.AIOCONTINUOUS_BUF_ALLORNONE).2.size ≤ 2147483648
        rw [hq.2.2.1]; exact hS
      · show t.written ++ firstCells writebuf size = t.readout ++ contents
          (AIOContinuousBufWrite t.buf writebuf wrbufsize size
            AIOContinuousBufMode.AIOCONTINUOUS_BUF_ALLORNONE).2
        rw [hq.2.2.2.2.2, hacc, List.append_assoc]
    · have hfit' : available t.buf < size := by omega
      have hr := write_allornone_refused hok writebuf wrbufsize hfit'
      simp only [RingRun.step, hr]
      exact ⟨hok, hv, hS, hacc⟩
  | read readbuf readbufsize size =>
    simp only [RingOp.argsOK] at hop
    have hres := read_result hok readbuf readbufsize hop
    have hdel := read_delivers hok hv readbuf readbufsize hop
    have hq := queue_after_read hok (K := min size (occupancy t.buf)) (Nat.min_le_right _ _)
    have hr : (AIOContinuousBufRead t.buf readbuf readbufsize size).1
        = Except.ok (min size (occupancy t.buf)) := by rw [hres]
    have hb : (AIOContinuousBufRead t.buf readbuf readbufsize size).2.1
        = { t.buf with _read_pos := (t.buf._read_pos + min size (occupancy t.buf)) % t.buf.size } := by
      rw [hres]
    simp only [RingRun.step, hr]
    refine ⟨?_, ?_, ?_, ?_⟩
    · show RingOK (AIOContinuousBufRead t.buf readbuf readbufsize size).2.1
      rw [hb]; exact hq.1
    · show (AIOContinuousBufRead t.buf readbuf readbufsize size).2.1.bufunitsize = _
      rw [hb]; exact hv
    · show (AIOContinuousBufRead t.buf readbuf readbufsize size).2.1.size ≤ _
      rw [hb]; exact hS
    · show t.written = (t.readout ++ firstCells
          (AIOContinuousBufRead t.buf readbuf readbufsize size).2.2 (min size (occupancy t.buf)))
          ++ contents (AIOContinuousBufRead t.buf readbuf readbufsize size).2.1
      rw [hdel, hb, List.append_assoc, ← hq.2.2]
      exact hacc

theorem foldl_accounted (ops : List (RingOp α)) :
    ∀ t : RingRun α, t.Accounted → (∀ op ∈ ops, op.argsOK) →
      (ops.foldl RingRun.step t).Accounted := by
  induction ops with
  | nil => intro t ht _; exact ht
  | cons op rest ih =>
    intro t ht hops
    rw [List.foldl_cons]
    exact ih _ (step_accounted ht (hops op (List.mem_cons_self _ _)))
      (fun o ho => hops o (List.mem_cons_of_mem _ ho))

theorem contents_of_empty {buf : AIOContinuousBuf α} (hok : RingOK buf)
    (hempty : buf._read_pos = buf._write_pos) : contents buf = [] := by
  have hocc := occupancy_eq hok
  rw [if_neg (by omega)] at hocc
  unfold contents
  rw [hocc, hempty, Nat.sub_self]
  rfl

/-- C3 (amended): the ring is a FIFO when its elements are `AIOBufferType`
values (a volts ring) and `S ≤ 2^31`.  Starting from an empty ring state
(`read_pos = write_pos`, as after construction or reset), for every finite
interleaving of all-or-none writes (accepted or refused, each from a source of
at least count elements) and reads, the elements of the accepted writes,
concatenated, are the elements returned by the reads, concatenated, followed by
the elements the ring still stores: the reads return a prefix of what was
written, with nothing lost, duplicated or reordered. -/
theorem ring_is_fifo (buf : AIOContinuousBuf α) (ops : List (RingOp α)) (hok : RingOK buf)
    (hv : buf.bufunitsize = sizeofAIOBufferType) (hS : buf.size ≤ 2147483648)
    (hempty : buf._read_pos = buf._write_pos) (hops : ∀ op ∈ ops, op.argsOK) :
    (runOps buf ops).readout <+: (runOps buf ops).written ∧
    (runOps buf ops).written = (runOps buf ops).readout ++ contents (runOps buf ops).buf := by
  have h0 : RingRun.Accounted { buf := buf, written := [], readout := [] } :=
    ⟨hok, hv, hS, by simp [contents_of_empty hok hempty]⟩
  have h := foldl_accounted ops _ h0 hops
  unfold runOps
  exact ⟨⟨_, h.2.2.2.symm⟩, h.2.2.2⟩


/-- C3, witness (scenario S1): on a fresh volts ring of 10 cells, write
`[1..9]`, read 5, write `[10..14]`, read 5 and read 4 return `[1..14]` in
order and leave the ring empty. -/
theorem ring_is_fifo_witness :
    (runOps (NewAIOContinuousBuf (fun _ => (0 : Nat)) 0 10 1) scenarioS1).readout
      = [1, 2, 3, 4, 5, 6, 7, 8, 9, 10, 11, 12, 13, 14] ∧
    occupancy (runOps (NewAIOContinuousBuf (fun _ => (0 : Nat)) 0 10 1) scenarioS1).buf = 0 ∧
    ((runOps (NewAIOContinuousBuf (fun _ => (0 : Nat)) 0 10 1) scenarioS1).readout
        <+: (runOps (NewAIOContinuousBuf (fun _ => (0 : Nat)) 0 10 1) scenarioS1).written ∧
     (runOps (NewAIOContinuousBuf (fun _ => (0 : Nat)) 0 10 1) scenarioS1).written
        = (runOps (NewAIOContinuousBuf (fun _ => (0 : Nat)) 0 10 1) scenarioS1).readout
          ++ contents (runOps (NewAIOContinuousBuf (fun _ => (0 : Nat)) 0 10 1) scenarioS1).buf) :=
  ⟨by decide, by decide,
   ring_is_fifo (NewAIOContinuousBuf (fun _ => (0 : Nat)) 0 10 1) scenarioS1 (by decide)
     (by decide) (by decide) (by decide) (by simp [scenarioS1, RingOp.argsOK])⟩

/-- C3, counterexample.  Scenario S1 on a fresh ring of 10 cells of 16-bit
counts: the second write wraps after one cell and takes the rest from cell 4 of
the source on, so the last read returns `[14, 15, 16, 17]` where
`[11, 12, 13, 14]` was written, and what was read is no prefix of what was
written.  And on a volts ring of `3 * 2^30` cells, empty at its last cell (where
a fresh ring stands once `S − 1` elements were written and read), an accepted
write of `2^30 + 1` elements leaves the ring reporting one stored element: the
others are lost to its readers. -/
theorem ring_not_fifo :
    (runOps (NewAIOContinuousBufForCounts (fun _ => (0 : Nat)) 0 10 1) scenarioS1).written
      = [1, 2, 3, 4, 5, 6, 7, 8, 9, 10, 11, 12, 13, 14] ∧
    (runOps (NewAIOContinuousBufForCounts (fun _ => (0 : Nat)) 0 10 1) scenarioS1).readout
      = [1, 2, 3, 4, 5, 6, 7, 8, 9, 10, 14, 15, 16, 17] ∧
    ¬ ((runOps (NewAIOContinuousBufForCounts (fun _ => (0 : Nat)) 0 10 1) scenarioS1).readout
      <+: (runOps (NewAIOContinuousBufForCounts (fun _ => (0 : Nat)) 0 10 1) scenarioS1).written) ∧
    (AIOContinuousBufWrite (ringAt (fun _ => (0 : Nat)) 3221225472 false 3221225471 3221225471)
        (fun i => i) 1073741825 1073741825
        AIOContinuousBufMode.AIOCONTINUOUS_BUF_ALLORNONE).1 = Except.ok 1073741825 ∧
    occupancy (AIOContinuousBufWrite
        (ringAt (fun _ => (0 : Nat)) 3221225472 false 3221225471 3221225471)
        (fun i => i) 1073741825 1073741825
        AIOContinuousBufMode.AIOCONTINUOUS_BUF_ALLORNONE).2 = 1 := by
  refine ⟨by decide, by decide, by decide, by rfl, by decide⟩

/-! ## Round trip -/

theorem occupancy_of_empty {buf : AIOContinuousBuf α} (hok : RingOK buf)
    (hempty : buf._read_pos = buf._write_pos) : occupancy buf = 0 := by
  have hocc := occupancy_eq hok
  rw [if_neg (by omega)] at hocc
  omega

/-- C4 (amended): for a ring of `AIOBufferType` elements (a volts ring) that is
empty with `read_pos = write_pos` at any position `p` in `[0, S)` - so that the
write may wrap around the end of the storage - and for every `x` of length
`n ≤ S − 1` with `p + n < 2^32`, `write(x, n, ALL_OR_NONE)` returns `n` and the
following `read(y, n)` returns `n` with `y` equal to `x` element for element. -/
theorem write_then_read_roundtrip (buf : AIOContinuousBuf α) (x y : Nat → α)
    (wrbufsize readbufsize n : Nat) (hok : RingOK buf)
    (hv : buf.bufunitsize = sizeofAIOBufferType) (hempty : buf._read_pos = buf._write_pos)
    (hn : n ≤ buf.size - 1) (hsrc : n ≤ wrbufsize)
    (hsum : buf._write_pos + n < 4294967296) :
    (AIOContinuousBufWrite buf x wrbufsize n
        AIOContinuousBufMode.AIOCONTINUOUS_BUF_ALLORNONE).1 = Except.ok n ∧
    (AIOContinuousBufRead (AIOContinuousBufWrite buf x wrbufsize n
        AIOContinuousBufMode.AIOCONTINUOUS_BUF_ALLORNONE).2 y readbufsize n).1 = Except.ok n ∧
    ∀ i, i < n →
      (AIOContinuousBufRead (AIOContinuousBufWrite buf x wrbufsize n
        AIOContinuousBufMode.AIOCONTINUOUS_BUF_ALLORNONE).2 y readbufsize n).2.2 i = x i := by
  have hocc0 := occupancy_of_empty hok hempty
  have hfit : n ≤ available buf := by unfold available; omega
  have hq := write_fits_queue hok hv hsum x hsrc hfit
    AIOContinuousBufMode.AIOCONTINUOUS_BUF_ALLORNONE
  have hw1 : (AIOContinuousBufWrite buf x wrbufsize n
      AIOContinuousBufMode.AIOCONTINUOUS_BUF_ALLORNONE).1 = Except.ok n := by
    rw [write_fits hok x hsrc hfit]
  obtain ⟨hokW, hvW, hsW, _, hoccW, hcW⟩ := hq
  have hn32 : n < 4294967296 := by obtain ⟨h1, h2, h3, h4⟩ := hok; omega
  have hmin : min n (occupancy (AIOContinuousBufWrite buf x wrbufsize n
      AIOContinuousBufMode.AIOCONTINUOUS_BUF_ALLORNONE).2) = n := by
    rw [hoccW]; omega
  have hres := read_result hokW y readbufsize hn32
  have hdel := read_delivers hokW (hvW.trans hv) y readbufsize hn32
  rw [hmin] at hdel
  refine ⟨hw1, ?_, ?_⟩
  · rw [hres, hmin]
  · have hc : contents (AIOContinuousBufWrite buf x wrbufsize n
        AIOContinuousBufMode.AIOCONTINUOUS_BUF_ALLORNONE).2 = firstCells x n := by
      rw [hcW, contents_of_empty hok hempty, List.nil_append]
    unfold contents at hc
    rw [hoccW, hocc0, Nat.zero_add] at hc
    rw [← hdel] at hc
    unfold firstCells at hc
    intro i hi
    exact List.map_inj_left.mp hc i (List.mem_range.mpr hi)

/-- C4, witness: a volts ring of 4 cells, empty at position 2, takes 3 elements
across the end of its storage and gives them back. -/
theorem write_then_read_roundtrip_witness :
    (AIOContinuousBufWrite (ringAt (fun _ => (0 : Nat)) 4 false 2 2) (fun i => 1 + i) 16 3
        AIOContinuousBufMode.AIOCONTINUOUS_BUF_ALLORNONE).1 = Except.ok 3 ∧
    (AIOContinuousBufRead (AIOContinuousBufWrite (ringAt (fun _ => (0 : Nat)) 4 false 2 2)
        (fun i => 1 + i) 16 3 AIOContinuousBufMode.AIOCONTINUOUS_BUF_ALLORNONE).2
        (fun _ => 0) 16 3).1 = Except.ok 3 ∧
    ∀ i, i < 3 →
      (AIOContinuousBufRead (AIOContinuousBufWrite (ringAt (fun _ => (0 : Nat)) 4 false 2 2)
        (fun i => 1 + i) 16 3 AIOContinuousBufMode.AIOCONTINUOUS_BUF_ALLORNONE).2
        (fun _ => 0) 16 3).2.2 i = (fun i => 1 + i) i :=
  write_then_read_roundtrip (ringAt (fun _ => (0 : Nat)) 4 false 2 2) (fun i => 1 + i)
    (fun _ => 0) 16 16 3 (by decide) (by decide) (by decide) (by decide) (by decide) (by decide)

/-- C4, counterexample.  A ring of 4 cells of 16-bit counts, empty at position
2: a write of the first 3 cells of a 16-cell source `[1, 2, 3, ...]` returns 3
and the following read of 3 into a 16-cell destination of zeros returns 3, but
the wrapped part is taken from cell 8 of the source and delivered to cell 8 of
the destination, which starts `[1, 2, 0]`, not `[1, 2, 3]`.  And a volts ring
of `3 * 2^30` cells, empty at its last cell: a write of `n = 2^30 + 1 ≤ S − 1`
elements returns `n`, the following read of `n` returns 1. -/
theorem roundtrip_fails :
    (AIOContinuousBufWrite (ringAt (fun _ => (0 : Nat)) 4 true 2 2) (fun i => 1 + i) 16 3
        AIOContinuousBufMode.AIOCONTINUOUS_BUF_ALLORNONE).1 = Except.ok 3 ∧
    (AIOContinuousBufRead (AIOContinuousBufWrite (ringAt (fun _ => (0 : Nat)) 4 true 2 2)
        (fun i => 1 + i) 16 3 AIOContinuousBufMode.AIOCONTINUOUS_BUF_ALLORNONE).2
        (fun _ => 0) 16 3).1 = Except.ok 3 ∧
    firstCells (AIOContinuousBufRead (AIOContinuousBufWrite (ringAt (fun _ => (0 : Nat)) 4 true 2 2)
        (fun i => 1 + i) 16 3 AIOContinuousBufMode.AIOCONTINUOUS_BUF_ALLORNONE).2
        (fun _ => 0) 16 3).2.2 16 = [1, 2, 0, 0, 0, 0, 0, 0, 9, 0, 0, 0, 0, 0, 0, 0] ∧
    firstCells (fun i => 1 + i) 3 = [1, 2, 3] ∧
    (AIOContinuousBufWrite (ringAt (fun _ => (0 : Nat)) 3221225472 false 3221225471 3221225471)
        (fun i => i) 1073741825 1073741825
        AIOContinuousBufMode.AIOCONTINUOUS_BUF_ALLORNONE).1 = Except.ok 1073741825 ∧
    (AIOContinuousBufRead (AIOContinuousBufWrite
        (ringAt (fun _ => (0 : Nat)) 3221225472 false 3221225471 3221225471)
        (fun i => i) 1073741825 1073741825
        AIOContinuousBufMode.AIOCONTINUOUS_BUF_ALLORNONE).2
        (fun _ => 0) 1073741825 1073741825).1 = Except.ok 1 := by
  refine ⟨by rfl, by rfl, by decide, by decide, by rfl, by rfl⟩

/-! ## Reads of counts -/

/-- C5, the code at the failing input: a ring of 4 cells of 16-bit counts with
`read_pos = 3`, `write_pos = 2` stores `[13, 10, 11]`, oldest first.  A read of
3 into a destination of zeros returns 3 and moves the read position to 2, but
delivers the second and third element to cells 4 and 5: the destination starts
`[13, 0, 0, 0, 10, 11]`. -/
theorem read_of_counts_misplaces_wrap :
    contents (ringAt (fun i => 10 + i) 4 true 3 2) = [13, 10, 11] ∧
    (AIOContinuousBufRead (ringAt (fun i => 10 + i) 4 true 3 2) (fun _ => 0) 16 3).1
      = Except.ok 3 ∧
    (AIOContinuousBufRead (ringAt (fun i => 10 + i) 4 true 3 2) (fun _ => 0) 16 3).2.1._read_pos
      = 2 ∧
    firstCells (AIOContinuousBufRead (ringAt (fun i => 10 + i) 4 true 3 2) (fun _ => 0) 16 3).2.2 6
      = [13, 0, 0, 0, 10, 11] := by
  refine ⟨by decide, by rfl, by decide, by decide⟩


/-! ## Normal and override writes -/

/-- C8 (amended): scenario S3.  On a ring with `S = 4` filled with `[1, 2, 3]`
(`read_pos = 0`, `write_pos = 3`), `write([4, 5, 6], OVERRIDE)` returns 3 and
advances the write position by 3 modulo 4, to 2; it leaves the read position at
0, so the ring then reports 2 stored elements and the following `read(3)`
returns 2 elements. -/
theorem scenarioS3_result :
    scenarioS3_filled._read_pos = 0 ∧ scenarioS3_filled._write_pos = 3 ∧
    contents scenarioS3_filled = [1, 2, 3] ∧
    scenarioS3_override.1 = Except.ok 3 ∧
    scenarioS3_override.2._write_pos = (3 + 3) % 4 ∧
    scenarioS3_override.2._read_pos = 0 ∧
    occupancy scenarioS3_override.2 = 2 ∧
    (AIOContinuousBufRead scenarioS3_override.2 (fun _ => 0) 3 3).1 = Except.ok 2 := by
  refine ⟨by decide, by decide, by decide, by rfl, by decide, by decide, by decide, by rfl⟩

/-- C8, counterexample: in scenario S3 the override write does not move the
read position, and the following `read(3)` returns 2 elements, `[4, 5]`, not 3
elements equal to `[4, 5, 6]`. -/
theorem scenarioS3_read_is_short :
    scenarioS3_override.2._read_pos = scenarioS3_filled._read_pos ∧
    (AIOContinuousBufRead scenarioS3_override.2 (fun _ => 0) 3 3).1 ≠ Except.ok 3 ∧
    firstCells (AIOContinuousBufRead scenarioS3_override.2 (fun _ => 0) 3 3).2.2 3 = [4, 5, 0] ∧
    firstCells (AIOContinuousBufRead scenarioS3_override.2 (fun _ => 0) 3 3).2.2 3 ≠ [4, 5, 6] := by
  refine ⟨by decide, ?_, by decide, by decide⟩
  intro h
  have h2 : (AIOContinuousBufRead scenarioS3_override.2 (fun _ => 0) 3 3).1 = Except.ok 2 := by
    rfl
  rw [h2] at h
  exact absurd (Except.ok.inj h) (by decide)


end RingFacts

/-! ## Clock divisors -/

section ClockFacts

variable {α : Type}

/-- With both operands below `2^31` the error the loop computes in `unsigned`
and `int` arithmetic is the magnitude of the difference. -/
theorem abs_int_usub_umul {D a lv : Nat} (hD : D < 2147483648) (hp : a * lv < 2147483648) :
    abs_int (usub D (umul a lv)) = absdiff D (a * lv) := by
  unfold abs_int usub umul absdiff
  generalize a * lv = p at hp ⊢
  split <;> split <;> omega

theorem round_div_bounds (n : Nat) {d : Nat} (hd : 0 < d) :
    2 * (round_div n d * d) ≤ 2 * n + d ∧ 2 * n + d < 2 * (round_div n d * d) + 2 * d := by
  unfold round_div
  have h1 := Nat.div_add_mod (2 * n + d) (2 * d)
  have h2 := Nat.mod_lt (2 * n + d) (show 0 < 2 * d by omega)
  have h3 : 2 * d * ((2 * n + d) / (2 * d)) = 2 * ((2 * n + d) / (2 * d) * d) := by ring
  rw [h3] at h1
  omega

theorem div_le_round_div (n d : Nat) : n / d ≤ round_div n d := by
  unfold round_div
  rcases Nat.eq_zero_or_pos d with h | h
  · subst h; simp
  · calc n / d = (2 * n) / (2 * d) := by rw [Nat.mul_div_mul_left _ _ (by omega : 0 < 2)]
      _ ≤ (2 * n + d) / (2 * d) := Nat.div_le_div_right (by omega)

/-- The rounded quotient is a nearest multiple: no multiple of `d` is closer to
`n` than `round_div n d * d`. -/
theorem round_div_nearest (n x : Nat) {d : Nat} (hd : 0 < d) :
    absdiff n (round_div n d * d) ≤ absdiff n (x * d) := by
  have hb := round_div_bounds n hd
  rcases Nat.lt_trichotomy x (round_div n d) with h | h | h
  · have h' : (x + 1) * d ≤ round_div n d * d := Nat.mul_le_mul_right d h
    rw [Nat.add_mul, Nat.one_mul] at h'
    unfold absdiff
    generalize round_div n d * d = p at *
    generalize x * d = y at *
    split <;> split <;> omega
  · rw [h]
  · have h' : (round_div n d + 1) * d ≤ x * d := Nat.mul_le_mul_right d h
    rw [Nat.add_mul, Nat.one_mul] at h'
    unfold absdiff
    generalize round_div n d * d = p at *
    generalize x * d = y at *
    split <;> split <;> omega

/-- The rounded root of a quotient `4 ≤ D ≤ ROOTCLOCK`: it lies in `[2, 3163]`,
twice it is at most `D`, and the first candidate of the sweep is within 16
bits. -/
theorem round_sqrt_bounds {D : Nat} (h4 : 4 ≤ D) (hD : D ≤ 10000000) :
    2 ≤ round_sqrt D ∧ round_sqrt D ≤ 3163 ∧ 2 * round_sqrt D ≤ D ∧
      round_div D (round_sqrt D) ≤ 65535 := by
  have hs1 : Nat.sqrt D * Nat.sqrt D ≤ D := Nat.sqrt_le D
  have hs2 : D < (Nat.sqrt D + 1) * (Nat.sqrt D + 1) := Nat.lt_succ_sqrt D
  have hs3 : 2 ≤ Nat.sqrt D := Nat.le_sqrt.mpr (by omega)
  have hs4 : Nat.sqrt D < 3163 := Nat.sqrt_lt.mpr (by omega)
  have hs5 : 2 * Nat.sqrt D ≤ Nat.sqrt D * Nat.sqrt D := Nat.mul_le_mul_right _ hs3
  have hs6 : Nat.sqrt D * Nat.sqrt D ≤ 3162 * Nat.sqrt D := Nat.mul_le_mul_right _ (by omega)
  have hs7 : (Nat.sqrt D + 1) * (Nat.sqrt D + 1)
      = Nat.sqrt D * Nat.sqrt D + 2 * Nat.sqrt D + 1 := by ring
  rw [hs7] at hs2
  have hL : round_sqrt D = Nat.sqrt D ∨ round_sqrt D = Nat.sqrt D + 1 := by
    unfold round_sqrt; split <;> simp
  have hL2 : round_sqrt D = Nat.sqrt D + 1 →
      D ≥ Nat.sqrt D * Nat.sqrt D + Nat.sqrt D + 1 := by
    unfold round_sqrt; split <;> intro h <;> omega
  have hq : round_div D (round_sqrt D) ≤ 65535 := by
    unfold round_div
    apply Nat.le_of_lt_succ
    rw [Nat.div_lt_iff_lt_mul (by omega)]
    rcases hL with h | h <;> rw [h] <;> omega
  generalize Nat.sqrt D * Nat.sqrt D = q at *
  refine ⟨?_, ?_, ?_, hq⟩ <;> rcases hL with h | h <;> omega


/-- The sweep keeps both divisors within `[2, 65535]`: it starts from a
`divisorb` in `[2, L]` whose truncated quotient fits 16 bits, and from a
`divisora` in range unless its first candidate is accepted. -/
theorem sweep_range {D L : Nat} (hL : L ≤ 65535) (h2L : 2 * L ≤ D) :
    ∀ (lv : Nat) (st : ClockSearch), lv ≤ L → 2 ≤ st.divisorb → st.divisorb ≤ L →
      D / st.divisorb ≤ 65535 →
      ((2 ≤ st.divisora ∧ st.divisora ≤ 65535) ∨ (2 ≤ lv ∧ round_div D lv ≤ 65535)) →
      2 ≤ (sweep D lv st).divisora ∧ (sweep D lv st).divisora ≤ 65535 ∧
        2 ≤ (sweep D lv st).divisorb ∧ (sweep D lv st).divisorb ≤ 65535 := by
  have hdiv : ∀ b, 2 ≤ b → b ≤ L → 2 ≤ D / b := by
    intro b hb1 hb2
    rw [Nat.le_div_iff_mul_le (by omega)]
    omega
  intro lv
  induction lv with
  | zero =>
    intro st _ hb1 hb2 _ ha
    simp only [sweep]
    omega
  | succ n ih =>
    cases n with
    | zero =>
      intro st _ hb1 hb2 _ ha
      simp only [sweep]
      omega
    | succ m =>
      intro st hlv hb1 hb2 hq ha
      rw [show m + 1 + 1 = m + 2 from rfl] at hlv ha ⊢
      simp only [sweep]
      split
      · rename_i hbrk
        omega
      · rename_i hbrk
        split
        · have h1 := div_le_round_div D (m + 2)
          have h2 := hdiv (m + 2) (by omega) hlv
          simp only
          omega
        · have h1 := div_le_round_div D (m + 2)
          apply ih
          · omega
          · simp only; split <;> omega
          · simp only; split <;> omega
          · simp only; split <;> omega
          · left
            simp only
            split
            · have h2 := hdiv (m + 2) (by omega) hlv
              omega
            · have h2 := hdiv st.divisorb hb1 hb2
              omega

/-- The candidates the sweep evaluates from `lv` down are pairs within 16 bits
whose second component is at most `lv`. -/
theorem swept_bounds (D : Nat) :
    ∀ (lv : Nat) (c : Nat × Nat), c ∈ swept D lv →
      c.1 = round_div D c.2 ∧ c.1 ≤ 65535 ∧ 2 ≤ c.2 ∧ c.2 ≤ lv := by
  intro lv
  induction lv with
  | zero => intro c hc; simp [swept] at hc
  | succ n ih =>
    cases n with
    | zero => intro c hc; simp [swept] at hc
    | succ m =>
      intro c hc
      simp only [swept] at hc
      split at hc
      · simp at hc
      · rename_i hbrk
        split at hc
        · simp only [List.mem_singleton] at hc
          subst hc
          exact ⟨rfl, by omega, by omega, by omega⟩
        · rcases List.mem_cons.mp hc with h | h
          · subst h
            exact ⟨rfl, by omega, by omega, by omega⟩
          · have := ih c h
            omega


/-- The sweep ends on a best candidate: given that the `divisorb` it starts
from is the best of the candidates `pre` evaluated so far, or is the first
candidate `lv` itself with `min_err` no smaller than its error, the `divisorb`
it ends on belongs to a candidate evaluated (`pre` or the sweep from `lv`) and
no candidate evaluated has a smaller error. -/
theorem sweep_best (D : Nat) :
    ∀ (lv : Nat) (st : ClockSearch) (pre : List (Nat × Nat)),
      (∀ c ∈ pre, st.min_err ≤ sweep_err D c) →
      (((round_div D st.divisorb, st.divisorb) ∈ pre ∧
          st.min_err = sweep_err D (round_div D st.divisorb, st.divisorb)) ∨
        (pre = [] ∧ st.divisorb = lv ∧ 2 ≤ lv ∧ round_div D lv ≤ 65535 ∧
          sweep_err D (round_div D lv, lv) ≤ st.min_err)) →
      (round_div D (sweep D lv st).divisorb, (sweep D lv st).divisorb) ∈ pre ++ swept D lv ∧
      ∀ c ∈ pre ++ swept D lv,
        sweep_err D (round_div D (sweep D lv st).divisorb, (sweep D lv st).divisorb)
          ≤ sweep_err D c := by
  have base : ∀ (lv : Nat) (st : ClockSearch) (pre : List (Nat × Nat)),
      (∀ c ∈ pre, st.min_err ≤ sweep_err D c) →
      ((round_div D st.divisorb, st.divisorb) ∈ pre ∧
          st.min_err = sweep_err D (round_div D st.divisorb, st.divisorb)) →
      (round_div D st.divisorb, st.divisorb) ∈ pre ++ [] ∧
      ∀ c ∈ pre ++ [], sweep_err D (round_div D st.divisorb, st.divisorb) ≤ sweep_err D c := by
    intro lv st pre hpre h
    rw [List.append_nil]
    exact ⟨h.1, fun c hc => h.2 ▸ hpre c hc⟩
  intro lv
  induction lv with
  | zero =>
    intro st pre hpre h
    simp only [sweep, swept]
    rcases h with h | h
    · exact base 0 st pre hpre h
    · omega
  | succ n ih =>
    cases n with
    | zero =>
      intro st pre hpre h
      simp only [sweep, swept]
      rcases h with h | h
      · exact base 1 st pre hpre h
      · omega
    | succ m =>
      intro st pre hpre h
      rw [show m + 1 + 1 = m + 2 from rfl] at h ⊢
      simp only [sweep, swept]
      by_cases hbrk : round_div D (m + 2) > 0xffff
      · rw [if_pos hbrk, if_pos hbrk]
        rcases h with h | h
        · exact base 0 st pre hpre h
        · omega
      · rw [if_neg hbrk, if_neg hbrk]
        by_cases hz : abs_int (usub D (umul (round_div D (m + 2)) (m + 2))) ≤ 0
        · rw [if_pos hz, if_pos hz]
          refine ⟨List.mem_append_right _ (List.mem_singleton_self _), fun c _ => ?_⟩
          have : sweep_err D (round_div D (m + 2), m + 2) = 0 := by
            show abs_int (usub D (umul (round_div D (m + 2)) (m + 2))) = 0
            omega
          rw [this]
          exact Nat.zero_le _
        · rw [if_neg hz, if_neg hz]
          have happ : pre ++ (round_div D (m + 2), m + 2) :: swept D (m + 1)
              = (pre ++ [(round_div D (m + 2), m + 2)]) ++ swept D (m + 1) := by
            rw [List.append_assoc, List.singleton_append]
          rw [happ]
          have herr : sweep_err D (round_div D (m + 2), m + 2)
              = abs_int (usub D (umul (round_div D (m + 2)) (m + 2))) := rfl
          by_cases hlt : abs_int (usub D (umul (round_div D (m + 2)) (m + 2))) < st.min_err
          · simp only [if_pos hlt]
            apply ih
            · intro c hc
              simp only
              rcases List.mem_append.mp hc with hc | hc
              · have := hpre c hc
                omega
              · rw [List.mem_singleton.mp hc, herr]
            · left
              exact ⟨List.mem_append_right _ (List.mem_singleton_self _), herr.symm⟩
          · simp only [if_neg hlt]
            apply ih
            · intro c hc
              simp only
              rcases List.mem_append.mp hc with hc | hc
              · exact hpre c hc
              · rw [List.mem_singleton.mp hc, herr]
                omega
            · left
              simp only
              rcases h with h | h
              · exact ⟨List.mem_append_left _ h.1, h.2⟩
              · obtain ⟨_, hb, _, _, he⟩ := h
                rw [herr] at he
                rw [hb]
                exact ⟨List.mem_append_right _ (List.mem_singleton_self _), by rw [herr]; omega⟩


/-- For a rate below a quarter of the root clock the quotient `ROOTCLOCK / hz`
lies in `[4, ROOTCLOCK]`. -/
theorem divisorab_bounds {hz : Nat} (hhz : 0 < hz) (hfast : 4 * hz < ROOTCLOCK) :
    4 ≤ ROOTCLOCK / hz ∧ ROOTCLOCK / hz ≤ 10000000 := by
  unfold ROOTCLOCK at *
  refine ⟨?_, Nat.div_le_self _ _⟩
  rw [Nat.le_div_iff_mul_le hhz]
  omega

/-- For a rate below a quarter of the root clock `CalculateClocks` succeeds and
stores the divisors its sweep ends on. -/
theorem CalculateClocks_search (fdivisora : Nat) (buf : AIOContinuousBuf α)
    (hhz : 0 < buf.hz) (hfast : 4 * buf.hz < ROOTCLOCK) :
    CalculateClocks fdivisora buf =
      (Except.ok 0,
       { buf with
         divisora := (sweep (ROOTCLOCK / buf.hz) (round_sqrt (ROOTCLOCK / buf.hz))
           { divisora := fdivisora, divisorb := round_sqrt (ROOTCLOCK / buf.hz),
             min_err := absdiff (ROOTCLOCK / buf.hz)
               (fdivisora * round_sqrt (ROOTCLOCK / buf.hz)) }).divisora
         divisorb := (sweep (ROOTCLOCK / buf.hz) (round_sqrt (ROOTCLOCK / buf.hz))
           { divisora := fdivisora, divisorb := round_sqrt (ROOTCLOCK / buf.hz),
             min_err := absdiff (ROOTCLOCK / buf.hz)
               (fdivisora * round_sqrt (ROOTCLOCK / buf.hz)) }).divisorb }) := by
  have hD := divisorab_bounds hhz hfast
  unfold CalculateClocks
  simp only
  rw [if_neg (by omega), if_neg, if_neg (by omega)]
  unfold umul ROOTCLOCK at *
  omega

/-- The first candidate of the sweep is accepted whatever `divisora` and
`min_err` it starts from, as long as `min_err` is no smaller than the first
candidate's error: the locals after the first pass do not depend on them. -/
theorem sweep_first (D a m : Nat) :
    ∀ L : Nat, round_div D (L + 2) ≤ 65535 →
      sweep_err D (round_div D (L + 2), L + 2) ≤ m →
      sweep D (L + 2) { divisora := a, divisorb := L + 2, min_err := m }
        = if sweep_err D (round_div D (L + 2), L + 2) ≤ 0 then
            { divisora := round_div D (L + 2), divisorb := L + 2, min_err := 0 }
          else sweep D (L + 1)
            { divisora := D / (L + 2), divisorb := L + 2,
              min_err := sweep_err D (round_div D (L + 2), L + 2) } := by
  intro L hq he
  have herr : sweep_err D (round_div D (L + 2), L + 2)
      = abs_int (usub D (umul (round_div D (L + 2)) (L + 2))) := rfl
  rw [herr] at he ⊢
  simp only [sweep]
  rw [if_neg (by omega)]
  split
  · rfl
  · congr 1
    by_cases hlt : abs_int (usub D (umul (round_div D (L + 2)) (L + 2))) < m
    · simp only [if_pos hlt]
    · simp only [if_neg hlt]
      have : m = abs_int (usub D (umul (round_div D (L + 2)) (L + 2))) := by omega
      rw [← this]

/-- The error of the first candidate is no larger than the `min_err` the sweep
starts from, whatever `divisora` the floating-point quotient gave. -/
theorem first_err_le {D : Nat} (h4 : 4 ≤ D) (hD : D ≤ 10000000) (fdivisora : Nat) :
    sweep_err D (round_div D (round_sqrt D), round_sqrt D)
      ≤ absdiff D (fdivisora * round_sqrt D) := by
  obtain ⟨hL1, hL2, _, hq⟩ := round_sqrt_bounds h4 hD
  have hp : round_div D (round_sqrt D) * round_sqrt D < 2147483648 :=
    lt_of_le_of_lt (Nat.mul_le_mul hq hL2) (by norm_num)
  show abs_int (usub D (umul (round_div D (round_sqrt D)) (round_sqrt D))) ≤ _
  rw [abs_int_usub_umul (by omega) hp]
  exact round_div_nearest D fdivisora (by omega)

/-- For a rate below a quarter of the root clock the result of
`CalculateClocks` does not depend on the value the floating-point quotient
`round(divisorab / l)` took. -/
theorem CalculateClocks_fdivisora_irrelevant (a a' : Nat) (buf : AIOContinuousBuf α)
    (hhz : 0 < buf.hz) (hfast : 4 * buf.hz < ROOTCLOCK) :
    CalculateClocks a buf = CalculateClocks a' buf := by
  obtain ⟨h4, hD⟩ := divisorab_bounds hhz hfast
  obtain ⟨hL1, hL2, _, hq⟩ := round_sqrt_bounds h4 hD
  rw [CalculateClocks_search a buf hhz hfast, CalculateClocks_search a' buf hhz hfast]
  have e1 := first_err_le h4 hD a
  have e2 := first_err_le h4 hD a'
  obtain ⟨L, hL⟩ : ∃ L, round_sqrt (ROOTCLOCK / buf.hz) = L + 2 := ⟨_, (Nat.sub_add_cancel hL1).symm⟩
  rw [hL] at e1 e2 hq ⊢
  rw [sweep_first _ a _ L hq e1, sweep_first _ a' _ L hq e2]


/-- C9 (amended): for every `hz` with `0 < hz` and `4 * hz < R = 10,000,000`,
whatever the floating-point quotient gave, `CalculateClocks` succeeds and the
`divisorb` it stores is that of a candidate pair `(round(D / b), b)` the
downward sweep evaluated, one at least as good as every candidate pair
`(a', b')` the sweep evaluated in the error the sweep computes:
`|D − round(D / b) * b| ≤ |D − a' * b'|` with `D = floor(R / hz)`. -/
theorem CalculateClocks_divisorb_best (fdivisora : Nat) (buf : AIOContinuousBuf α)
    (hhz : 0 < buf.hz) (hfast : 4 * buf.hz < ROOTCLOCK) :
    (CalculateClocks fdivisora buf).1 = Except.ok 0 ∧
    (round_div (ROOTCLOCK / buf.hz) (CalculateClocks fdivisora buf).2.divisorb,
        (CalculateClocks fdivisora buf).2.divisorb)
      ∈ swept (ROOTCLOCK / buf.hz) (round_sqrt (ROOTCLOCK / buf.hz)) ∧
    ∀ c ∈ swept (ROOTCLOCK / buf.hz) (round_sqrt (ROOTCLOCK / buf.hz)),
      absdiff (ROOTCLOCK / buf.hz)
          (round_div (ROOTCLOCK / buf.hz) (CalculateClocks fdivisora buf).2.divisorb
            * (CalculateClocks fdivisora buf).2.divisorb)
        ≤ absdiff (ROOTCLOCK / buf.hz) (c.1 * c.2) := by
  obtain ⟨h4, hD⟩ := divisorab_bounds hhz hfast
  obtain ⟨hL1, hL2, _, hq⟩ := round_sqrt_bounds h4 hD
  rw [CalculateClocks_search fdivisora buf hhz hfast]
  have hbest := sweep_best (ROOTCLOCK / buf.hz) (round_sqrt (ROOTCLOCK / buf.hz))
    { divisora := fdivisora, divisorb := round_sqrt (ROOTCLOCK / buf.hz),
      min_err := absdiff (ROOTCLOCK / buf.hz) (fdivisora * round_sqrt (ROOTCLOCK / buf.hz)) }
    [] (fun c hc => absurd hc (List.not_mem_nil c))
    (Or.inr ⟨rfl, rfl, hL1, hq, first_err_le h4 hD fdivisora⟩)
  rw [List.nil_append] at hbest
  have hconv : ∀ c ∈ swept (ROOTCLOCK / buf.hz) (round_sqrt (ROOTCLOCK / buf.hz)),
      sweep_err (ROOTCLOCK / buf.hz) c = absdiff (ROOTCLOCK / buf.hz) (c.1 * c.2) := by
    intro c hc
    obtain ⟨_, hc1, _, hc2⟩ := swept_bounds _ _ c hc
    have hp : c.1 * c.2 < 2147483648 :=
      lt_of_le_of_lt (Nat.mul_le_mul hc1 (le_trans hc2 hL2)) (by norm_num)
    exact abs_int_usub_umul (by omega) hp
  refine ⟨rfl, hbest.1, fun c hc => ?_⟩
  have h1 := hbest.2 c hc
  rw [hconv c hc, hconv _ hbest.1] at h1
  exact h1

theorem sqrt_seven : Nat.sqrt 7 = 2 := by
  symm; rw [Nat.eq_sqrt]; decide

theorem round_sqrt_seven : round_sqrt 7 = 3 := by
  unfold round_sqrt; rw [sqrt_seven]; decide

/-- At 1.3 MHz the quotient is 7, the sweep starts at 3 and evaluates the
candidates `(2, 3)` and `(4, 2)`, and the divisors stored are `(2, 3)`. -/
theorem CalculateClocks_at_1300000 (fdivisora : Nat) :
    ROOTCLOCK / 1300000 = 7 ∧
    swept (ROOTCLOCK / 1300000) (round_sqrt (ROOTCLOCK / 1300000)) = [(2, 3), (4, 2)] ∧
    (CalculateClocks fdivisora
      (AIOContinuousBufSetClock (NewAIOContinuousBuf (fun _ => (0 : Nat)) 0 4 1) 1300000)).2.divisora
      = 2 ∧
    (CalculateClocks fdivisora
      (AIOContinuousBufSetClock (NewAIOContinuousBuf (fun _ => (0 : Nat)) 0 4 1) 1300000)).2.divisorb
      = 3 := by
  have hD : ROOTCLOCK / 1300000 = 7 := by decide
  refine ⟨hD, ?_, ?_, ?_⟩
  · rw [hD, round_sqrt_seven]; decide
  · rw [CalculateClocks_fdivisora_irrelevant fdivisora 0 _ (by decide) (by decide),
      CalculateClocks_search 0 _ (by decide) (by decide)]
    simp only [AIOContinuousBufSetClock, hD, round_sqrt_seven]
    decide
  · rw [CalculateClocks_fdivisora_irrelevant fdivisora 0 _ (by decide) (by decide),
      CalculateClocks_search 0 _ (by decide) (by decide)]
    simp only [AIOContinuousBufSetClock, hD, round_sqrt_seven]
    decide

/-- C9, witness: at 1.3 MHz, with the floating-point quotient `round(7 / 2.6458) = 3`. -/
theorem CalculateClocks_divisorb_best_witness :
    (CalculateClocks 3
      (AIOContinuousBufSetClock (NewAIOContinuousBuf (fun _ => (0 : Nat)) 0 4 1) 1300000)).1
      = Except.ok 0 ∧
    (round_div (ROOTCLOCK / 1300000) (CalculateClocks 3
        (AIOContinuousBufSetClock (NewAIOContinuousBuf (fun _ => (0 : Nat)) 0 4 1)
          1300000)).2.divisorb,
      (CalculateClocks 3
        (AIOContinuousBufSetClock (NewAIOContinuousBuf (fun _ => (0 : Nat)) 0 4 1)
          1300000)).2.divisorb)
      ∈ swept (ROOTCLOCK / 1300000) (round_sqrt (ROOTCLOCK / 1300000)) ∧
    ∀ c ∈ swept (ROOTCLOCK / 1300000) (round_sqrt (ROOTCLOCK / 1300000)),
      absdiff (ROOTCLOCK / 1300000)
          (round_div (ROOTCLOCK / 1300000) (CalculateClocks 3
              (AIOContinuousBufSetClock (NewAIOContinuousBuf (fun _ => (0 : Nat)) 0 4 1)
                1300000)).2.divisorb
            * (CalculateClocks 3
              (AIOContinuousBufSetClock (NewAIOContinuousBuf (fun _ => (0 : Nat)) 0 4 1)
                1300000)).2.divisorb)
        ≤ absdiff (ROOTCLOCK / 1300000) (c.1 * c.2) :=
  CalculateClocks_divisorb_best 3
    (AIOContinuousBufSetClock (NewAIOContinuousBuf (fun _ => (0 : Nat)) 0 4 1) 1300000)
    (by decide) (by decide)

/-- C9, counterexample: at `hz` = 1.3 MHz (`D = 7`) the sweep evaluates the
candidates `(2, 3)` and `(4, 2)`, both of error 1 against `D`, and keeps the
first; whatever the floating-point quotient gave, the stored pair `(2, 3)` has
`|R − 2 * 3 * hz| = 2,200,000`, above `|R − 4 * 2 * hz| = 400,000` of the
evaluated candidate `(4, 2)`. -/
theorem CalculateClocks_not_best_for_rootclock :
    (4, 2) ∈ swept (ROOTCLOCK / 1300000) (round_sqrt (ROOTCLOCK / 1300000)) ∧
    ¬ ∃ fdivisora : Nat,
      absdiff ROOTCLOCK
          ((CalculateClocks fdivisora (AIOContinuousBufSetClock
              (NewAIOContinuousBuf (fun _ => (0 : Nat)) 0 4 1) 1300000)).2.divisora
            * (CalculateClocks fdivisora (AIOContinuousBufSetClock
              (NewAIOContinuousBuf (fun _ => (0 : Nat)) 0 4 1) 1300000)).2.divisorb
            * 1300000)
        ≤ absdiff ROOTCLOCK (4 * 2 * 1300000) := by
  constructor
  · rw [(CalculateClocks_at_1300000 0).2.1]; decide
  · rintro ⟨a, h⟩
    rw [(CalculateClocks_at_1300000 a).2.2.1, (CalculateClocks_at_1300000 a).2.2.2] at h
    revert h
    decide


/-- When the `unsigned` product `hz * 4` falls below `ROOTCLOCK` although the
quotient `ROOTCLOCK / hz` is 0, the sweep branch runs with `l = 0`: the loop
body never executes and `divisorb = 0` is stored. -/
theorem CalculateClocks_of_zero_quotient (fdivisora : Nat) (buf : AIOContinuousBuf α)
    (h0 : buf.hz ≠ 0) (hw : umul buf.hz 4 < ROOTCLOCK) (hD : ROOTCLOCK / buf.hz = 0) :
    CalculateClocks fdivisora buf
      = (Except.ok 0, { buf with divisora := fdivisora, divisorb := 0 }) := by
  have hL : round_sqrt 0 = 0 := by unfold round_sqrt; simp
  unfold CalculateClocks
  simp only [hD, hL]
  rw [if_neg h0, if_neg (by omega), if_neg (by omega)]
  simp only [sweep]

/-- C10, the code at the failing input `hz = 2^30`: the `unsigned` product
`hz * 4` wraps to 0, below `ROOTCLOCK`, so the sweep branch runs with
`divisorab = ROOTCLOCK / hz = 0`; `CalculateClocks` returns success and stores
`divisorb = 0` (and for `divisora` whatever the floating-point quotient `0 / 0`
converts to). -/
theorem CalculateClocks_at_two_pow_30 (fdivisora : Nat) (buf : AIOContinuousBuf α) :
    umul 1073741824 4 = 0 ∧
    (CalculateClocks fdivisora (AIOContinuousBufSetClock buf 1073741824)).1 = Except.ok 0 ∧
    (CalculateClocks fdivisora (AIOContinuousBufSetClock buf 1073741824)).2.divisora
      = fdivisora ∧
    (CalculateClocks fdivisora (AIOContinuousBufSetClock buf 1073741824)).2.divisorb = 0 := by
  have hu : umul 1073741824 4 = 0 := by unfold umul; omega
  have h0 : (AIOContinuousBufSetClock buf 1073741824).hz ≠ 0 := by
    show (1073741824 : Nat) ≠ 0
    omega
  have hw : umul (AIOContinuousBufSetClock buf 1073741824).hz 4 < ROOTCLOCK := by
    show umul 1073741824 4 < ROOTCLOCK
    rw [hu]; unfold ROOTCLOCK; omega
  have hD : ROOTCLOCK / (AIOContinuousBufSetClock buf 1073741824).hz = 0 := by
    show ROOTCLOCK / 1073741824 = 0
    exact Nat.div_eq_of_lt (by unfold ROOTCLOCK; omega)
  rw [CalculateClocks_of_zero_quotient fdivisora _ h0 hw hD]
  exact ⟨hu, rfl, rfl, rfl⟩

/-- Below `2^30` the claim of C10 holds: for every `hz` with `0 < hz < 2^30`,
whatever the floating-point quotient gave, `CalculateClocks` succeeds and
stores divisors with `2 ≤ divisora ≤ 65535` and `2 ≤ divisorb ≤ 65535`. -/
theorem CalculateClocks_range (fdivisora : Nat) (buf : AIOContinuousBuf α)
    (hhz : 0 < buf.hz) (hlt : buf.hz < 1073741824) :
    (CalculateClocks fdivisora buf).1 = Except.ok 0 ∧
    2 ≤ (CalculateClocks fdivisora buf).2.divisora ∧
    (CalculateClocks fdivisora buf).2.divisora ≤ 65535 ∧
    2 ≤ (CalculateClocks fdivisora buf).2.divisorb ∧
    (CalculateClocks fdivisora buf).2.divisorb ≤ 65535 := by
  by_cases hfast : 4 * buf.hz < ROOTCLOCK
  · obtain ⟨h4, hD⟩ := divisorab_bounds hhz hfast
    obtain ⟨hL1, hL2, h2L, hq⟩ := round_sqrt_bounds h4 hD
    rw [CalculateClocks_search fdivisora buf hhz hfast]
    have hb : ROOTCLOCK / buf.hz / round_sqrt (ROOTCLOCK / buf.hz) ≤ 65535 :=
      le_trans (div_le_round_div _ _) hq
    have hr := sweep_range (D := ROOTCLOCK / buf.hz) (L := round_sqrt (ROOTCLOCK / buf.hz))
      (by omega) h2L (round_sqrt (ROOTCLOCK / buf.hz))
      { divisora := fdivisora, divisorb := round_sqrt (ROOTCLOCK / buf.hz),
        min_err := absdiff (ROOTCLOCK / buf.hz) (fdivisora * round_sqrt (ROOTCLOCK / buf.hz)) }
      (le_refl _) hL1 (le_refl _) hb (Or.inr ⟨hL1, hq⟩)
    exact ⟨rfl, hr⟩
  · unfold CalculateClocks
    simp only
    rw [if_neg (by omega), if_pos]
    · exact ⟨rfl, le_refl 2, by show (2 : Nat) ≤ 65535; omega, le_refl 2,
        by show (2 : Nat) ≤ 65535; omega⟩
    · unfold umul ROOTCLOCK at *
      omega

/-- A candidate of error zero ends the loop of `CalculateClocks`: when the
candidates evaluated from `lv` on include one of error zero, the loop ends on a
pair of error zero among them. -/
theorem sweep_zero (D : Nat) :
    ∀ (lv : Nat) (st : ClockSearch), (∃ c ∈ swept D lv, sweep_err D c = 0) →
      ((sweep D lv st).divisora, (sweep D lv st).divisorb) ∈ swept D lv ∧
      sweep_err D ((sweep D lv st).divisora, (sweep D lv st).divisorb) = 0 := by
  intro lv
  induction lv with
  | zero => intro st h; simp [swept] at h
  | succ n ih =>
    cases n with
    | zero => intro st h; simp [swept] at h
    | succ m =>
      intro st h
      obtain ⟨c, hc, hz⟩ := h
      rw [show m + 1 + 1 = m + 2 from rfl] at hc ⊢
      simp only [swept] at hc ⊢
      simp only [sweep]
      by_cases h1 : round_div D (m + 2) > 0xffff
      · rw [if_pos h1] at hc
        simp at hc
      · rw [if_neg h1] at hc ⊢
        rw [if_neg h1]
        by_cases h2 : abs_int (usub D (umul (round_div D (m + 2)) (m + 2))) ≤ 0
        · rw [if_pos h2, if_pos h2]
          refine ⟨List.mem_singleton.mpr rfl, ?_⟩
          show abs_int (usub D (umul (round_div D (m + 2)) (m + 2))) = 0
          omega
        · rw [if_neg h2] at hc ⊢
          rw [if_neg h2]
          rcases List.mem_cons.mp hc with hc0 | hc1
          · exfalso
            rw [hc0] at hz
            apply h2
            show sweep_err D (round_div D (m + 2), m + 2) ≤ 0
            omega
          · refine ⟨List.mem_cons_of_mem _ (ih _ ⟨c, hc1, hz⟩).1, (ih _ ⟨c, hc1, hz⟩).2⟩

theorem round_sqrt_sq (L : Nat) : round_sqrt (L * L) = L := by
  unfold round_sqrt
  rw [Nat.sqrt_eq]
  simp

theorem round_div_sq {L : Nat} (hL : 0 < L) : round_div (L * L) L = L := by
  unfold round_div
  rw [show 2 * (L * L) + L = L + (2 * L) * L by ring, Nat.add_mul_div_left _ _ (by omega : 0 < 2 * L)]
  rw [Nat.div_eq_of_lt (by omega)]
  omega

/-- For a rate at or above a quarter of the root clock, and below `2^30` so
that the `unsigned` product `hz * 4` is the product, `CalculateClocks` stores
the pair `(2, 2)`. -/
theorem CalculateClocks_fastest (fdivisora : Nat) (buf : AIOContinuousBuf α)
    (hfast : ROOTCLOCK ≤ 4 * buf.hz) (hlt : buf.hz < 1073741824) :
    CalculateClocks fdivisora buf = (Except.ok 0, { buf with divisora := 2, divisorb := 2 }) := by
  unfold CalculateClocks
  simp only
  have hu : umul buf.hz 4 = buf.hz * 4 := by unfold umul; omega
  rw [if_neg (by unfold ROOTCLOCK at hfast; omega), if_pos (by rw [hu]; omega)]

/-- C11, the code at the failing input `hz = 2^30`: four times the rate is above
`ROOTCLOCK`, and `CalculateClocks` returns success with a pair other than
`(2, 2)`: the `unsigned` product `hz * 4` wraps to 0, the sweep branch runs on
the quotient 0 and `divisorb = 0` is stored. -/
theorem CalculateClocks_fastest_fails_at_two_pow_30 (fdivisora : Nat)
    (buf : AIOContinuousBuf α) :
    ROOTCLOCK ≤ 4 * (AIOContinuousBufSetClock buf 1073741824).hz ∧
    (CalculateClocks fdivisora (AIOContinuousBufSetClock buf 1073741824)).1 = Except.ok 0 ∧
    ((CalculateClocks fdivisora (AIOContinuousBufSetClock buf 1073741824)).2.divisora,
      (CalculateClocks fdivisora (AIOContinuousBufSetClock buf 1073741824)).2.divisorb)
      ≠ (2, 2) := by
  have hu : umul 1073741824 4 = 0 := by unfold umul; omega
  have h0 : (AIOContinuousBufSetClock buf 1073741824).hz ≠ 0 := by
    show (1073741824 : Nat) ≠ 0
    omega
  have hw : umul (AIOContinuousBufSetClock buf 1073741824).hz 4 < ROOTCLOCK := by
    show umul 1073741824 4 < ROOTCLOCK
    rw [hu]; unfold ROOTCLOCK; omega
  have hD : ROOTCLOCK / (AIOContinuousBufSetClock buf 1073741824).hz = 0 := by
    show ROOTCLOCK / 1073741824 = 0
    exact Nat.div_eq_of_lt (by unfold ROOTCLOCK; omega)
  rw [CalculateClocks_of_zero_quotient fdivisora _ h0 hw hD]
  refine ⟨?_, rfl, ?_⟩
  · show ROOTCLOCK ≤ 4 * 1073741824
    unfold ROOTCLOCK; omega
  · intro h
    have h2 := congrArg Prod.snd h
    have h3 : (0 : Nat) = 2 := h2
    omega

/-- C12: for every rate `hz` with `0 < hz` and `4 * hz < ROOTCLOCK`, whatever
the floating-point quotient gave, `CalculateClocks` succeeds, and when one of
the candidates its sweep evaluates has `round(D / b) * b = D` for
`D = ROOTCLOCK / hz`, the stored pair has `divisora * divisorb = D`; when `D` is
a square `L * L` the stored pair is `(L, L)`. -/
theorem CalculateClocks_exact (fdivisora : Nat) (buf : AIOContinuousBuf α)
    (hhz : 0 < buf.hz) (hfast : 4 * buf.hz < ROOTCLOCK) :
    (CalculateClocks fdivisora buf).1 = Except.ok 0 ∧
    ((∃ c ∈ swept (ROOTCLOCK / buf.hz) (round_sqrt (ROOTCLOCK / buf.hz)),
        c.1 * c.2 = ROOTCLOCK / buf.hz) →
      (CalculateClocks fdivisora buf).2.divisora * (CalculateClocks fdivisora buf).2.divisorb
        = ROOTCLOCK / buf.hz) ∧
    (∀ L : Nat, ROOTCLOCK / buf.hz = L * L →
      (CalculateClocks fdivisora buf).2.divisora = L ∧
      (CalculateClocks fdivisora buf).2.divisorb = L) := by
  obtain ⟨h4, hD⟩ := divisorab_bounds hhz hfast
  obtain ⟨hL1, hL2, h2L, hq⟩ := round_sqrt_bounds h4 hD
  have herr : ∀ c ∈ swept (ROOTCLOCK / buf.hz) (round_sqrt (ROOTCLOCK / buf.hz)),
      sweep_err (ROOTCLOCK / buf.hz) c = absdiff (ROOTCLOCK / buf.hz) (c.1 * c.2) := by
    intro c hc
    obtain ⟨_, hc2, hc3, hc4⟩ := swept_bounds _ _ c hc
    have hp : c.1 * c.2 < 2147483648 :=
      lt_of_le_of_lt (Nat.mul_le_mul hc2 (le_trans hc4 hL2)) (by norm_num)
    exact abs_int_usub_umul (by omega) hp
  have hexact : (∃ c ∈ swept (ROOTCLOCK / buf.hz) (round_sqrt (ROOTCLOCK / buf.hz)),
        c.1 * c.2 = ROOTCLOCK / buf.hz) →
      (CalculateClocks fdivisora buf).2.divisora * (CalculateClocks fdivisora buf).2.divisorb
        = ROOTCLOCK / buf.hz := by
    rintro ⟨c, hc, hcD⟩
    rw [CalculateClocks_search fdivisora buf hhz hfast]
    have hz : sweep_err (ROOTCLOCK / buf.hz) c = 0 := by
      rw [herr c hc, hcD]; unfold absdiff; simp
    obtain ⟨hm, he⟩ := sweep_zero (ROOTCLOCK / buf.hz) (round_sqrt (ROOTCLOCK / buf.hz))
      { divisora := fdivisora, divisorb := round_sqrt (ROOTCLOCK / buf.hz),
        min_err := absdiff (ROOTCLOCK / buf.hz) (fdivisora * round_sqrt (ROOTCLOCK / buf.hz)) }
      ⟨c, hc, hz⟩
    rw [herr _ hm] at he
    show (sweep _ _ _).divisora * (sweep _ _ _).divisorb = _
    revert he
    generalize (sweep _ _ _).divisora * (sweep _ _ _).divisorb = p
    unfold absdiff
    intro he
    split at he <;> omega
  refine ⟨by rw [CalculateClocks_search fdivisora buf hhz hfast], hexact, ?_⟩
  intro L hLL
  have hLpos : 0 < L := by
    rcases Nat.eq_zero_or_pos L with h | h
    · subst h; omega
    · exact h
  have hr : round_sqrt (ROOTCLOCK / buf.hz) = L := by rw [hLL, round_sqrt_sq]
  obtain ⟨L', hL'⟩ : ∃ L', L = L' + 2 := ⟨L - 2, by omega⟩
  have hqL : round_div (ROOTCLOCK / buf.hz) (L' + 2) = L' + 2 := by
    rw [hLL, hL']; exact round_div_sq (by omega)
  have hfirst : sweep_err (ROOTCLOCK / buf.hz) (round_div (ROOTCLOCK / buf.hz) (L' + 2), L' + 2)
      = 0 := by
    rw [hqL]
    show abs_int (usub (ROOTCLOCK / buf.hz) (umul (L' + 2) (L' + 2))) = 0
    rw [abs_int_usub_umul (by omega) (by rw [← hL', ← hLL]; omega), ← hL', ← hLL]
    unfold absdiff; simp
  rw [CalculateClocks_search fdivisora buf hhz hfast, hr, hL']
  rw [sweep_first _ _ _ L' (by rw [hqL]; omega) (by rw [hfirst]; omega), if_pos (by rw [hfirst])]
  exact ⟨hqL, rfl⟩

/-- C12, witness: at `hz = 1000` the quotient is `10000 = 100 * 100` and the
stored pair is `(100, 100)`. -/
theorem CalculateClocks_exact_witness :
    (CalculateClocks 100
      (AIOContinuousBufSetClock (NewAIOContinuousBuf (fun _ => (0 : Nat)) 0 4 1) 1000)).2.divisora
      = 100 ∧
    (CalculateClocks 100
      (AIOContinuousBufSetClock (NewAIOContinuousBuf (fun _ => (0 : Nat)) 0 4 1) 1000)).2.divisorb
      = 100 :=
  (CalculateClocks_exact 100
    (AIOContinuousBufSetClock (NewAIOContinuousBuf (fun _ => (0 : Nat)) 0 4 1) 1000)
    (by decide) (by decide)).2.2 100 (by decide)

/-- C13: whatever the floating-point quotient gave, `CalculateClocks` returns
the invalid-parameter error exactly when `hz` is 0, returns success for every
other rate, and on the error leaves the ring object, with its `divisora` and
`divisorb`, as it was. -/
theorem CalculateClocks_invalid_iff (fdivisora : Nat) (buf : AIOContinuousBuf α) :
    ((CalculateClocks fdivisora buf).1 = Except.error ResultCode.AIOUSB_ERROR_INVALID_PARAMETER
      ↔ buf.hz = 0) ∧
    (buf.hz ≠ 0 → (CalculateClocks fdivisora buf).1 = Except.ok 0) ∧
    (buf.hz = 0 → (CalculateClocks fdivisora buf).2 = buf ∧
      (CalculateClocks fdivisora buf).2.divisora = buf.divisora ∧
      (CalculateClocks fdivisora buf).2.divisorb = buf.divisorb) := by
  have hok : buf.hz ≠ 0 → (CalculateClocks fdivisora buf).1 = Except.ok 0 := by
    intro h
    unfold CalculateClocks
    simp only
    rw [if_neg h]
    split
    · rfl
    · split <;> rfl
  have herr : buf.hz = 0 → CalculateClocks fdivisora buf
      = (Except.error ResultCode.AIOUSB_ERROR_INVALID_PARAMETER, buf) := by
    intro h
    unfold CalculateClocks
    simp only
    rw [if_pos h]
  refine ⟨⟨?_, ?_⟩, hok, ?_⟩
  · intro h
    by_contra hne
    rw [hok hne] at h
    cases h
  · intro h
    rw [herr h]
  · intro h
    rw [herr h]
    exact ⟨rfl, rfl, rfl⟩

end ClockFacts

/-! ## Counts to volts and packets -/

section VoltsFacts

variable {α : Type}

/-- The loop of `AIOContinuousBuf_SmartCountsToVolts` after `n` passes, for a
channel cursor below the channel count and `n` an `unsigned` value. -/
theorem SmartCountsToVolts_loop (env : Externals) (device : AIOUSBDevice) {N c p : Nat}
    (data : Nat → Nat) (dbase tobase : Nat) (tobuf : Nat → ℚ)
    (hN : 0 < N) (hN32 : N < 4294967296) (hc : c < N) (hp : p < 4294967296) :
    ∀ n : Nat, n < 4294967296 →
      ((List.range n).foldl (SmartCountsToVolts_pass env device N data dbase tobase)
          { channel := c, tobuf := tobuf, pos := p, retval := 0 }).retval = n ∧
      ((List.range n).foldl (SmartCountsToVolts_pass env device N data dbase tobase)
          { channel := c, tobuf := tobuf, pos := p, retval := 0 }).channel = (c + n) % N ∧
      ((List.range n).foldl (SmartCountsToVolts_pass env device N data dbase tobase)
          { channel := c, tobuf := tobuf, pos := p, retval := 0 }).pos = (p + n) % 4294967296 ∧
      (∀ i, i < n →
        ((List.range n).foldl (SmartCountsToVolts_pass env device N data dbase tobase)
          { channel := c, tobuf := tobuf, pos := p, retval := 0 }).tobuf
            (tobase + (p + i) % 4294967296)
          = countsToVolts env (device.cachedGain ((c + i) % N)) (data (dbase + i))) ∧
      (∀ j, (∀ i, i < n → j ≠ tobase + (p + i) % 4294967296) →
        ((List.range n).foldl (SmartCountsToVolts_pass env device N data dbase tobase)
          { channel := c, tobuf := tobuf, pos := p, retval := 0 }).tobuf j = tobuf j) := by
  intro n
  induction n with
  | zero =>
    intro _
    refine ⟨rfl, ?_, ?_, ?_, ?_⟩
    · show c = (c + 0) % N
      rw [Nat.add_zero, Nat.mod_eq_of_lt hc]
    · show p = (p + 0) % 4294967296
      omega
    · intro i hi; omega
    · intro j _; rfl
  | succ k ih =>
    intro hk
    obtain ⟨h1, h2, h3, h4, h5⟩ := ih (by omega)
    rw [List.range_succ, List.foldl_append]
    simp only [List.foldl_cons, List.foldl_nil]
    generalize (List.range k).foldl (SmartCountsToVolts_pass env device N data dbase tobase)
      { channel := c, tobuf := tobuf, pos := p, retval := 0 } = st at h1 h2 h3 h4 h5
    have hch : (c + k) % N < N := Nat.mod_lt _ hN
    refine ⟨?_, ?_, ?_, ?_, ?_⟩
    · show st.retval + 1 = k + 1
      rw [h1]
    · show uadd st.channel 1 % N = (c + (k + 1)) % N
      rw [h2, uadd_of_lt (by omega), ← Nat.add_assoc, Nat.add_mod (c + k) 1 N, Nat.add_mod ((c + k) % N) 1 N,
        Nat.mod_mod]
    · show uadd st.pos 1 = (p + (k + 1)) % 4294967296
      rw [h3]; unfold uadd; omega
    · intro i hi
      show (if tobase + (p + i) % 4294967296 = tobase + st.pos then
          countsToVolts env (device.cachedGain st.channel) (data (dbase + k))
        else st.tobuf (tobase + (p + i) % 4294967296)) = _
      rw [h3, h2]
      by_cases hik : i = k
      · subst hik
        rw [if_pos rfl]
      · rw [if_neg (by omega)]
        exact h4 i (by omega)
    · intro j hj
      show (if j = tobase + st.pos then _ else st.tobuf j) = _
      rw [h3, if_neg (hj k (by omega))]
      exact h5 j (fun i hi => hj i (by omega))

/-- With a descriptor found, `AIOContinuousBuf_SmartCountsToVolts` is its loop. -/
theorem SmartCountsToVolts_found (env : Externals) (buf : AIOContinuousBuf α)
    (device : AIOUSBDevice) {c p : Nat} (data : Nat → Nat) (dbase n : Nat) (tobuf : Nat → ℚ)
    (tobase : Nat)
    (hdev : env.AIODeviceTableGetDeviceAtIndex buf.DeviceIndex = DeviceLookup.found device)
    (hN : 0 < buf.num_channels) (hN32 : buf.num_channels < 4294967296)
    (hc : c < buf.num_channels) (hp : p < 4294967296) (hn : n < 4294967296) :
    (AIOContinuousBuf_SmartCountsToVolts env buf c data dbase n tobuf tobase p).retval
      = Except.ok n ∧
    (AIOContinuousBuf_SmartCountsToVolts env buf c data dbase n tobuf tobase p).channel
      = (c + n) % buf.num_channels ∧
    (AIOContinuousBuf_SmartCountsToVolts env buf c data dbase n tobuf tobase p).pos
      = (p + n) % 4294967296 ∧
    (∀ i, i < n →
      (AIOContinuousBuf_SmartCountsToVolts env buf c data dbase n tobuf tobase p).tobuf
          (tobase + (p + i) % 4294967296)
        = countsToVolts env (device.cachedGain ((c + i) % buf.num_channels))
            (data (dbase + i))) ∧
    (∀ j, (∀ i, i < n → j ≠ tobase + (p + i) % 4294967296) →
      (AIOContinuousBuf_SmartCountsToVolts env buf c data dbase n tobuf tobase p).tobuf j
        = tobuf j) := by
  have h := SmartCountsToVolts_loop env device data dbase tobase tobuf hN hN32 hc hp n hn
  unfold AIOContinuousBuf_SmartCountsToVolts
  rw [hdev]
  obtain ⟨h1, h2, h3, h4, h5⟩ := h
  exact ⟨congrArg Except.ok h1, h2, h3, h4, h5⟩

theorem set_write_pos_keeps_fields (buf : AIOContinuousBuf α) (pos : Nat) :
    (set_write_pos buf pos).extra = buf.extra ∧
    (set_write_pos buf pos).num_channels = buf.num_channels ∧
    (set_write_pos buf pos).DeviceIndex = buf.DeviceIndex := by
  unfold set_write_pos
  split <;> exact ⟨rfl, rfl, rfl⟩

theorem Write_keeps_fields (buf : AIOContinuousBuf α) (writebuf : Nat → α) (wrbufsize size : Nat)
    (flag : AIOContinuousBufMode) :
    (AIOContinuousBufWrite buf writebuf wrbufsize size flag).2.extra = buf.extra ∧
    (AIOContinuousBufWrite buf writebuf wrbufsize size flag).2.num_channels = buf.num_channels ∧
    (AIOContinuousBufWrite buf writebuf wrbufsize size flag).2.DeviceIndex = buf.DeviceIndex := by
  unfold AIOContinuousBufWrite
  simp only
  split
  · exact ⟨rfl, rfl, rfl⟩
  · split
    · exact set_write_pos_keeps_fields _ _
    · split
      · exact set_write_pos_keeps_fields _ _
      · exact ⟨rfl, rfl, rfl⟩

theorem number_oversamples_found (env : Externals) (buf : AIOContinuousBuf α)
    (device : AIOUSBDevice)
    (hdev : env.AIODeviceTableGetDeviceAtIndex buf.DeviceIndex = DeviceLookup.found device) :
    number_oversamples env buf = Except.ok (device.oversample + 1) := by
  unfold number_oversamples
  rw [hdev]

theorem div_mul_le_u32 {c N : Nat} (hc : c < 4294967296) :
    c / N * N ≤ c ∧ c / N * N < 4294967296 ∧ c - c / N * N = c % N := by
  have h1 := Nat.div_add_mod c N
  have h2 : N * (c / N) = c / N * N := Nat.mul_comm _ _
  omega

/-- A packet that starts on a scan boundary (`extra = 0`), with a descriptor
found: one conversion of the whole scans of the packet from channel 0, to the
head of the conversion buffer. -/
theorem CopyData_of_no_extra (env : Externals) (buf : AIOContinuousBuf ℚ)
    (device : AIOUSBDevice) (data : Nat → Nat) (size : Nat) (tmpbuf : Nat → ℚ)
    (hdev : env.AIODeviceTableGetDeviceAtIndex buf.DeviceIndex = DeviceLookup.found device)
    (hN : 0 < buf.num_channels) (hN32 : buf.num_channels < 4294967296)
    (hsz : size < 4294967296) (he : buf.extra = 0) :
    AIOContinuousBufCopyData env buf data size tmpbuf =
      { retval := (AIOContinuousBufWrite
            { buf with extra := size / (device.oversample + 1) % buf.num_channels }
            (AIOContinuousBuf_SmartCountsToVolts env buf 0
              (env.cull_and_average_counts buf.DeviceIndex data size buf.num_channels).1 0
              (size / (device.oversample + 1) / buf.num_channels * buf.num_channels)
              tmpbuf 0 0).tobuf
            (size / (device.oversample + 1))
            (size / (device.oversample + 1) / buf.num_channels * buf.num_channels)
            AIOContinuousBufMode.AIOCONTINUOUS_BUF_ALLORNONE).1
        buf := (AIOContinuousBufWrite
            { buf with extra := size / (device.oversample + 1) % buf.num_channels }
            (AIOContinuousBuf_SmartCountsToVolts env buf 0
              (env.cull_and_average_counts buf.DeviceIndex data size buf.num_channels).1 0
              (size / (device.oversample + 1) / buf.num_channels * buf.num_channels)
              tmpbuf 0 0).tobuf
            (size / (device.oversample + 1))
            (size / (device.oversample + 1) / buf.num_channels * buf.num_channels)
            AIOContinuousBufMode.AIOCONTINUOUS_BUF_ALLORNONE).2
        data := memcpy
            (env.cull_and_average_counts buf.DeviceIndex data size buf.num_channels).1 size
            (env.cull_and_average_counts buf.DeviceIndex data size buf.num_channels).1
            (size / (device.oversample + 1) / buf.num_channels * buf.num_channels)
            (size / (device.oversample + 1) % buf.num_channels)
        tmpbuf := (AIOContinuousBuf_SmartCountsToVolts env buf 0
              (env.cull_and_average_counts buf.DeviceIndex data size buf.num_channels).1 0
              (size / (device.oversample + 1) / buf.num_channels * buf.num_channels)
              tmpbuf 0 0).tobuf } := by
  have hc : size / (device.oversample + 1) < 4294967296 :=
    lt_of_le_of_lt (Nat.div_le_self _ _) hsz
  obtain ⟨hs1, hs2, hs3⟩ := div_mul_le_u32 (N := buf.num_channels) hc
  have h00 : usub 0 0 = 0 := by unfold usub; omega
  have hc0 : usub (size / (device.oversample + 1)) 0 = size / (device.oversample + 1) := by
    unfold usub; omega
  have hstop : size / (device.oversample + 1) / buf.num_channels * buf.num_channels % 4294967296
      = size / (device.oversample + 1) / buf.num_channels * buf.num_channels :=
    Nat.mod_eq_of_lt hs2
  have h3 := (SmartCountsToVolts_found env buf device
    (env.cull_and_average_counts buf.DeviceIndex data size buf.num_channels).1 0
    (size / (device.oversample + 1) / buf.num_channels * buf.num_channels) tmpbuf 0
    hdev hN hN32 (c := 0) (p := 0) hN (by omega) hs2).1
  have hw : uaddRet 0 (Except.ok
      (size / (device.oversample + 1) / buf.num_channels * buf.num_channels))
      = size / (device.oversample + 1) / buf.num_channels * buf.num_channels := by
    show (0 + _) % 4294967296 = _
    omega
  have hx : usub (size / (device.oversample + 1))
      (size / (device.oversample + 1) / buf.num_channels * buf.num_channels)
      = size / (device.oversample + 1) % buf.num_channels := by
    rw [usub_of_le hs1 hc, hs3]
  unfold AIOContinuousBufCopyData
  rw [number_oversamples_found env buf device hdev]
  simp only [he, ne_eq, not_true_eq_false, if_false, h00, hc0, hstop, h3, hw, hx]

/-- A packet that starts inside a scan (`0 < extra < N`), with a descriptor
found and at least `N` samples after culling: `extra` conversions from channel
`N - extra`, then `N - extra` conversions from channel 0, both reading the
packet from its first sample, then the whole scans of the rest of the packet
from channel `N - extra`; the ring is offered the first `N - extra + stopval`
cells of the conversion buffer. -/
theorem CopyData_of_extra (env : Externals) (buf : AIOContinuousBuf ℚ)
    (device : AIOUSBDevice) (data : Nat → Nat) (size : Nat) (tmpbuf : Nat → ℚ)
    (hdev : env.AIODeviceTableGetDeviceAtIndex buf.DeviceIndex = DeviceLookup.found device)
    (hN32 : buf.num_channels < 4294967296)
    (hsz : size < 4294967296) (he1 : 0 < buf.extra) (he2 : buf.extra < buf.num_channels)
    (hcN : buf.num_channels ≤ size / (device.oversample + 1)) :
    AIOContinuousBufCopyData env buf data size tmpbuf =
      let N := buf.num_channels
      let c := size / (device.oversample + 1)
      let data1 := (env.cull_and_average_counts buf.DeviceIndex data size N).1
      let first := AIOContinuousBuf_SmartCountsToVolts env buf (N - buf.extra) data1 0 buf.extra
        tmpbuf 0 0
      let second := AIOContinuousBuf_SmartCountsToVolts env buf 0 data1 0 (N - buf.extra)
        first.tobuf buf.extra buf.extra
      let stopval := (c - (N - buf.extra)) / N * N
      let third := AIOContinuousBuf_SmartCountsToVolts env buf (N - buf.extra) data1
        (N - buf.extra) stopval second.tobuf 0 N
      let written := AIOContinuousBufWrite { buf with extra := (c + buf.extra) % N } third.tobuf c
        (N - buf.extra + stopval) AIOContinuousBufMode.AIOCONTINUOUS_BUF_ALLORNONE
      { retval := written.1, buf := written.2,
        data := memcpy data1 size data1 (N - buf.extra + stopval) ((c + buf.extra) % N),
        tmpbuf := third.tobuf } := by
  have hN : 0 < buf.num_channels := by omega
  have hc : size / (device.oversample + 1) < 4294967296 :=
    lt_of_le_of_lt (Nat.div_le_self _ _) hsz
  have hne : buf.extra ≠ 0 := by omega
  have hu1 : usub buf.num_channels buf.extra = buf.num_channels - buf.extra :=
    usub_of_le (by omega) hN32
  obtain ⟨f1, f2, f3, _, _⟩ := SmartCountsToVolts_found env buf device
    (env.cull_and_average_counts buf.DeviceIndex data size buf.num_channels).1 0
    buf.extra tmpbuf 0 hdev hN hN32 (c := buf.num_channels - buf.extra) (p := 0)
    (by omega) (by omega) (by omega)
  have f2' : (buf.num_channels - buf.extra + buf.extra) % buf.num_channels = 0 := by
    rw [Nat.sub_add_cancel (by omega), Nat.mod_self]
  have f3' : (0 + buf.extra) % 4294967296 = buf.extra := by omega
  rw [f2'] at f2
  rw [f3'] at f3
  have hw1 : uaddRet 0 (Except.ok buf.extra) = buf.extra := by
    show (0 + _) % 4294967296 = _
    omega
  obtain ⟨s1, s2, s3, _, _⟩ := SmartCountsToVolts_found env buf device
    (env.cull_and_average_counts buf.DeviceIndex data size buf.num_channels).1 0
    (buf.num_channels - buf.extra)
    (AIOContinuousBuf_SmartCountsToVolts env buf (buf.num_channels - buf.extra)
      (env.cull_and_average_counts buf.DeviceIndex data size buf.num_channels).1 0 buf.extra
      tmpbuf 0 0).tobuf
    buf.extra hdev hN hN32 (c := 0) (p := buf.extra) hN (by omega) (by omega)
  have s2' : (0 + (buf.num_channels - buf.extra)) % buf.num_channels
      = buf.num_channels - buf.extra := by
    rw [Nat.zero_add, Nat.mod_eq_of_lt (by omega)]
  have s3' : (buf.extra + (buf.num_channels - buf.extra)) % 4294967296 = buf.num_channels := by
    omega
  rw [s2'] at s2
  rw [s3'] at s3
  have hw2 : uaddRet buf.extra (Except.ok (buf.num_channels - buf.extra))
      = buf.num_channels := by
    show (_ + _) % 4294967296 = _
    omega
  have hc2 : usub (size / (device.oversample + 1)) (buf.num_channels - buf.extra)
      = size / (device.oversample + 1) - (buf.num_channels - buf.extra) :=
    usub_of_le (by omega) hc
  obtain ⟨hs1, hs2, hs3⟩ := div_mul_le_u32 (N := buf.num_channels)
    (c := size / (device.oversample + 1) - (buf.num_channels - buf.extra)) (by omega)
  have hstop : (size / (device.oversample + 1) - (buf.num_channels - buf.extra))
      / buf.num_channels * buf.num_channels % 4294967296
      = (size / (device.oversample + 1) - (buf.num_channels - buf.extra))
        / buf.num_channels * buf.num_channels := Nat.mod_eq_of_lt hs2
  have t1 := (SmartCountsToVolts_found env buf device
    (env.cull_and_average_counts buf.DeviceIndex data size buf.num_channels).1
    (buf.num_channels - buf.extra)
    ((size / (device.oversample + 1) - (buf.num_channels - buf.extra))
        / buf.num_channels * buf.num_channels)
    (AIOContinuousBuf_SmartCountsToVolts env buf 0
      (env.cull_and_average_counts buf.DeviceIndex data size buf.num_channels).1 0
      (buf.num_channels - buf.extra)
      (AIOContinuousBuf_SmartCountsToVolts env buf (buf.num_channels - buf.extra)
        (env.cull_and_average_counts buf.DeviceIndex data size buf.num_channels).1 0 buf.extra
        tmpbuf 0 0).tobuf buf.extra buf.extra).tobuf
    0 hdev hN hN32 (c := buf.num_channels - buf.extra) (p := buf.num_channels)
    (by omega) (by omega) hs2).1
  have hw3 : uaddRet (buf.num_channels - buf.extra) (Except.ok
      ((size / (device.oversample + 1) - (buf.num_channels - buf.extra))
        / buf.num_channels * buf.num_channels))
      = buf.num_channels - buf.extra
        + (size / (device.oversample + 1) - (buf.num_channels - buf.extra))
          / buf.num_channels * buf.num_channels := by
    show (_ + _) % 4294967296 = _
    omega
  have hmod : (size / (device.oversample + 1) - (buf.num_channels - buf.extra))
      % buf.num_channels = (size / (device.oversample + 1) + buf.extra) % buf.num_channels := by
    have : size / (device.oversample + 1) + buf.extra
        = size / (device.oversample + 1) - (buf.num_channels - buf.extra)
          + buf.num_channels := by omega
    rw [this, Nat.add_mod_right]
  have hx : usub (size / (device.oversample + 1))
      (buf.num_channels - buf.extra
        + (size / (device.oversample + 1) - (buf.num_channels - buf.extra))
          / buf.num_channels * buf.num_channels)
      = (size / (device.oversample + 1) + buf.extra) % buf.num_channels := by
    rw [usub_of_le (by omega) hc, ← hmod]
    omega
  unfold AIOContinuousBufCopyData
  rw [number_oversamples_found env buf device hdev]
  simp only [hne, ne_eq, not_false_eq_true, if_true, hu1, f1, f2, f3, hw1, s1, s2, s3, hw2,
    hc2, hstop, t1, hw3, hx]

/-- C14: with a descriptor found, `N ≥ 1` channels, a channel cursor `c < N`, an
output cursor `p` and `n` samples (`p`, `n` and `N` values of their 32-bit
types), `AIOContinuousBuf_SmartCountsToVolts` returns `n`, leaves the channel
cursor at `(c + n) mod N`, advances the output cursor `n` times (to `p + n`,
taken modulo `2^32` as `unsigned` arithmetic does), stores sample `i`
converted with the gain code of channel `(c + i) mod N` in the cell the output
cursor had reached, and leaves every other cell of the output as it was. -/
theorem SmartCountsToVolts_rotates (env : Externals) (buf : AIOContinuousBuf α)
    (device : AIOUSBDevice) (c p : Nat) (data : Nat → Nat) (dbase n : Nat) (tobuf : Nat → ℚ)
    (tobase : Nat)
    (hdev : env.AIODeviceTableGetDeviceAtIndex buf.DeviceIndex = DeviceLookup.found device)
    (hN : 1 ≤ buf.num_channels) (hN32 : buf.num_channels < 4294967296)
    (hc : c < buf.num_channels) (hp : p < 4294967296) (hn : n < 4294967296) :
    (AIOContinuousBuf_SmartCountsToVolts env buf c data dbase n tobuf tobase p).retval
      = Except.ok n ∧
    (AIOContinuousBuf_SmartCountsToVolts env buf c data dbase n tobuf tobase p).channel
      = (c + n) % buf.num_channels ∧
    (AIOContinuousBuf_SmartCountsToVolts env buf c data dbase n tobuf tobase p).pos
      = (p + n) % 4294967296 ∧
    (p + n < 4294967296 →
      (AIOContinuousBuf_SmartCountsToVolts env buf c data dbase n tobuf tobase p).pos = p + n) ∧
    (∀ i, i < n →
      (AIOContinuousBuf_SmartCountsToVolts env buf c data dbase n tobuf tobase p).tobuf
          (tobase + (p + i) % 4294967296)
        = countsToVolts env (device.cachedGain ((c + i) % buf.num_channels))
            (data (dbase + i))) ∧
    (∀ j, (∀ i, i < n → j ≠ tobase + (p + i) % 4294967296) →
      (AIOContinuousBuf_SmartCountsToVolts env buf c data dbase n tobuf tobase p).tobuf j
        = tobuf j) := by
  obtain ⟨h1, h2, h3, h4, h5⟩ :=
    SmartCountsToVolts_found env buf device data dbase n tobuf tobase hdev hN hN32 hc hp hn
  exact ⟨h1, h2, h3, fun h => by rw [h3, Nat.mod_eq_of_lt h], h4, h5⟩

/-- C14, witness: scenario S5, 5 samples from channel cursor 2 of 3 channels. -/
theorem SmartCountsToVolts_rotates_witness :
    (AIOContinuousBuf_SmartCountsToVolts scenarioS5_externals scenarioS5_start.buf 2
      scenarioS5_packet.data 0 5 (fun _ => 0) 0 0).retval = Except.ok 5 ∧
    (AIOContinuousBuf_SmartCountsToVolts scenarioS5_externals scenarioS5_start.buf 2
      scenarioS5_packet.data 0 5 (fun _ => 0) 0 0).channel = (2 + 5) % 3 :=
  ⟨(SmartCountsToVolts_rotates scenarioS5_externals scenarioS5_start.buf
      { cachedGain := fun channel => channel, oversample := 0 } 2 0 scenarioS5_packet.data 0 5
      (fun _ => 0) 0 rfl (by decide) (by decide) (by decide) (by decide) (by decide)).1,
   (SmartCountsToVolts_rotates scenarioS5_externals scenarioS5_start.buf
      { cachedGain := fun channel => channel, oversample := 0 } 2 0 scenarioS5_packet.data 0 5
      (fun _ => 0) 0 rfl (by decide) (by decide) (by decide) (by decide) (by decide)).2.1⟩

/-- C15, as the code has it: with a descriptor found and `AI_16_MAX_COUNTS` =
65535, every value `AIOContinuousBuf_SmartCountsToVolts` stores equals
`(count / 65535) * span + minVolts` for the gain range of the sample's channel,
as an exact rational; count 0 maps to `minVolts`, the count 65535 maps to
`minVolts + span`, and on a range of positive span every smaller count stays
below `minVolts + span`. -/
theorem SmartCountsToVolts_scale (env : Externals) (buf : AIOContinuousBuf α)
    (device : AIOUSBDevice) (c p : Nat) (data : Nat → Nat) (dbase n : Nat) (tobuf : Nat → ℚ)
    (tobase : Nat)
    (hdev : env.AIODeviceTableGetDeviceAtIndex buf.DeviceIndex = DeviceLookup.found device)
    (hM : env.AI_16_MAX_COUNTS = 65535)
    (hN : 1 ≤ buf.num_channels) (hN32 : buf.num_channels < 4294967296)
    (hc : c < buf.num_channels) (hp : p < 4294967296) (hn : n < 4294967296) :
    ∀ i, i < n →
      (AIOContinuousBuf_SmartCountsToVolts env buf c data dbase n tobuf tobase p).tobuf
          (tobase + (p + i) % 4294967296)
        = ((data (dbase + i) : ℚ) / 65535)
            * (env.adRanges (device.cachedGain ((c + i) % buf.num_channels))).range
          + (env.adRanges (device.cachedGain ((c + i) % buf.num_channels))).minVolts ∧
      (data (dbase + i) = 0 →
        (AIOContinuousBuf_SmartCountsToVolts env buf c data dbase n tobuf tobase p).tobuf
            (tobase + (p + i) % 4294967296)
          = (env.adRanges (device.cachedGain ((c + i) % buf.num_channels))).minVolts) ∧
      (data (dbase + i) = 65535 →
        (AIOContinuousBuf_SmartCountsToVolts env buf c data dbase n tobuf tobase p).tobuf
            (tobase + (p + i) % 4294967296)
          = (env.adRanges (device.cachedGain ((c + i) % buf.num_channels))).minVolts
            + (env.adRanges (device.cachedGain ((c + i) % buf.num_channels))).range) ∧
      (data (dbase + i) < 65535 →
        0 < (env.adRanges (device.cachedGain ((c + i) % buf.num_channels))).range →
        (AIOContinuousBuf_SmartCountsToVolts env buf c data dbase n tobuf tobase p).tobuf
            (tobase + (p + i) % 4294967296)
          < (env.adRanges (device.cachedGain ((c + i) % buf.num_channels))).minVolts
            + (env.adRanges (device.cachedGain ((c + i) % buf.num_channels))).range) := by
  intro i hi
  have h4 := (SmartCountsToVolts_found env buf device data dbase n tobuf tobase hdev hN hN32
    hc hp hn).2.2.2.1 i hi
  rw [h4]
  unfold countsToVolts
  rw [hM]
  refine ⟨by norm_num, ?_, ?_, ?_⟩
  · intro h0
    rw [h0]
    norm_num
  · intro h1
    rw [h1]
    norm_num
    ring
  · intro hlt hpos
    have hq : ((data (dbase + i) : ℚ)) < 65535 := by exact_mod_cast hlt
    have : ((data (dbase + i) : ℚ)) / ((65535 : ℕ) : ℚ) < 1 := by
      rw [div_lt_one (by norm_num)]
      exact_mod_cast hlt
    nlinarith

/-- C15, witness: scenario S5, the count `0xffff` on channel 2 comes out at the
top of the range of channel 2. -/
theorem SmartCountsToVolts_scale_witness :
    (AIOContinuousBuf_SmartCountsToVolts scenarioS5_externals scenarioS5_start.buf 2
        scenarioS5_packet.data 0 1 (fun _ => 0) 0 0).tobuf (0 + (0 + 0) % 4294967296)
      = (scenarioS5_externals.adRanges 2).minVolts + (scenarioS5_externals.adRanges 2).range :=
  (SmartCountsToVolts_scale scenarioS5_externals scenarioS5_start.buf
      { cachedGain := fun channel => channel, oversample := 0 } 2 0 scenarioS5_packet.data 0 1
      (fun _ => 0) 0 rfl rfl (by decide) (by decide) (by decide) (by decide) (by decide)
      0 (by decide)).2.2.1 rfl

/-- C15, counterexample: in scenario S5 the 16-bit count `0xffff` on channel 2
(range 0 to 3 volts) is stored as exactly 3 volts, `minVolts + span`, which is
not `(65535 / 65536) * 3`. -/
theorem SmartCountsToVolts_reaches_full_scale :
    (AIOContinuousBuf_SmartCountsToVolts scenarioS5_externals scenarioS5_start.buf 2
        scenarioS5_packet.data 0 1 (fun _ => 0) 0 0).tobuf 0 = 0 + 3 ∧
    (AIOContinuousBuf_SmartCountsToVolts scenarioS5_externals scenarioS5_start.buf 2
        scenarioS5_packet.data 0 1 (fun _ => 0) 0 0).tobuf 0 ≠ 65535 / 65536 * 3 + 0 := by
  decide!

/-- One packet of at least `N` samples after culling, with a descriptor found
and `extra < N` on entry: `extra` becomes `(c + extra) mod N`, and the channel
count and device index stay. -/
theorem CopyData_extra (env : Externals) (buf : AIOContinuousBuf ℚ)
    (device : AIOUSBDevice) (data : Nat → Nat) (size : Nat) (tmpbuf : Nat → ℚ)
    (hdev : env.AIODeviceTableGetDeviceAtIndex buf.DeviceIndex = DeviceLookup.found device)
    (hN32 : buf.num_channels < 4294967296)
    (hsz : size < 4294967296) (he : buf.extra < buf.num_channels)
    (hcN : buf.num_channels ≤ size / (device.oversample + 1)) :
    (AIOContinuousBufCopyData env buf data size tmpbuf).buf.extra
      = (size / (device.oversample + 1) + buf.extra) % buf.num_channels ∧
    (AIOContinuousBufCopyData env buf data size tmpbuf).buf.num_channels = buf.num_channels ∧
    (AIOContinuousBufCopyData env buf data size tmpbuf).buf.DeviceIndex = buf.DeviceIndex := by
  rcases Nat.eq_zero_or_pos buf.extra with he0 | he1
  · rw [CopyData_of_no_extra env buf device data size tmpbuf hdev (by omega) hN32 hsz he0]
    simp only
    obtain ⟨w1, w2, w3⟩ := Write_keeps_fields
      { buf with extra := size / (device.oversample + 1) % buf.num_channels }
      (AIOContinuousBuf_SmartCountsToVolts env buf 0
        (env.cull_and_average_counts buf.DeviceIndex data size buf.num_channels).1 0
        (size / (device.oversample + 1) / buf.num_channels * buf.num_channels) tmpbuf 0 0).tobuf
      (size / (device.oversample + 1))
      (size / (device.oversample + 1) / buf.num_channels * buf.num_channels)
      AIOContinuousBufMode.AIOCONTINUOUS_BUF_ALLORNONE
    rw [w1, w2, w3, he0]
    exact ⟨rfl, rfl, rfl⟩
  · rw [CopyData_of_extra env buf device data size tmpbuf hdev hN32 hsz he1 he hcN]
    simp only
    exact Write_keeps_fields _ _ _ _ _

/-- Consecutive packets of one length `m`, with a descriptor found, at least
`N` samples per packet after culling and `extra < N` at the start: `extra`
ends at `(extra + k * c) mod N` after `k` packets. -/
theorem copyPackets_extra (env : Externals) (device : AIOUSBDevice) (m N index : Nat)
    (hdev : env.AIODeviceTableGetDeviceAtIndex index = DeviceLookup.found device)
    (hN32 : N < 4294967296) (hsz : m < 4294967296) (hcN : N ≤ m / (device.oversample + 1)) :
    ∀ (packets : List Packet) (st : CopyState), st.buf.DeviceIndex = index →
      st.buf.num_channels = N → st.buf.extra < N → (∀ pkt ∈ packets, pkt.size = m) →
      (copyPackets env st packets).buf.extra
          = (st.buf.extra + packets.length * (m / (device.oversample + 1))) % N ∧
        (copyPackets env st packets).buf.num_channels = N ∧
        (copyPackets env st packets).buf.DeviceIndex = index := by
  intro packets
  induction packets with
  | nil =>
    intro st hi hn he _
    refine ⟨?_, hn, hi⟩
    show st.buf.extra = (st.buf.extra + 0 * _) % N
    rw [Nat.zero_mul, Nat.add_zero, Nat.mod_eq_of_lt he]
  | cons pkt rest ih =>
    intro st hi hn he hall
    have hm : pkt.size = m := hall pkt (List.mem_cons_self _ _)
    obtain ⟨c1, c2, c3⟩ := CopyData_extra env st.buf device pkt.data pkt.size st.tmpbuf
      (by rw [hi]; exact hdev) (by rw [hn]; exact hN32) (by rw [hm]; exact hsz)
      (by rw [hn]; exact he) (by rw [hn, hm]; exact hcN)
    have hN : 0 < N := by omega
    obtain ⟨r1, r2, r3⟩ := ih (st.copy env pkt) (by rw [← hi]; exact c3) (by rw [← hn]; exact c2)
      (by
        show (AIOContinuousBufCopyData env st.buf pkt.data pkt.size st.tmpbuf).buf.extra < N
        rw [c1, hn]
        exact Nat.mod_lt _ hN)
      (fun p hp => hall p (List.mem_cons_of_mem _ hp))
    show (copyPackets env (st.copy env pkt) rest).buf.extra = _ ∧
      (copyPackets env (st.copy env pkt) rest).buf.num_channels = N ∧
      (copyPackets env (st.copy env pkt) rest).buf.DeviceIndex = index
    refine ⟨?_, r2, r3⟩
    rw [r1]
    show ((AIOContinuousBufCopyData env st.buf pkt.data pkt.size st.tmpbuf).buf.extra + _) % N = _
    rw [c1, hn, hm, List.length_cons, Nat.mod_add_mod]
    congr 1
    ring

/-- C16: starting from `extra = 0` with a descriptor found, after each of `k`
consecutive packets of `m` samples, of post-cull length `c = m / (K + 1) ≥ N`
for the oversample setting `K` and `N` channels, `extra` equals `(j * c) mod N`
for the number `j` of packets taken so far, and is below `N`. -/
theorem CopyData_residual (env : Externals) (device : AIOUSBDevice) (m : Nat)
    (packets : List Packet) (st : CopyState)
    (hdev : env.AIODeviceTableGetDeviceAtIndex st.buf.DeviceIndex = DeviceLookup.found device)
    (hN32 : st.buf.num_channels < 4294967296) (hsz : m < 4294967296)
    (hcN : st.buf.num_channels ≤ m / (device.oversample + 1))
    (hN : 1 ≤ st.buf.num_channels) (he : st.buf.extra = 0)
    (hall : ∀ pkt ∈ packets, pkt.size = m) :
    ∀ j, j ≤ packets.length →
      (copyPackets env st (packets.take j)).buf.extra
          = (j * (m / (device.oversample + 1))) % st.buf.num_channels ∧
        (copyPackets env st (packets.take j)).buf.extra < st.buf.num_channels := by
  intro j hj
  have h := (copyPackets_extra env device m st.buf.num_channels st.buf.DeviceIndex hdev hN32 hsz
    hcN (packets.take j) st rfl rfl (by omega)
    (fun p hp => hall p (List.mem_of_mem_take hp))).1
  rw [he, Nat.zero_add, List.length_take, Nat.min_eq_left hj] at h
  rw [h]
  exact ⟨rfl, Nat.mod_lt _ (by omega)⟩

/-- C16, witness: scenario S5, `N = 3` and one packet of `c = 5` samples leave
`extra = 5 mod 3 = 2`. -/
theorem CopyData_residual_witness :
    (copyPackets scenarioS5_externals scenarioS5_start ([scenarioS5_packet].take 1)).buf.extra
      = (1 * (5 / (0 + 1))) % 3 ∧
    (copyPackets scenarioS5_externals scenarioS5_start ([scenarioS5_packet].take 1)).buf.extra
      < 3 :=
  CopyData_residual scenarioS5_externals { cachedGain := fun channel => channel, oversample := 0 }
    5 [scenarioS5_packet] scenarioS5_start rfl (by decide) (by decide) (by decide) (by decide)
    rfl (by decide) 1 (by decide)

/-- C17, the code at the failing input, scenario S5 with two packets of 5
samples at the count `0xffff`: the first packet leaves `extra = 2`, so the
device acquired the first sample of the second packet on channel 2, whose
range tops at 3 volts; `AIOContinuousBufCopyData` converts it with the gain of
channel 1 (2 volts at the top) into the head of the conversion buffer, and
that value is what the ring receives at its write position 3. -/
theorem CopyData_misaligns_second_packet :
    (copyPackets scenarioS5_externals scenarioS5_start [scenarioS5_packet]).buf.extra = 2 ∧
    get_write_pos (copyPackets scenarioS5_externals scenarioS5_start [scenarioS5_packet]).buf
      = 3 ∧
    countsToVolts scenarioS5_externals 1 65535 = 2 ∧
    countsToVolts scenarioS5_externals 2 65535 = 3 ∧
    (copyPackets scenarioS5_externals scenarioS5_start
      [scenarioS5_packet, scenarioS5_packet]).tmpbuf 0 = 2 ∧
    (copyPackets scenarioS5_externals scenarioS5_start
      [scenarioS5_packet, scenarioS5_packet]).buf.buffer 3 = 2 := by
  decide!

/-- C18: when a packet of at least `N` samples after culling starts with
`0 < extra = r < N` and a descriptor is found, the conversions that
`AIOContinuousBufCopyData` makes first start at the channel cursor `N - r`:
cell `i < r` of the conversion buffer ends as sample `i` of the culled packet
converted with the gain code of channel `N - r + i`; cell 0 is the first
conversion, with channel `N - r`. -/
theorem CopyData_first_cursor (env : Externals) (buf : AIOContinuousBuf ℚ)
    (device : AIOUSBDevice) (data : Nat → Nat) (size : Nat) (tmpbuf : Nat → ℚ)
    (hdev : env.AIODeviceTableGetDeviceAtIndex buf.DeviceIndex = DeviceLookup.found device)
    (hsz : size < 4294967296) (he1 : 0 < buf.extra) (he2 : buf.extra < buf.num_channels)
    (hcN : buf.num_channels ≤ size / (device.oversample + 1))
    (hroom : size / (device.oversample + 1) + buf.num_channels < 4294967296) :
    (∀ i, i < buf.extra →
      (AIOContinuousBufCopyData env buf data size tmpbuf).tmpbuf i
        = countsToVolts env (device.cachedGain (buf.num_channels - buf.extra + i))
            ((env.cull_and_average_counts buf.DeviceIndex data size buf.num_channels).1 i)) ∧
    (AIOContinuousBufCopyData env buf data size tmpbuf).tmpbuf 0
      = countsToVolts env (device.cachedGain (buf.num_channels - buf.extra))
          ((env.cull_and_average_counts buf.DeviceIndex data size buf.num_channels).1 0) := by
  have hN : 0 < buf.num_channels := by omega
  have hN32 : buf.num_channels < 4294967296 := by omega
  have hc : size / (device.oversample + 1) < 4294967296 := by omega
  obtain ⟨hs1, hs2, hs3⟩ := div_mul_le_u32 (N := buf.num_channels)
    (c := size / (device.oversample + 1) - (buf.num_channels - buf.extra)) (by omega)
  have hcells : ∀ i, i < buf.extra →
      (AIOContinuousBufCopyData env buf data size tmpbuf).tmpbuf i
        = countsToVolts env (device.cachedGain (buf.num_channels - buf.extra + i))
            ((env.cull_and_average_counts buf.DeviceIndex data size buf.num_channels).1 i) := by
    intro i hi
    rw [CopyData_of_extra env buf device data size tmpbuf hdev hN32 hsz he1 he2 hcN]
    simp only
    obtain ⟨_, _, _, _, t5⟩ := SmartCountsToVolts_found env buf device
      (env.cull_and_average_counts buf.DeviceIndex data size buf.num_channels).1
      (buf.num_channels - buf.extra)
      ((size / (device.oversample + 1) - (buf.num_channels - buf.extra))
          / buf.num_channels * buf.num_channels)
      (AIOContinuousBuf_SmartCountsToVolts env buf 0
        (env.cull_and_average_counts buf.DeviceIndex data size buf.num_channels).1 0
        (buf.num_channels - buf.extra)
        (AIOContinuousBuf_SmartCountsToVolts env buf (buf.num_channels - buf.extra)
          (env.cull_and_average_counts buf.DeviceIndex data size buf.num_channels).1 0 buf.extra
          tmpbuf 0 0).tobuf buf.extra buf.extra).tobuf
      0 hdev hN hN32 (c := buf.num_channels - buf.extra) (p := buf.num_channels)
      (by omega) (by omega) hs2
    rw [t5 i (by intro k hk; omega)]
    obtain ⟨_, _, _, _, s5⟩ := SmartCountsToVolts_found env buf device
      (env.cull_and_average_counts buf.DeviceIndex data size buf.num_channels).1 0
      (buf.num_channels - buf.extra)
      (AIOContinuousBuf_SmartCountsToVolts env buf (buf.num_channels - buf.extra)
        (env.cull_and_average_counts buf.DeviceIndex data size buf.num_channels).1 0 buf.extra
        tmpbuf 0 0).tobuf
      buf.extra hdev hN hN32 (c := 0) (p := buf.extra) hN (by omega) (by omega)
    rw [s5 i (by intro k hk; omega)]
    obtain ⟨_, _, _, f4, _⟩ := SmartCountsToVolts_found env buf device
      (env.cull_and_average_counts buf.DeviceIndex data size buf.num_channels).1 0
      buf.extra tmpbuf 0 hdev hN hN32 (c := buf.num_channels - buf.extra) (p := 0)
      (by omega) (by omega) (by omega)
    have f := f4 i hi
    rw [show 0 + (0 + i) % 4294967296 = i by omega, Nat.zero_add,
      Nat.mod_eq_of_lt (by omega : buf.num_channels - buf.extra + i < buf.num_channels)] at f
    exact f
  exact ⟨hcells, hcells 0 he1⟩

/-- C18, witness: scenario S5 after its first packet (`N = 3`, `extra = 2`):
the head of the conversion buffer is converted with channel `3 - 2`. -/
theorem CopyData_first_cursor_witness :
    (AIOContinuousBufCopyData scenarioS5_externals
        (copyPackets scenarioS5_externals scenarioS5_start [scenarioS5_packet]).buf
        scenarioS5_packet.data 5 (fun _ => 0)).tmpbuf 0
      = countsToVolts scenarioS5_externals (3 - 2) 65535 :=
  (CopyData_first_cursor scenarioS5_externals
    (copyPackets scenarioS5_externals scenarioS5_start [scenarioS5_packet]).buf
    { cachedGain := fun channel => channel, oversample := 0 } scenarioS5_packet.data 5
    (fun _ => 0) rfl (by decide) (by decide) (by decide) (by decide) (by decide)).2

/-- C19, the code at the failing input, scenario S5 with two packets of 5
samples, both accepted by the ring: the first packet writes 3 samples and
leaves `extra = 2`, the second writes 4 and leaves `extra = 1`; 7 samples
written and 1 residual account for 8 of the 10 samples after culling.  The
second packet writes `c - extra_new = 4` samples, not
`c + extra_old - extra_new = 6`. -/
theorem CopyData_drops_residual :
    (AIOContinuousBufCopyData scenarioS5_externals scenarioS5_start.buf scenarioS5_packet.data
      scenarioS5_packet.size scenarioS5_start.tmpbuf).retval = Except.ok 3 ∧
    (copyPackets scenarioS5_externals scenarioS5_start [scenarioS5_packet]).buf.extra = 2 ∧
    (AIOContinuousBufCopyData scenarioS5_externals
      (copyPackets scenarioS5_externals scenarioS5_start [scenarioS5_packet]).buf
      scenarioS5_packet.data scenarioS5_packet.size
      (copyPackets scenarioS5_externals scenarioS5_start [scenarioS5_packet]).tmpbuf).retval
      = Except.ok 4 ∧
    (copyPackets scenarioS5_externals scenarioS5_start
      [scenarioS5_packet, scenarioS5_packet]).buf.extra = 1 ∧
    samplesWritten scenarioS5_externals scenarioS5_start [scenarioS5_packet, scenarioS5_packet]
      = 7 ∧
    samplesWritten scenarioS5_externals scenarioS5_start [scenarioS5_packet, scenarioS5_packet]
      + (copyPackets scenarioS5_externals scenarioS5_start
          [scenarioS5_packet, scenarioS5_packet]).buf.extra
      ≠ scenarioS5_packet.size / (0 + 1) + scenarioS5_packet.size / (0 + 1) :=
  ⟨rfl, by decide, rfl, by decide, by decide, by decide⟩

/-- C20, as the code has it: for every prior state `AIOContinuousBufReset`
leaves `read_pos = 0` and `write_pos = 0`, so occupancy 0, and leaves `extra`
as it was. -/
theorem Reset_positions (buf : AIOContinuousBuf α) :
    get_read_pos (AIOContinuousBufReset buf) = 0 ∧
    get_write_pos (AIOContinuousBufReset buf) = 0 ∧
    occupancy (AIOContinuousBufReset buf) = 0 ∧
    (AIOContinuousBufReset buf).extra = buf.extra := by
  have h : AIOContinuousBufReset buf = { buf with _read_pos := 0, _write_pos := 0 } := by
    unfold AIOContinuousBufReset set_write_pos set_read_pos
    rw [if_neg (by omega), if_neg (by omega)]
  rw [h]
  refine ⟨rfl, rfl, ?_, rfl⟩
  show (0 + buf.size - 0) % buf.size = 0
  rw [Nat.zero_add, Nat.sub_zero, Nat.mod_self]

/-- C20, counterexample: the ring of scenario S5 after its first packet has
`extra = 2`, and still has after `AIOContinuousBufReset`. -/
theorem Reset_keeps_extra :
    (AIOContinuousBufReset
      (copyPackets scenarioS5_externals scenarioS5_start [scenarioS5_packet]).buf).extra = 2 ∧
    (AIOContinuousBufReset
      (copyPackets scenarioS5_externals scenarioS5_start [scenarioS5_packet]).buf).extra ≠ 0 := by
  decide

end VoltsFacts

/-! ## Ring invariant, frames and scan counts -/

section CallFacts

variable {α : Type}

theorem set_read_pos_ok {buf : AIOContinuousBuf α} (hok : RingOK buf) (pos : Nat) :
    RingOK (set_read_pos buf pos) ∧ (set_read_pos buf pos).size = buf.size := by
  have hbm := buffer_max_eq hok
  obtain ⟨h1, h2, h3, h4⟩ := hok
  unfold set_read_pos
  rw [hbm]
  split
  · exact ⟨⟨h1, h2, by show buf.size - 1 < buf.size; omega, h4⟩, rfl⟩
  · exact ⟨⟨h1, h2, by show pos < buf.size; omega, h4⟩, rfl⟩

theorem set_write_pos_ok {buf : AIOContinuousBuf α} (hok : RingOK buf) (pos : Nat) :
    RingOK (set_write_pos buf pos) ∧ (set_write_pos buf pos).size = buf.size := by
  have hbm := buffer_max_eq hok
  obtain ⟨h1, h2, h3, h4⟩ := hok
  unfold set_write_pos
  rw [hbm]
  split
  · exact ⟨⟨h1, h2, h3, by show buf.size - 1 < buf.size; omega⟩, rfl⟩
  · exact ⟨⟨h1, h2, h3, by show pos < buf.size; omega⟩, rfl⟩

theorem Read_ok {buf : AIOContinuousBuf α} (hok : RingOK buf) (readbuf : Nat → α)
    (readbufsize size : Nat) :
    RingOK (AIOContinuousBufRead buf readbuf readbufsize size).2.1 ∧
    (AIOContinuousBufRead buf readbuf readbufsize size).2.1.size = buf.size := by
  unfold AIOContinuousBufRead
  exact set_read_pos_ok hok _

theorem Write_ok {buf : AIOContinuousBuf α} (hok : RingOK buf) (writebuf : Nat → α)
    (wrbufsize size : Nat) (flag : AIOContinuousBufMode) :
    RingOK (AIOContinuousBufWrite buf writebuf wrbufsize size flag).2 ∧
    (AIOContinuousBufWrite buf writebuf wrbufsize size flag).2.size = buf.size := by
  have hb : ∀ m : Nat → α, RingOK ({ buf with buffer := m } : AIOContinuousBuf α) := fun _ => hok
  unfold AIOContinuousBufWrite
  simp only
  split
  · exact ⟨hok, rfl⟩
  · split
    · exact set_write_pos_ok (hb _) _
    · split
      · exact set_write_pos_ok (hb _) _
      · exact ⟨hok, rfl⟩

theorem RingCall_ok {buf : AIOContinuousBuf α} (hok : RingOK buf) (call : RingCall α) :
    RingOK (RingCall.apply buf call) ∧ (RingCall.apply buf call).size = buf.size := by
  cases call with
  | reset =>
    show RingOK (set_write_pos (set_read_pos buf 0) 0) ∧ _
    obtain ⟨a, b⟩ := set_read_pos_ok hok 0
    obtain ⟨c, d⟩ := set_write_pos_ok a 0
    exact ⟨c, d.trans b⟩
  | set_read_pos pos => exact set_read_pos_ok hok pos
  | set_write_pos pos => exact set_write_pos_ok hok pos
  | read readbuf readbufsize size => exact Read_ok hok readbuf readbufsize size
  | write writebuf wrbufsize size flag => exact Write_ok hok writebuf wrbufsize size flag

theorem callRing_ok (calls : List (RingCall α)) :
    ∀ buf : AIOContinuousBuf α, RingOK buf →
      RingOK (callRing buf calls) ∧ (callRing buf calls).size = buf.size := by
  induction calls with
  | nil => intro buf hok; exact ⟨hok, rfl⟩
  | cons call rest ih =>
    intro buf hok
    obtain ⟨a, b⟩ := RingCall_ok hok call
    obtain ⟨c, d⟩ := ih _ a
    exact ⟨c, d.trans b⟩

/-- C21: on every state reached from a constructed ring with `S ≥ 1` cells by
resets, the clamping setters, reads and writes in any mode, with any
arguments, `read_pos` and `write_pos` lie in `[0, S)`, and the available-read
size the code reports equals `(write_pos - read_pos) mod S`, a value in
`[0, S - 1]`. -/
theorem reachable_positions (mem : Nat → α) (DeviceIndex scancounts num_channels : Nat)
    (counts : Bool) (calls : List (RingCall α))
    (hS : 1 ≤ buffer_size
      (NewAIOContinuousBufWithoutConfig mem DeviceIndex scancounts num_channels counts)) :
    buffer_size (callRing
        (NewAIOContinuousBufWithoutConfig mem DeviceIndex scancounts num_channels counts) calls)
      = buffer_size
        (NewAIOContinuousBufWithoutConfig mem DeviceIndex scancounts num_channels counts) ∧
    get_read_pos (callRing
        (NewAIOContinuousBufWithoutConfig mem DeviceIndex scancounts num_channels counts) calls)
      < buffer_size
        (NewAIOContinuousBufWithoutConfig mem DeviceIndex scancounts num_channels counts) ∧
    get_write_pos (callRing
        (NewAIOContinuousBufWithoutConfig mem DeviceIndex scancounts num_channels counts) calls)
      < buffer_size
        (NewAIOContinuousBufWithoutConfig mem DeviceIndex scancounts num_channels counts) ∧
    AIOContinuousBufAvailableReadSize (callRing
        (NewAIOContinuousBufWithoutConfig mem DeviceIndex scancounts num_channels counts) calls)
      = occupancy (callRing
        (NewAIOContinuousBufWithoutConfig mem DeviceIndex scancounts num_channels counts) calls) ∧
    AIOContinuousBufAvailableReadSize (callRing
        (NewAIOContinuousBufWithoutConfig mem DeviceIndex scancounts num_channels counts) calls)
      ≤ buffer_size
        (NewAIOContinuousBufWithoutConfig mem DeviceIndex scancounts num_channels counts) - 1 := by
  have h0 : RingOK
      (NewAIOContinuousBufWithoutConfig mem DeviceIndex scancounts num_channels counts) := by
    refine ⟨hS, ?_, ?_, ?_⟩
    · show umul num_channels scancounts < 4294967296
      unfold umul
      exact Nat.mod_lt _ (by norm_num)
    · exact hS
    · exact hS
  obtain ⟨hok, hsz⟩ := callRing_ok calls _ h0
  have hocc := occupancy_lt hok
  have hrs := read_size_eq hok
  obtain ⟨h1, h2, h3, h4⟩ := hok
  unfold AIOContinuousBufAvailableReadSize
  rw [hrs]
  unfold buffer_size get_read_pos get_write_pos
  rw [hsz] at h3 h4 hocc
  exact ⟨hsz, h3, h4, rfl, by omega⟩

/-- C21, witness: a ring of 2 scans of 2 channels after `set_write_pos(7)`, a
read of 1 and an override write of 3. -/
theorem reachable_positions_witness :
    get_read_pos (callRing (NewAIOContinuousBufWithoutConfig (fun _ => (0 : Nat)) 0 2 2 true)
        [RingCall.set_write_pos 7, RingCall.read (fun _ => 0) 1 1,
         RingCall.write (fun i => i) 3 3 AIOContinuousBufMode.AIOCONTINUOUS_BUF_OVERRIDE])
      < buffer_size (NewAIOContinuousBufWithoutConfig (fun _ => (0 : Nat)) 0 2 2 true) ∧
    get_write_pos (callRing (NewAIOContinuousBufWithoutConfig (fun _ => (0 : Nat)) 0 2 2 true)
        [RingCall.set_write_pos 7, RingCall.read (fun _ => 0) 1 1,
         RingCall.write (fun i => i) 3 3 AIOContinuousBufMode.AIOCONTINUOUS_BUF_OVERRIDE])
      < buffer_size (NewAIOContinuousBufWithoutConfig (fun _ => (0 : Nat)) 0 2 2 true) :=
  ⟨(reachable_positions (fun _ => (0 : Nat)) 0 2 2 true
      [RingCall.set_write_pos 7, RingCall.read (fun _ => 0) 1 1,
       RingCall.write (fun i => i) 3 3 AIOContinuousBufMode.AIOCONTINUOUS_BUF_OVERRIDE]
      (by decide)).2.1,
   (reachable_positions (fun _ => (0 : Nat)) 0 2 2 true
      [RingCall.set_write_pos 7, RingCall.read (fun _ => 0) 1 1,
       RingCall.write (fun i => i) 3 3 AIOContinuousBufMode.AIOCONTINUOUS_BUF_OVERRIDE]
      (by decide)).2.2.1⟩

theorem set_read_pos_frame (buf : AIOContinuousBuf α) (pos : Nat) :
    (set_read_pos buf pos)._write_pos = buf._write_pos ∧
    (set_read_pos buf pos).extra = buf.extra ∧
    (set_read_pos buf pos).buffer = buf.buffer := by
  unfold set_read_pos
  split <;> exact ⟨rfl, rfl, rfl⟩

theorem set_write_pos_frame (buf : AIOContinuousBuf α) (pos : Nat) :
    (set_write_pos buf pos)._read_pos = buf._read_pos ∧
    (set_write_pos buf pos).extra = buf.extra := by
  unfold set_write_pos
  split <;> exact ⟨rfl, rfl⟩

/-- C22: `AIOContinuousBufWrite`, in every mode and whether it returns a count
or an error, leaves `read_pos` and `extra` as they were;
`AIOContinuousBufRead` leaves `write_pos`, `extra` and every stored element as
they were. -/
theorem single_mutator_frame (buf : AIOContinuousBuf α) (writebuf readbuf : Nat → α)
    (wrbufsize readbufsize size : Nat) (flag : AIOContinuousBufMode) :
    get_read_pos (AIOContinuousBufWrite buf writebuf wrbufsize size flag).2 = get_read_pos buf ∧
    (AIOContinuousBufWrite buf writebuf wrbufsize size flag).2.extra = buf.extra ∧
    get_write_pos (AIOContinuousBufRead buf readbuf readbufsize size).2.1 = get_write_pos buf ∧
    (AIOContinuousBufRead buf readbuf readbufsize size).2.1.extra = buf.extra ∧
    (AIOContinuousBufRead buf readbuf readbufsize size).2.1.buffer = buf.buffer := by
  have hw : (AIOContinuousBufWrite buf writebuf wrbufsize size flag).2._read_pos = buf._read_pos ∧
      (AIOContinuousBufWrite buf writebuf wrbufsize size flag).2.extra = buf.extra := by
    unfold AIOContinuousBufWrite
    simp only
    split
    · exact ⟨rfl, rfl⟩
    · split
      · exact set_write_pos_frame _ _
      · split
        · exact set_write_pos_frame _ _
        · exact ⟨rfl, rfl⟩
  have hr := set_read_pos_frame buf
  unfold AIOContinuousBufRead
  exact ⟨hw.1, hw.2, (hr _).1, (hr _).2.1, (hr _).2.2⟩

theorem to_float_exact {n : Nat} (h : n ≤ 16777216) : to_float n = n := by
  rcases Nat.lt_or_ge n 16777216 with hlt | hge
  · have hu : float_ulp n = 1 := by unfold float_ulp; rw [if_pos hlt]
    unfold to_float
    rw [hu, if_pos (by omega), Nat.div_one, Nat.mul_one]
  · have hn : n = 16777216 := by omega
    subst hn
    decide

/-- On a ring state with at most `2^24` cells and `N ≥ 1` channels the `float`
steps of `write_size_num_scan_counts` are exact: the result is
`write_size / N - 1`, and 0 when the quotient is 0. -/
theorem write_size_num_scan_counts_eq {buf : AIOContinuousBuf α} (hok : RingOK buf)
    (hN : 1 ≤ buf.num_channels) (hS : buf.size ≤ 16777216) :
    write_size_num_scan_counts buf = write_size buf / buf.num_channels - 1 := by
  have hws := write_size_eq hok
  have hq : write_size buf / buf.num_channels ≤ 16777216 :=
    le_trans (Nat.div_le_self _ _) (by omega)
  unfold write_size_num_scan_counts
  rw [to_float_exact hq]
  split
  · omega
  · exact to_float_exact (by omega)

/-- C29: on every ring state with `N ≥ 1` channels and at most `2^24` cells
(where the conversions to `float` are exact), `write_size` is
`S - occupancy`, `write_size_num_scan_counts` returns
`max(write_size / N - 1, 0)`, which differs from `write_size / N` whenever that
is at least 1, and `AIOContinuousBufNumberWriteScansInCounts` returns `N` times
that value. -/
theorem write_size_num_scan_counts_under_reports (buf : AIOContinuousBuf α) (hok : RingOK buf)
    (hN : 1 ≤ buf.num_channels) (hS : buf.size ≤ 16777216) :
    write_size buf = buf.size - occupancy buf ∧
    (write_size_num_scan_counts buf : Int)
      = max ((write_size buf / buf.num_channels : Nat) - 1 : Int) 0 ∧
    (1 ≤ write_size buf / buf.num_channels →
      write_size_num_scan_counts buf ≠ write_size buf / buf.num_channels) ∧
    AIOContinuousBufNumberWriteScansInCounts buf
      = Except.ok (buf.num_channels * (write_size buf / buf.num_channels - 1)) := by
  have h := write_size_num_scan_counts_eq hok hN hS
  refine ⟨write_size_eq hok, ?_, ?_, ?_⟩
  · rw [h]; omega
  · intro h1; rw [h]; omega
  · unfold AIOContinuousBufNumberWriteScansInCounts
    rw [h]

/-- C29, witness: a fresh ring of counts of 10 scans of 16 channels has
`write_size = 160` and reports 9 scans, 144 counts. -/
theorem write_size_num_scan_counts_under_reports_witness :
    write_size_num_scan_counts (NewAIOContinuousBufForCounts (fun _ => (0 : Nat)) 0 10 16)
      ≠ write_size (NewAIOContinuousBufForCounts (fun _ => (0 : Nat)) 0 10 16)
        / (NewAIOContinuousBufForCounts (fun _ => (0 : Nat)) 0 10 16).num_channels ∧
    AIOContinuousBufNumberWriteScansInCounts
        (NewAIOContinuousBufForCounts (fun _ => (0 : Nat)) 0 10 16)
      = Except.ok ((NewAIOContinuousBufForCounts (fun _ => (0 : Nat)) 0 10 16).num_channels
        * (write_size (NewAIOContinuousBufForCounts (fun _ => (0 : Nat)) 0 10 16)
          / (NewAIOContinuousBufForCounts (fun _ => (0 : Nat)) 0 10 16).num_channels - 1)) :=
  ⟨(write_size_num_scan_counts_under_reports
      (NewAIOContinuousBufForCounts (fun _ => (0 : Nat)) 0 10 16) (by decide) (by decide)
      (by decide)).2.2.1 (by decide),
   (write_size_num_scan_counts_under_reports
      (NewAIOContinuousBufForCounts (fun _ => (0 : Nat)) 0 10 16) (by decide) (by decide)
      (by decide)).2.2.2⟩

/-- C28, on rings of at most `2^24` cells: for every ring state with `N ≥ 1`
channels, the count `AIOContinuousBufNumberWriteScansInCounts` reports is a
whole number of scans, and an all-or-none write of exactly that count, from a
source holding as many elements, is accepted and returns the count. -/
theorem write_of_reported_scans_fits (buf : AIOContinuousBuf α) (writebuf : Nat → α)
    (wrbufsize : Nat) (hok : RingOK buf) (hN : 1 ≤ buf.num_channels)
    (hS : buf.size ≤ 16777216)
    (hsrc : buf.num_channels * write_size_num_scan_counts buf ≤ wrbufsize) :
    AIOContinuousBufNumberWriteScansInCounts buf
      = Except.ok (buf.num_channels * write_size_num_scan_counts buf) ∧
    buf.num_channels ∣ buf.num_channels * write_size_num_scan_counts buf ∧
    (AIOContinuousBufWrite buf writebuf wrbufsize
        (buf.num_channels * write_size_num_scan_counts buf)
        AIOContinuousBufMode.AIOCONTINUOUS_BUF_ALLORNONE).1
      = Except.ok (buf.num_channels * write_size_num_scan_counts buf) := by
  have h := write_size_num_scan_counts_eq hok hN hS
  have hws := write_size_eq hok
  have hocc := occupancy_lt hok
  have hle : buf.num_channels * write_size_num_scan_counts buf ≤ available buf := by
    rw [h]
    unfold available
    rcases Nat.eq_zero_or_pos (write_size buf / buf.num_channels) with h0 | hpos
    · rw [h0]; simp
    · have h1 : buf.num_channels * (write_size buf / buf.num_channels) ≤ write_size buf :=
        Nat.mul_div_le _ _
      have h2 : buf.num_channels * (write_size buf / buf.num_channels - 1)
          = buf.num_channels * (write_size buf / buf.num_channels) - buf.num_channels := by
        rw [Nat.mul_sub, Nat.mul_one]
      have h3 : buf.num_channels ≤ buf.num_channels * (write_size buf / buf.num_channels) :=
        Nat.le_mul_of_pos_right _ hpos
      omega
  refine ⟨rfl, Dvd.intro _ rfl, ?_⟩
  rw [write_fits hok writebuf hsrc hle AIOContinuousBufMode.AIOCONTINUOUS_BUF_ALLORNONE]

/-- C28, witness: a fresh ring of counts of 10 scans of 16 channels reports 144
counts and accepts an all-or-none write of 144. -/
theorem write_of_reported_scans_fits_witness :
    (AIOContinuousBufWrite (NewAIOContinuousBufForCounts (fun _ => (0 : Nat)) 0 10 16)
        (fun i => i) 32768
        ((NewAIOContinuousBufForCounts (fun _ => (0 : Nat)) 0 10 16).num_channels
          * write_size_num_scan_counts (NewAIOContinuousBufForCounts (fun _ => (0 : Nat)) 0 10 16))
        AIOContinuousBufMode.AIOCONTINUOUS_BUF_ALLORNONE).1
      = Except.ok ((NewAIOContinuousBufForCounts (fun _ => (0 : Nat)) 0 10 16).num_channels
          * write_size_num_scan_counts
            (NewAIOContinuousBufForCounts (fun _ => (0 : Nat)) 0 10 16)) :=
  (write_of_reported_scans_fits (NewAIOContinuousBufForCounts (fun _ => (0 : Nat)) 0 10 16)
    (fun i => i) 32768 (by decide) (by decide) (by decide) (by decide)).2.2

/-- C28, counterexample: a fresh ring of counts of `2^24 + 4` scans of 1
channel has `write_size = 2^24 + 4`; the `float` difference `tmp - 1` lies
half-way between two `float` values and rounds back to `2^24 + 4`, so the
count reported is the whole ring, and the all-or-none write of that count is
refused. -/
theorem write_of_reported_scans_refused :
    RingOK (NewAIOContinuousBufForCounts (fun _ => (0 : Nat)) 0 16777220 1) ∧
    write_size (NewAIOContinuousBufForCounts (fun _ => (0 : Nat)) 0 16777220 1) = 16777220 ∧
    to_float 16777220 = 16777220 ∧ to_float 16777219 = 16777220 ∧
    AIOContinuousBufNumberWriteScansInCounts
        (NewAIOContinuousBufForCounts (fun _ => (0 : Nat)) 0 16777220 1) = Except.ok 16777220 ∧
    (AIOContinuousBufWrite (NewAIOContinuousBufForCounts (fun _ => (0 : Nat)) 0 16777220 1)
        (fun i => i) 16777220 16777220 AIOContinuousBufMode.AIOCONTINUOUS_BUF_ALLORNONE).1
      = Except.error ResultCode.AIOUSB_ERROR_NOT_ENOUGH_MEMORY :=
  ⟨by decide, by decide, by decide, by decide, by rfl, by rfl⟩

end CallFacts

section ScanReadFacts

variable {α : Type}

/-- With fewer than `N` elements asked for, `AIOContinuousBufReadIntegerScanCounts`
returns the not-enough-memory error and leaves ring and destination as they
were. -/
theorem ReadIntegerScanCounts_short (buf : AIOContinuousBuf α) (tmp : Nat → α)
    (tmpsize size : Nat) (hN : buf.num_channels < 4294967296) (h : size < buf.num_channels) :
    AIOContinuousBufReadIntegerScanCounts buf tmp tmpsize size
      = (Except.error ResultCode.AIOUSB_ERROR_NOT_ENOUGH_MEMORY, buf, tmp) := by
  unfold AIOContinuousBufReadIntegerScanCounts
  rw [if_pos (by rw [Nat.mod_eq_of_lt hN]; exact h)]

/-- C23, the code at the failing input: a ring of counts with `N = 2` holding
three counts (one scan and a half, written by one accepted write) and a read
of whole scans with `size = 4 ≥ N`: the call returns 3, which is not a
multiple of `N`, advances `read_pos` by 3 and hands out the lone first sample
`13` of the second scan. -/
theorem ReadIntegerScanCounts_splits_scan :
    scenarioHalfScan.num_channels = 2 ∧ occupancy scenarioHalfScan = 3 ∧
    (AIOContinuousBufReadIntegerScanCounts scenarioHalfScan (fun _ => 0) 4 4).1 = Except.ok 3 ∧
    ¬ (2 ∣ 3) ∧
    get_read_pos (AIOContinuousBufReadIntegerScanCounts scenarioHalfScan (fun _ => 0) 4 4).2.1
      = 3 ∧
    firstCells (AIOContinuousBufReadIntegerScanCounts scenarioHalfScan (fun _ => 0) 4 4).2.2 3
      = [11, 12, 13] :=
  ⟨by decide, by decide, by rfl, by decide, by decide, by decide⟩

end ScanReadFacts

section ScanReadGeneral

variable {α : Type}

theorem occupancy_after_read {buf : AIOContinuousBuf α} (hok : RingOK buf) {k : Nat}
    (hk : k ≤ occupancy buf) :
    RingOK ({ buf with _read_pos := (buf._read_pos + k) % buf.size } : AIOContinuousBuf α) ∧
    occupancy ({ buf with _read_pos := (buf._read_pos + k) % buf.size } : AIOContinuousBuf α)
      = occupancy buf - k := by
  have hocc := occupancy_eq hok
  obtain ⟨h1, h2, h3, h4⟩ := id hok
  have hlt : (buf._read_pos + k) % buf.size < buf.size := Nat.mod_lt _ (by omega)
  have hok' : RingOK ({ buf with _read_pos := (buf._read_pos + k) % buf.size }
      : AIOContinuousBuf α) := ⟨h1, h2, hlt, h4⟩
  refine ⟨hok', ?_⟩
  have hocc' := occupancy_eq hok'
  rw [hocc']
  show (if (buf._read_pos + k) % buf.size > buf._write_pos
      then buf.size - ((buf._read_pos + k) % buf.size - buf._write_pos)
      else buf._write_pos - (buf._read_pos + k) % buf.size) = _
  have hm := mod_of_lt_two_mul (x := buf._read_pos + k) (S := buf.size)
    (by split at hocc <;> omega)
  rw [hm]
  split at hocc <;> split <;> split <;> omega

/-- The loop of `AIOContinuousBufReadIntegerScanCounts` on a ring state, when
the remaining passes fit in `size`: it adds `min(passes * N, occupancy)` to
`retval` and advances the read position by as much, modulo `S`. -/
theorem ReadIntegerScanCounts_loop_result {N tmpsize size : Nat} (hN : 1 ≤ N)
    (hsize : size < 2147483648) :
    ∀ (passes pos ret : Nat) (buf : AIOContinuousBuf α) (tmp : Nat → α),
      RingOK buf → buf.num_channels = N → pos + passes * N ≤ size →
      (ReadIntegerScanCounts_loop N tmpsize size passes pos (ret, buf, tmp)).1
          = ret + min (passes * N) (occupancy buf) ∧
        (ReadIntegerScanCounts_loop N tmpsize size passes pos (ret, buf, tmp)).2.1._read_pos
          = (buf._read_pos + min (passes * N) (occupancy buf)) % buf.size ∧
        (ReadIntegerScanCounts_loop N tmpsize size passes pos (ret, buf, tmp)).2.1._write_pos
          = buf._write_pos ∧
        (ReadIntegerScanCounts_loop N tmpsize size passes pos (ret, buf, tmp)).2.1.size
          = buf.size := by
  have hiu : int_of_unsigned size = (size : Int) := by
    unfold int_of_unsigned
    rw [Nat.mod_eq_of_lt (by omega), if_pos hsize]
  intro passes
  induction passes with
  | zero =>
    intro pos ret buf tmp hok _ _
    obtain ⟨h1, h2, h3, h4⟩ := hok
    refine ⟨by simp [ReadIntegerScanCounts_loop], ?_, rfl, rfl⟩
    show buf._read_pos = _
    rw [Nat.zero_mul, Nat.zero_min, Nat.add_zero, Nat.mod_eq_of_lt h3]
  | succ f ih =>
    intro pos ret buf tmp hok hn hfit
    have hexp : (f + 1) * N = f * N + N := by ring
    rw [hexp] at hfit ⊢
    have hocc := occupancy_lt hok
    obtain ⟨h1, h2, h3, h4⟩ := id hok
    have hNS : N < 4294967296 := by omega
    have hr := read_result hok (fun j => tmp (pos + j)) (usub tmpsize pos) hNS
    simp only [ReadIntegerScanCounts_loop]
    rw [if_pos (by rw [hiu]; omega)]
    unfold ReadIntegerScanCounts_pass
    simp only [hn]
    rw [hr]
    simp only
    obtain ⟨hok', hocc'⟩ := occupancy_after_read hok (Nat.min_le_right N (occupancy buf))
    obtain ⟨i1, i2, i3, i4⟩ := ih (pos + N) (ret + min N (occupancy buf))
      { buf with _read_pos := (buf._read_pos + min N (occupancy buf)) % buf.size }
      (fun j => if pos ≤ j then
          (memcpy
            (memcpy (fun j => tmp (pos + j)) 0 buf.buffer buf._read_pos
              (if buf._read_pos ≤ buf._write_pos then min N (occupancy buf)
               else min N (buf.size - buf._read_pos)))
            (elemOffset buf
              (if buf._read_pos ≤ buf._write_pos then min N (occupancy buf)
               else min N (buf.size - buf._read_pos)))
            buf.buffer 0
            (min N (occupancy buf) -
              (if buf._read_pos ≤ buf._write_pos then min N (occupancy buf)
               else min N (buf.size - buf._read_pos)))) (j - pos)
        else tmp j)
      hok' hn (by omega)
    rw [i1, i2, i3, i4, hocc']
    refine ⟨by omega, ?_, rfl, rfl⟩
    show ((buf._read_pos + min N (occupancy buf)) % buf.size
        + min (f * N) (occupancy buf - min N (occupancy buf))) % buf.size = _
    rw [Nat.mod_add_mod]
    congr 1
    omega

/-- On a ring state with `N ≥ 1` channels and `N ≤ size < 2^31`,
`AIOContinuousBufReadIntegerScanCounts` returns
`min((size / N) * N, occupancy)` and advances the read position by as much,
modulo `S`; the result is a multiple of `N` when the occupancy is one. -/
theorem ReadIntegerScanCounts_result {buf : AIOContinuousBuf α} (hok : RingOK buf)
    (tmp : Nat → α) (tmpsize : Nat) {size : Nat} (hN : 1 ≤ buf.num_channels)
    (hsize : buf.num_channels ≤ size) (h31 : size < 2147483648) :
    (AIOContinuousBufReadIntegerScanCounts buf tmp tmpsize size).1
      = Except.ok (min (size / buf.num_channels * buf.num_channels) (occupancy buf)) ∧
    (AIOContinuousBufReadIntegerScanCounts buf tmp tmpsize size).2.1._read_pos
      = (buf._read_pos + min (size / buf.num_channels * buf.num_channels) (occupancy buf))
        % buf.size ∧
    (buf.num_channels ∣ occupancy buf →
      buf.num_channels ∣ min (size / buf.num_channels * buf.num_channels) (occupancy buf)) := by
  have hq : size / buf.num_channels * buf.num_channels ≤ size := Nat.div_mul_le_self _ _
  have hqs : size / buf.num_channels ≤ size := Nat.div_le_self _ _
  have hscans : (int_of_unsigned (size / buf.num_channels)).toNat = size / buf.num_channels := by
    unfold int_of_unsigned
    rw [Nat.mod_eq_of_lt (by omega), if_pos (by omega)]
    rfl
  obtain ⟨l1, l2, _, _⟩ := @ReadIntegerScanCounts_loop_result α buf.num_channels tmpsize size hN h31
    (size / buf.num_channels) 0 0 buf tmp hok rfl (by omega)
  unfold AIOContinuousBufReadIntegerScanCounts
  rw [if_neg (by rw [Nat.mod_eq_of_lt (by omega)]; omega)]
  simp only [hscans]
  rw [l1, l2, Nat.zero_add]
  refine ⟨rfl, rfl, fun hdvd => ?_⟩
  rcases Nat.le_total (size / buf.num_channels * buf.num_channels) (occupancy buf) with h | h
  · rw [Nat.min_eq_left h]; exact Dvd.intro_left _ rfl
  · rw [Nat.min_eq_right h]; exact hdvd

end ScanReadGeneral

/-! ## Bring-up -/

section BringupFacts

variable {α : Type}

theorem isSuccess_iff (retval : AIORET_TYPE) : isSuccess retval = true ↔ retval = Except.ok 0 := by
  unfold isSuccess
  split
  · simp
  · rename_i h
    constructor
    · intro h'; cases h'
    · intro h'; exact absurd h' (h)

theorem ResetCounters_frame (env : USBExternals) (s : Session α) :
    (ResetCounters env s).2.buf = s.buf ∧ (ResetCounters env s).2.worker = s.worker := by
  unfold ResetCounters control_transfer
  split
  · exact ⟨rfl, rfl⟩
  · exact ⟨rfl, rfl⟩
  · simp only
    split
    · exact ⟨rfl, rfl⟩
    · split <;> exact ⟨rfl, rfl⟩

theorem SetConfig_frame (env : USBExternals) (s : Session α) :
    (SetConfig env s).2.buf = s.buf ∧ (SetConfig env s).2.worker = s.worker ∧
    (SetConfig env s).2.transfers = s.transfers := by
  unfold SetConfig
  split
  · exact ⟨rfl, rfl, rfl⟩
  · split <;> exact ⟨rfl, rfl, rfl⟩

theorem CalculateClocks_status (fdivisora : Nat) (buf : AIOContinuousBuf α) :
    (CalculateClocks fdivisora buf).2.status = buf.status := by
  unfold CalculateClocks
  simp only
  split
  · rfl
  · split
    · rfl
    · split <;> rfl

theorem StartStreaming_frame (env : USBExternals) (s : Session α) :
    (StartStreaming env s).2.buf = s.buf ∧ (StartStreaming env s).2.worker = s.worker := by
  unfold StartStreaming control_transfer
  split
  · exact ⟨rfl, rfl⟩
  · exact ⟨rfl, rfl⟩
  · simp only
    split <;> exact ⟨rfl, rfl⟩

theorem LoadCounters_frame (env : USBExternals) (s : Session α) (countera counterb : Nat) :
    (AIOContinuousBufLoadCounters env s countera counterb).2.buf = s.buf ∧
    (AIOContinuousBufLoadCounters env s countera counterb).2.worker = s.worker := by
  unfold AIOContinuousBufLoadCounters control_transfer
  split
  · exact ⟨rfl, rfl⟩
  · exact ⟨rfl, rfl⟩
  · simp only
    split
    · exact ⟨rfl, rfl⟩
    · split <;> exact ⟨rfl, rfl⟩

/-- C27, the code on a failed lookup: whatever `result` the lookup of the USB
device stores, and also when it gives success with a null device,
`ResetCounters` issues no control transfer, leaves the session as it was and
returns `AIOUSB_SUCCESS`: `result` is assigned but `retval` is what is
returned. -/
theorem ResetCounters_hides_failed_lookup (env : USBExternals) (s : Session α) (result : Nat) :
    ResetCounters
        { env with AIODeviceTableGetUSBDeviceAtIndex := fun _ => USBLookup.failed result } s
      = (Except.ok 0, s) ∧
    ResetCounters { env with AIODeviceTableGetUSBDeviceAtIndex := fun _ => USBLookup.null } s
      = (Except.ok 0, s) ∧
    isSuccess (ResetCounters
        { env with AIODeviceTableGetUSBDeviceAtIndex := fun _ => USBLookup.failed result } s).1
      = true :=
  ⟨rfl, rfl, rfl⟩

/-- C26: `AIOContinuousBufCallbackStart` runs reset-counters, apply-configuration,
solve-clock, start-streaming and load-counters in this order, and when one of
them returns a value other than `AIOUSB_SUCCESS` it returns that value with the
session as that step left it: no later step has run.  None of the five steps
creates the worker or stores to `status`, so in each of these cases the worker
is not created and the status is the one on entry.  With `hz = 0` and the first
two steps succeeding, the result is the invalid-parameter error and the
transfers are those of reset-counters. -/
theorem CallbackStart_fails_fast (env : USBExternals) (fdivisora : Nat) (s : Session α) :
    let r1 := ResetCounters env s
    let r2 := SetConfig env r1.2
    let r3 := CalculateClocks fdivisora r2.2.buf
    let s3 : Session α := { r2.2 with buf := r3.2 }
    let r4 := StartStreaming env s3
    let r5 := AIOContinuousBufLoadCounters env r4.2 r4.2.buf.divisora r4.2.buf.divisorb
    (isSuccess r1.1 = false → AIOContinuousBufCallbackStart env fdivisora s = r1) ∧
    (isSuccess r1.1 = true → isSuccess r2.1 = false →
      AIOContinuousBufCallbackStart env fdivisora s = r2) ∧
    (isSuccess r1.1 = true → isSuccess r2.1 = true → isSuccess r3.1 = false →
      AIOContinuousBufCallbackStart env fdivisora s = (r3.1, s3)) ∧
    (isSuccess r1.1 = true → isSuccess r2.1 = true → isSuccess r3.1 = true →
      isSuccess r4.1 = false → AIOContinuousBufCallbackStart env fdivisora s = r4) ∧
    (isSuccess r1.1 = true → isSuccess r2.1 = true → isSuccess r3.1 = true →
      isSuccess r4.1 = true → isSuccess r5.1 = false →
      AIOContinuousBufCallbackStart env fdivisora s = r5) ∧
    (r1.2.worker = s.worker ∧ r1.2.buf.status = s.buf.status) ∧
    (r2.2.worker = s.worker ∧ r2.2.buf.status = s.buf.status) ∧
    (s3.worker = s.worker ∧ s3.buf.status = s.buf.status) ∧
    (r4.2.worker = s.worker ∧ r4.2.buf.status = s.buf.status) ∧
    (r5.2.worker = s.worker ∧ r5.2.buf.status = s.buf.status) ∧
    (isSuccess r1.1 = true → isSuccess r2.1 = true → s.buf.hz = 0 →
      AIOContinuousBufCallbackStart env fdivisora s
        = (Except.error ResultCode.AIOUSB_ERROR_INVALID_PARAMETER, r2.2) ∧
      (AIOContinuousBufCallbackStart env fdivisora s).2.transfers = r1.2.transfers) := by
  intro r1 r2 r3 s3 r4 r5
  have f1 := ResetCounters_frame env s
  have f2 := SetConfig_frame env r1.2
  have f3 := CalculateClocks_status fdivisora r2.2.buf
  have f4 := StartStreaming_frame env s3
  have f5 := LoadCounters_frame env r4.2 r4.2.buf.divisora r4.2.buf.divisorb
  have e1 : r1.2.worker = s.worker ∧ r1.2.buf.status = s.buf.status := ⟨f1.2, by rw [f1.1]⟩
  have e2 : r2.2.worker = s.worker ∧ r2.2.buf.status = s.buf.status :=
    ⟨f2.2.1.trans e1.1, by rw [f2.1]; exact e1.2⟩
  have e3 : s3.worker = s.worker ∧ s3.buf.status = s.buf.status :=
    ⟨e2.1, f3.trans e2.2⟩
  have e4 : r4.2.worker = s.worker ∧ r4.2.buf.status = s.buf.status :=
    ⟨f4.2.trans e3.1, by rw [f4.1]; exact e3.2⟩
  have e5 : r5.2.worker = s.worker ∧ r5.2.buf.status = s.buf.status :=
    ⟨f5.2.trans e4.1, by rw [f5.1]; exact e4.2⟩
  have c1 : isSuccess r1.1 = false → AIOContinuousBufCallbackStart env fdivisora s = r1 := by
    intro h
    unfold AIOContinuousBufCallbackStart
    simp only
    rw [if_pos h]
  have c2 : isSuccess r1.1 = true → isSuccess r2.1 = false →
      AIOContinuousBufCallbackStart env fdivisora s = r2 := by
    intro h1 h2
    unfold AIOContinuousBufCallbackStart
    simp only
    rw [if_neg (by rw [h1]; decide), if_pos h2]
  have c3 : isSuccess r1.1 = true → isSuccess r2.1 = true → isSuccess r3.1 = false →
      AIOContinuousBufCallbackStart env fdivisora s = (r3.1, s3) := by
    intro h1 h2 h3
    unfold AIOContinuousBufCallbackStart
    simp only
    rw [if_neg (by rw [h1]; decide), if_neg (by rw [h2]; decide), if_pos h3]
  have c4 : isSuccess r1.1 = true → isSuccess r2.1 = true → isSuccess r3.1 = true →
      isSuccess r4.1 = false → AIOContinuousBufCallbackStart env fdivisora s = r4 := by
    intro h1 h2 h3 h4
    unfold AIOContinuousBufCallbackStart
    simp only
    rw [if_neg (by rw [h1]; decide), if_neg (by rw [h2]; decide), if_neg (by rw [h3]; decide),
      if_pos h4]
  have c5 : isSuccess r1.1 = true → isSuccess r2.1 = true → isSuccess r3.1 = true →
      isSuccess r4.1 = true → isSuccess r5.1 = false →
      AIOContinuousBufCallbackStart env fdivisora s = r5 := by
    intro h1 h2 h3 h4 h5
    unfold AIOContinuousBufCallbackStart
    simp only
    rw [if_neg (by rw [h1]; decide), if_neg (by rw [h2]; decide), if_neg (by rw [h3]; decide),
      if_neg (by rw [h4]; decide), if_pos h5]
  refine ⟨c1, c2, c3, c4, c5, e1, e2, e3, e4, e5, ?_⟩
  intro h1 h2 hz
  have hz2 : r2.2.buf.hz = 0 := by rw [f2.1, f1.1]; exact hz
  have hr3 : r3 = (Except.error ResultCode.AIOUSB_ERROR_INVALID_PARAMETER, r2.2.buf) := by
    show CalculateClocks fdivisora r2.2.buf = _
    unfold CalculateClocks
    simp only
    rw [if_pos hz2]
  have h3 : isSuccess r3.1 = false := by rw [hr3]; rfl
  rw [c3 h1 h2 h3]
  have hs3 : s3 = r2.2 := by
    show ({ r2.2 with buf := r3.2 } : Session α) = r2.2
    rw [hr3]
  rw [hs3, hr3]
  exact ⟨rfl, f2.2.2⟩

/-- C26, witness: with `hz = 0` on a device whose transfers succeed, start
returns the invalid-parameter error after the two transfers of reset-counters;
no start-streaming transfer is issued, no worker is created and the status
stays `NOT_STARTED`. -/
theorem CallbackStart_fails_fast_witness :
    (AIOContinuousBufCallbackStart scenarioUSB 0 (scenarioSession 0)).1
      = Except.error ResultCode.AIOUSB_ERROR_INVALID_PARAMETER ∧
    (AIOContinuousBufCallbackStart scenarioUSB 0 (scenarioSession 0)).2.transfers
      = (ResetCounters scenarioUSB (scenarioSession 0)).2.transfers ∧
    ((AIOContinuousBufCallbackStart scenarioUSB 0 (scenarioSession 0)).2.transfers.map
      (fun t => t.bRequest)) = [0x21, 0x21] ∧
    (AIOContinuousBufCallbackStart scenarioUSB 0 (scenarioSession 0)).2.worker = false ∧
    (AIOContinuousBufCallbackStart scenarioUSB 0 (scenarioSession 0)).2.buf.status
      = THREAD_STATUS.NOT_STARTED := by
  have h := (CallbackStart_fails_fast scenarioUSB 0 (scenarioSession 0)).2.2.2.2.2.2.2.2.2.2
    rfl rfl rfl
  rw [h.1]
  exact ⟨rfl, rfl, rfl, rfl, rfl⟩

end BringupFacts

/-! ## Producer workers -/

section WorkerFacts

variable {α : Type}

theorem set_write_pos_static (buf : AIOContinuousBuf α) (pos : Nat) :
    (set_write_pos buf pos).size = buf.size ∧
    (set_write_pos buf pos).num_channels = buf.num_channels ∧
    (set_write_pos buf pos).status = buf.status ∧
    (set_write_pos buf pos).exitcode = buf.exitcode ∧
    (set_write_pos buf pos)._read_pos = buf._read_pos := by
  unfold set_write_pos
  split <;> exact ⟨rfl, rfl, rfl, rfl, rfl⟩

theorem Write_static (buf : AIOContinuousBuf α) (writebuf : Nat → α) (wrbufsize size : Nat)
    (flag : AIOContinuousBufMode) :
    (AIOContinuousBufWrite buf writebuf wrbufsize size flag).2.size = buf.size ∧
    (AIOContinuousBufWrite buf writebuf wrbufsize size flag).2.num_channels = buf.num_channels ∧
    (AIOContinuousBufWrite buf writebuf wrbufsize size flag).2.status = buf.status ∧
    (AIOContinuousBufWrite buf writebuf wrbufsize size flag).2.exitcode = buf.exitcode ∧
    (AIOContinuousBufWrite buf writebuf wrbufsize size flag).2._read_pos = buf._read_pos := by
  unfold AIOContinuousBufWrite
  simp only
  split
  · exact ⟨rfl, rfl, rfl, rfl, rfl⟩
  · split
    · exact set_write_pos_static _ _
    · split
      · exact set_write_pos_static _ _
      · exact ⟨rfl, rfl, rfl, rfl, rfl⟩

theorem CopyData_static (env : Externals) (buf : AIOContinuousBuf ℚ) (data : Nat → Nat)
    (size : Nat) (tmpbuf : Nat → ℚ) :
    (AIOContinuousBufCopyData env buf data size tmpbuf).buf.status = buf.status ∧
    (AIOContinuousBufCopyData env buf data size tmpbuf).buf.exitcode = buf.exitcode := by
  unfold AIOContinuousBufCopyData
  split
  · exact ⟨rfl, rfl⟩
  · simp only
    exact ⟨(Write_static _ _ _ _ _).2.2.1, (Write_static _ _ _ _ _).2.2.2.1⟩

/-- A pass of the volts worker on a transfer that delivered data: the failure
count stays, and so do status and exit code. -/
theorem ActualWork_pass_delivery (env : Externals) (uenv : USBExternals) (w : ActualWork)
    (o : BulkOutcome Nat) (hb : o.bytes ≠ 0) :
    (w.pass env uenv o).usbfail = w.usbfail ∧ (w.pass env uenv o).buf.status = w.buf.status ∧
    (w.pass env uenv o).buf.exitcode = w.buf.exitcode := by
  unfold ActualWork.pass
  rw [if_pos hb]
  exact ⟨rfl, (CopyData_static env w.buf o.data o.bytes w.tmpbuf).1,
    (CopyData_static env w.buf o.data o.bytes w.tmpbuf).2⟩

/-- A pass of the counts worker on a transfer that delivered data: the failure
count, the exit code, the ring size and the channel count stay; the status
stays or becomes `TERMINATED` with the accumulated count at `S - N` or more. -/
theorem RawCountsWork_pass_delivery (uenv : USBExternals) (w : RawCountsWork α)
    (o : BulkOutcome α) (hb : o.bytes ≠ 0) :
    (w.pass uenv o).usbfail = w.usbfail ∧ (w.pass uenv o).buf.exitcode = w.buf.exitcode ∧
    (w.pass uenv o).buf.size = w.buf.size ∧
    (w.pass uenv o).buf.num_channels = w.buf.num_channels ∧
    ((w.pass uenv o).buf.status = w.buf.status ∨
      ((w.pass uenv o).buf.status = THREAD_STATUS.TERMINATED ∧
        ((w.pass uenv o).count : Int) ≥ (w.buf.size : Int) - (w.buf.num_channels : Int))) := by
  obtain ⟨s1, s2, s3, s4, _⟩ := Write_static w.buf o.data
    ((w.buf.num_channels * 16 * 512) % 4294967296 / 2)
    ((w.tmpcount o.bytes % 4294967296).toNat) AIOContinuousBufMode.AIOCONTINUOUS_BUF_ALLORNONE
  unfold RawCountsWork.pass
  rw [if_pos hb]
  simp only
  unfold AIOContinuousBufWriteCounts buffer_size
  split
  · rename_i hge
    rw [s1] at hge
    exact ⟨rfl, s4, s1, s2, Or.inr ⟨rfl, hge⟩⟩
  · exact ⟨rfl, s4, s1, s2, Or.inl s3⟩

end WorkerFacts

section WorkerClaims

variable {α : Type}

/-- C24, as the code has it: in both worker loops a transfer that delivers zero
bytes with an error while the failure count is below 5 increments the count
and changes nothing else, so the pass in which the count reaches 5 does not
terminate the worker; a transfer that delivers zero bytes once the count is 5
or more, errored or not, sets the status to `TERMINATED`, stores the negated
mapped USB result of that transfer in `exitcode`, and no further pass is
made. -/
theorem worker_failure_threshold (env : Externals) (uenv : USBExternals) (w : ActualWork)
    (v : RawCountsWork α) (usbresult : Int) (d : Nat → Nat) (e : Nat → α) :
    (usbresult < 0 → w.usbfail < 5 →
      w.pass env uenv { usbresult := usbresult, bytes := 0, data := d }
        = { w with usbfail := w.usbfail + 1 }) ∧
    (5 ≤ w.usbfail →
      w.pass env uenv { usbresult := usbresult, bytes := 0, data := d }
        = { w with
            retval := negated (uenv.LIBUSB_RESULT_TO_AIOUSB_RESULT usbresult)
            buf := { w.buf with
              status := THREAD_STATUS.TERMINATED
              exitcode := -(uenv.LIBUSB_RESULT_TO_AIOUSB_RESULT usbresult : Int) } } ∧
      ∀ rest, ActualWork.loop env uenv
          (w.pass env uenv { usbresult := usbresult, bytes := 0, data := d }) rest
        = w.pass env uenv { usbresult := usbresult, bytes := 0, data := d }) ∧
    (usbresult < 0 → v.usbfail < 5 →
      v.pass uenv { usbresult := usbresult, bytes := 0, data := e }
        = { v with usbfail := v.usbfail + 1 }) ∧
    (5 ≤ v.usbfail →
      v.pass uenv { usbresult := usbresult, bytes := 0, data := e }
        = { v with
            retval := negated (uenv.LIBUSB_RESULT_TO_AIOUSB_RESULT usbresult)
            buf := { v.buf with
              status := THREAD_STATUS.TERMINATED
              exitcode := -(uenv.LIBUSB_RESULT_TO_AIOUSB_RESULT usbresult : Int) } } ∧
      ∀ rest, RawCountsWork.loop uenv
          (v.pass uenv { usbresult := usbresult, bytes := 0, data := e }) rest
        = v.pass uenv { usbresult := usbresult, bytes := 0, data := e }) := by
  refine ⟨?_, ?_, ?_, ?_⟩
  · intro h1 h2
    unfold ActualWork.pass
    rw [if_neg (by simp), if_pos ⟨h1, h2⟩]
  · intro h5
    have hp : w.pass env uenv { usbresult := usbresult, bytes := 0, data := d }
        = { w with
            retval := negated (uenv.LIBUSB_RESULT_TO_AIOUSB_RESULT usbresult)
            buf := { w.buf with
              status := THREAD_STATUS.TERMINATED
              exitcode := -(uenv.LIBUSB_RESULT_TO_AIOUSB_RESULT usbresult : Int) } } := by
      unfold ActualWork.pass
      rw [if_neg (by simp), if_neg (by omega), if_pos h5]
    refine ⟨hp, fun rest => ?_⟩
    rw [hp]
    cases rest with
    | nil => rfl
    | cons o os =>
      unfold ActualWork.loop
      rw [if_neg (by simp)]
  · intro h1 h2
    unfold RawCountsWork.pass
    rw [if_neg (by simp), if_pos ⟨h1, h2⟩]
  · intro h5
    have hp : v.pass uenv { usbresult := usbresult, bytes := 0, data := e }
        = { v with
            retval := negated (uenv.LIBUSB_RESULT_TO_AIOUSB_RESULT usbresult)
            buf := { v.buf with
              status := THREAD_STATUS.TERMINATED
              exitcode := -(uenv.LIBUSB_RESULT_TO_AIOUSB_RESULT usbresult : Int) } } := by
      unfold RawCountsWork.pass
      rw [if_neg (by simp), if_neg (by omega), if_pos h5]
    refine ⟨hp, fun rest => ?_⟩
    rw [hp]
    cases rest with
    | nil => rfl
    | cons o os =>
      unfold RawCountsWork.loop
      rw [if_neg (by simp)]

/-- C24, counterexample: from no failure counted, five transfers in a row that
deliver nothing and return an error bring the failure count of either worker
to 5 and leave the status `RUNNING`; the worker terminates on the sixth. -/
theorem worker_runs_on_at_five_failures :
    (ActualWork.loop scenarioS5_externals scenarioUSB scenarioActualWork
      [scenarioFailure, scenarioFailure, scenarioFailure, scenarioFailure,
       scenarioFailure]).usbfail = 5 ∧
    (ActualWork.loop scenarioS5_externals scenarioUSB scenarioActualWork
      [scenarioFailure, scenarioFailure, scenarioFailure, scenarioFailure,
       scenarioFailure]).buf.status = THREAD_STATUS.RUNNING ∧
    (ActualWork.loop scenarioS5_externals scenarioUSB scenarioActualWork
      [scenarioFailure, scenarioFailure, scenarioFailure, scenarioFailure,
       scenarioFailure, scenarioFailure]).buf.status = THREAD_STATUS.TERMINATED ∧
    (RawCountsWork.loop scenarioUSB scenarioRawCountsWork
      [scenarioFailure, scenarioFailure, scenarioFailure, scenarioFailure,
       scenarioFailure]).usbfail = 5 ∧
    (RawCountsWork.loop scenarioUSB scenarioRawCountsWork
      [scenarioFailure, scenarioFailure, scenarioFailure, scenarioFailure,
       scenarioFailure]).buf.status = THREAD_STATUS.RUNNING ∧
    (RawCountsWork.loop scenarioUSB scenarioRawCountsWork
      [scenarioFailure, scenarioFailure, scenarioFailure, scenarioFailure,
       scenarioFailure, scenarioFailure]).buf.status = THREAD_STATUS.TERMINATED := by
  decide

theorem ActualWork_loop_failures (env : Externals) (uenv : USBExternals) :
    ∀ (outcomes : List (BulkOutcome Nat)) (w : ActualWork),
      w.usbfail + outcomes.countP BulkOutcome.errored < 5 →
      (ActualWork.loop env uenv w outcomes).usbfail
          ≤ w.usbfail + outcomes.countP BulkOutcome.errored ∧
        (ActualWork.loop env uenv w outcomes).buf.status = w.buf.status ∧
        (ActualWork.loop env uenv w outcomes).buf.exitcode = w.buf.exitcode := by
  intro outcomes
  induction outcomes with
  | nil => intro w _; exact ⟨Nat.le_add_right _ _, rfl, rfl⟩
  | cons o rest ih =>
    intro w h
    rw [List.countP_cons] at h ⊢
    unfold ActualWork.loop
    split
    · by_cases hb : o.bytes ≠ 0
      · obtain ⟨p1, p2, p3⟩ := ActualWork_pass_delivery env uenv w o hb
        obtain ⟨i1, i2, i3⟩ := ih (w.pass env uenv o) (by rw [p1]; omega)
        rw [p1] at i1
        exact ⟨by omega, i2.trans p2, i3.trans p3⟩
      · by_cases he : o.usbresult < 0 ∧ w.usbfail < 5
        · have hp : w.pass env uenv o = { w with usbfail := w.usbfail + 1 } := by
            unfold ActualWork.pass
            rw [if_neg hb, if_pos he]
          have herr : BulkOutcome.errored o = true := by
            unfold BulkOutcome.errored
            simp only [decide_eq_true_eq]
            exact ⟨by omega, he.1⟩
          rw [herr] at h ⊢
          simp only [if_true] at h ⊢
          rw [hp]
          obtain ⟨i1, i2, i3⟩ := ih { w with usbfail := w.usbfail + 1 } (by show _ + 1 + _ < 5; omega)
          exact ⟨by have : ({ w with usbfail := w.usbfail + 1 } : ActualWork).usbfail
                      = w.usbfail + 1 := rfl
                    omega, i2, i3⟩
        · have hp : w.pass env uenv o = w := by
            unfold ActualWork.pass
            rw [if_neg hb, if_neg he, if_neg (by omega)]
          rw [hp]
          obtain ⟨i1, i2, i3⟩ := ih w (by omega)
          exact ⟨by omega, i2, i3⟩
    · exact ⟨by omega, rfl, rfl⟩

theorem RawCountsWork_loop_failures (uenv : USBExternals) :
    ∀ (outcomes : List (BulkOutcome α)) (v : RawCountsWork α),
      v.usbfail + outcomes.countP BulkOutcome.errored < 5 →
      (RawCountsWork.loop uenv v outcomes).usbfail
          ≤ v.usbfail + outcomes.countP BulkOutcome.errored ∧
        (RawCountsWork.loop uenv v outcomes).buf.exitcode = v.buf.exitcode ∧
        (RawCountsWork.loop uenv v outcomes).buf.size = v.buf.size ∧
        (RawCountsWork.loop uenv v outcomes).buf.num_channels = v.buf.num_channels ∧
        ((RawCountsWork.loop uenv v outcomes).buf.status = v.buf.status ∨
          ((RawCountsWork.loop uenv v outcomes).buf.status = THREAD_STATUS.TERMINATED ∧
            ((RawCountsWork.loop uenv v outcomes).count : Int)
              ≥ (v.buf.size : Int) - (v.buf.num_channels : Int))) := by
  intro outcomes
  induction outcomes with
  | nil => intro v _; exact ⟨Nat.le_add_right _ _, rfl, rfl, rfl, Or.inl rfl⟩
  | cons o rest ih =>
    intro v h
    rw [List.countP_cons] at h ⊢
    unfold RawCountsWork.loop
    split
    · by_cases hb : o.bytes ≠ 0
      · obtain ⟨p1, p2, p3, p4, p5⟩ := RawCountsWork_pass_delivery uenv v o hb
        obtain ⟨i1, i2, i3, i4, i5⟩ := ih (v.pass uenv o) (by rw [p1]; omega)
        rw [p1] at i1
        rw [p3, p4] at i5
        refine ⟨by omega, i2.trans p2, i3.trans p3, i4.trans p4, ?_⟩
        rcases i5 with i5 | i5
        · rcases p5 with p5 | p5
          · exact Or.inl (i5.trans p5)
          · rename_i hrun
            rcases rest with _ | ⟨o2, os⟩
            · exact Or.inr p5
            · unfold RawCountsWork.loop
              rw [if_neg (by rw [p5.1]; simp)]
              exact Or.inr p5
        · exact Or.inr i5
      · by_cases he : o.usbresult < 0 ∧ v.usbfail < 5
        · have hp : v.pass uenv o = { v with usbfail := v.usbfail + 1 } := by
            unfold RawCountsWork.pass
            rw [if_neg hb, if_pos he]
          have herr : BulkOutcome.errored o = true := by
            unfold BulkOutcome.errored
            simp only [decide_eq_true_eq]
            exact ⟨by omega, he.1⟩
          rw [herr] at h ⊢
          simp only [if_true] at h ⊢
          rw [hp]
          obtain ⟨i1, i2, i3, i4, i5⟩ := ih { v with usbfail := v.usbfail + 1 }
            (by show _ + 1 + _ < 5; omega)
          exact ⟨by have : ({ v with usbfail := v.usbfail + 1 } : RawCountsWork α).usbfail
                      = v.usbfail + 1 := rfl
                    omega, i2, i3, i4, i5⟩
        · have hp : v.pass uenv o = v := by
            unfold RawCountsWork.pass
            rw [if_neg hb, if_neg he, if_neg (by omega)]
          rw [hp]
          obtain ⟨i1, i2, i3, i4, i5⟩ := ih v (by omega)
          exact ⟨by omega, i2, i3, i4, i5⟩
    · exact ⟨by omega, rfl, rfl, rfl, Or.inl rfl⟩

/-- C25, as the code has it: the failure count of a worker runs over the whole
loop; a transfer that delivers data leaves it as it is.  For every sequence of
transfer outcomes with fewer than 5 errored zero-byte transfers in all, from
no failure counted, the count stays below 5 and `exitcode` is not written; the
volts worker keeps its status, and the counts worker keeps its status unless
it terminates with the accumulated count at `S - N` or more. -/
theorem worker_failures_accumulate (env : Externals) (uenv : USBExternals) (w : ActualWork)
    (v : RawCountsWork α) (outcomes : List (BulkOutcome Nat)) (transfers : List (BulkOutcome α))
    (hw : w.usbfail = 0) (hv : v.usbfail = 0)
    (houtcomes : outcomes.countP BulkOutcome.errored < 5)
    (htransfers : transfers.countP BulkOutcome.errored < 5) :
    (∀ o : BulkOutcome Nat, o.bytes ≠ 0 → (w.pass env uenv o).usbfail = w.usbfail) ∧
    (∀ o : BulkOutcome α, o.bytes ≠ 0 → (v.pass uenv o).usbfail = v.usbfail) ∧
    (ActualWork.loop env uenv w outcomes).usbfail < 5 ∧
    (ActualWork.loop env uenv w outcomes).buf.status = w.buf.status ∧
    (ActualWork.loop env uenv w outcomes).buf.exitcode = w.buf.exitcode ∧
    (RawCountsWork.loop uenv v transfers).usbfail < 5 ∧
    (RawCountsWork.loop uenv v transfers).buf.exitcode = v.buf.exitcode ∧
    ((RawCountsWork.loop uenv v transfers).buf.status = v.buf.status ∨
      ((RawCountsWork.loop uenv v transfers).buf.status = THREAD_STATUS.TERMINATED ∧
        ((RawCountsWork.loop uenv v transfers).count : Int)
          ≥ (v.buf.size : Int) - (v.buf.num_channels : Int))) := by
  obtain ⟨a1, a2, a3⟩ := ActualWork_loop_failures env uenv outcomes w (by omega)
  obtain ⟨r1, r2, _, _, r5⟩ := RawCountsWork_loop_failures uenv transfers v (by omega)
  exact ⟨fun o hb => (ActualWork_pass_delivery env uenv w o hb).1,
    fun o hb => (RawCountsWork_pass_delivery uenv v o hb).1,
    by omega, a2, a3, by omega, r2, r5⟩

/-- C25, witness: two failures around a delivery leave both workers running. -/
theorem worker_failures_accumulate_witness :
    (ActualWork.loop scenarioS5_externals scenarioUSB scenarioActualWork
      [scenarioFailure, scenarioDelivery, scenarioFailure]).usbfail < 5 ∧
    (ActualWork.loop scenarioS5_externals scenarioUSB scenarioActualWork
      [scenarioFailure, scenarioDelivery, scenarioFailure]).buf.status
      = scenarioActualWork.buf.status ∧
    (RawCountsWork.loop scenarioUSB scenarioRawCountsWork
      [scenarioFailure, scenarioDelivery, scenarioFailure]).usbfail < 5 :=
  ⟨(worker_failures_accumulate scenarioS5_externals scenarioUSB scenarioActualWork
      scenarioRawCountsWork [scenarioFailure, scenarioDelivery, scenarioFailure]
      [scenarioFailure, scenarioDelivery, scenarioFailure] rfl rfl (by decide)
      (by decide)).2.2.1,
   (worker_failures_accumulate scenarioS5_externals scenarioUSB scenarioActualWork
      scenarioRawCountsWork [scenarioFailure, scenarioDelivery, scenarioFailure]
      [scenarioFailure, scenarioDelivery, scenarioFailure] rfl rfl (by decide)
      (by decide)).2.2.2.1,
   (worker_failures_accumulate scenarioS5_externals scenarioUSB scenarioActualWork
      scenarioRawCountsWork [scenarioFailure, scenarioDelivery, scenarioFailure]
      [scenarioFailure, scenarioDelivery, scenarioFailure] rfl rfl (by decide)
      (by decide)).2.2.2.2.2.1⟩

/-- C25, counterexample: failures and deliveries in turn, never two failures in
a row; the delivery after each failure does not reset the count, and the
zero-byte transfer that follows the fifth counted failure terminates either
worker with the exit code of a USB failure. -/
theorem worker_terminates_on_scattered_failures :
    (ActualWork.loop scenarioS5_externals scenarioUSB scenarioActualWork
      [scenarioFailure, scenarioDelivery, scenarioFailure, scenarioDelivery, scenarioFailure,
       scenarioDelivery, scenarioFailure, scenarioDelivery, scenarioFailure, scenarioDelivery,
       scenarioFailure]).buf.status = THREAD_STATUS.TERMINATED ∧
    (ActualWork.loop scenarioS5_externals scenarioUSB scenarioActualWork
      [scenarioFailure, scenarioDelivery, scenarioFailure, scenarioDelivery, scenarioFailure,
       scenarioDelivery, scenarioFailure, scenarioDelivery, scenarioFailure, scenarioDelivery,
       scenarioFailure]).buf.exitcode = -1 ∧
    (RawCountsWork.loop scenarioUSB scenarioRawCountsWork
      [scenarioFailure, scenarioDelivery, scenarioFailure, scenarioDelivery, scenarioFailure,
       scenarioDelivery, scenarioFailure, scenarioDelivery, scenarioFailure, scenarioDelivery,
       scenarioFailure]).buf.status = THREAD_STATUS.TERMINATED ∧
    (RawCountsWork.loop scenarioUSB scenarioRawCountsWork
      [scenarioFailure, scenarioDelivery, scenarioFailure, scenarioDelivery, scenarioFailure,
       scenarioDelivery, scenarioFailure, scenarioDelivery, scenarioFailure, scenarioDelivery,
       scenarioFailure]).buf.exitcode = -1 ∧
    (RawCountsWork.loop scenarioUSB scenarioRawCountsWork
      [scenarioFailure, scenarioDelivery, scenarioFailure, scenarioDelivery, scenarioFailure,
       scenarioDelivery, scenarioFailure, scenarioDelivery, scenarioFailure, scenarioDelivery,
       scenarioFailure]).count = 10 := by
  decide

end WorkerClaims

section CaptureFacts

variable {α : Type}

/-- A pass of the counts worker on a delivery during a capture: the sample
count is `min(S - write_pos - N, bytes / 2)`, it is below `write_size`, the
write returns it, and the pass keeps the capture state, moving write position
and count by it; the status becomes `TERMINATED` exactly when the count has
reached `S - N`. -/
theorem RawCountsWork_pass_capturing (uenv : USBExternals) (w : RawCountsWork α)
    (o : BulkOutcome α) (hcap : w.Capturing) (hb : o.bytes ≠ 0)
    (hlen : o.bytes ≤ (w.buf.num_channels * 16 * 512) % 4294967296) :
    w.tmpcount o.bytes
      = ((min (w.buf.size - w.buf._write_pos - w.buf.num_channels) (o.bytes / 2) : Nat) : Int) ∧
    min (w.buf.size - w.buf._write_pos - w.buf.num_channels) (o.bytes / 2) < write_size w.buf ∧
    (AIOContinuousBufWriteCounts w.buf o.data ((w.buf.num_channels * 16 * 512) % 4294967296 / 2)
        ((w.tmpcount o.bytes % 4294967296).toNat)
        AIOContinuousBufMode.AIOCONTINUOUS_BUF_ALLORNONE).1
      = Except.ok (min (w.buf.size - w.buf._write_pos - w.buf.num_channels) (o.bytes / 2)) ∧
    (w.pass uenv o).Capturing ∧
    (w.pass uenv o).buf.size = w.buf.size ∧
    (w.pass uenv o).buf.num_channels = w.buf.num_channels ∧
    (w.pass uenv o).buf._write_pos
      = w.buf._write_pos + min (w.buf.size - w.buf._write_pos - w.buf.num_channels) (o.bytes / 2) ∧
    (w.pass uenv o).count = (w.pass uenv o).buf._write_pos ∧
    (w.buf.status = THREAD_STATUS.RUNNING →
      ((w.pass uenv o).buf.status = THREAD_STATUS.TERMINATED
        ↔ w.buf.size - w.buf.num_channels ≤ (w.pass uenv o).count)) := by
  obtain ⟨hok, hS31, hN, hrw, hwN, hcount⟩ := hcap
  have hocc := occupancy_eq hok
  have hws := write_size_eq hok
  obtain ⟨h1, h2, h3, h4⟩ := id hok
  rw [if_neg (by omega)] at hocc
  generalize ht : min (w.buf.size - w.buf._write_pos - w.buf.num_channels) (o.bytes / 2) = t
  have htle : t ≤ w.buf.size - w.buf._write_pos - w.buf.num_channels := by omega
  have htb : t ≤ o.bytes / 2 := by omega
  have hu : usub (buffer_size w.buf) (get_write_pos w.buf) = w.buf.size - w.buf._write_pos := by
    unfold buffer_size get_write_pos
    exact usub_of_le (by omega) h2
  have htc : w.tmpcount o.bytes = (t : Int) := by
    unfold RawCountsWork.tmpcount int_of_long
    rw [hu]
    omega
  have hsize : (w.tmpcount o.bytes % 4294967296).toNat = t := by
    rw [htc]
    omega
  have hfit : t ≤ available w.buf := by
    unfold available
    omega
  have hsrc : t ≤ (w.buf.num_channels * 16 * 512) % 4294967296 / 2 := by omega
  have hwr := write_fits hok o.data hsrc hfit AIOContinuousBufMode.AIOCONTINUOUS_BUF_ALLORNONE
  have hpos : ((w.buf._write_pos + t) % 4294967296) % w.buf.size = w.buf._write_pos + t := by
    rw [Nat.mod_eq_of_lt (by omega), Nat.mod_eq_of_lt (by omega)]
  rw [hpos] at hwr
  have hiu : int_of_unsigned t = (t : Int) := by
    unfold int_of_unsigned
    rw [Nat.mod_eq_of_lt (by omega), if_pos (by omega)]
  have hcnt : uadd w.count t = w.buf._write_pos + t := by
    rw [hcount]
    exact uadd_of_lt (by omega)
  have hp : w.pass uenv o =
      if ((w.buf._write_pos + t : Nat) : Int) ≥ (w.buf.size : Int) - (w.buf.num_channels : Int) then
        { w with
          count := w.buf._write_pos + t
          buf := { (AIOContinuousBufWrite w.buf o.data
              ((w.buf.num_channels * 16 * 512) % 4294967296 / 2) t
              AIOContinuousBufMode.AIOCONTINUOUS_BUF_ALLORNONE).2 with
            status := THREAD_STATUS.TERMINATED } }
      else
        { w with
          count := w.buf._write_pos + t
          buf := (AIOContinuousBufWrite w.buf o.data
              ((w.buf.num_channels * 16 * 512) % 4294967296 / 2) t
              AIOContinuousBufMode.AIOCONTINUOUS_BUF_ALLORNONE).2 } := by
    unfold RawCountsWork.pass AIOContinuousBufWriteCounts
    rw [if_pos hb]
    simp only [hsize]
    rw [hwr]
    simp only [hiu, buffer_size]
    rw [if_pos (Int.natCast_nonneg t), hcnt]
  refine ⟨htc, by rw [hws]; omega, ?_, ?_⟩
  · unfold AIOContinuousBufWriteCounts
    rw [hsize, hwr]
  · rw [hp, hwr]
    split
    · rename_i hge
      refine ⟨⟨⟨h1, h2, h3, by show w.buf._write_pos + t < w.buf.size; omega⟩, hS31, hN,
        by show w.buf._read_pos ≤ w.buf._write_pos + t; omega,
        by show w.buf._write_pos + t + w.buf.num_channels ≤ w.buf.size; omega, rfl⟩,
        rfl, rfl, rfl, rfl, fun _ => ⟨fun _ => by show _ ≤ w.buf._write_pos + t; omega,
          fun _ => rfl⟩⟩
    · rename_i hlt
      refine ⟨⟨⟨h1, h2, h3, by show w.buf._write_pos + t < w.buf.size; omega⟩, hS31, hN,
        by show w.buf._read_pos ≤ w.buf._write_pos + t; omega,
        by show w.buf._write_pos + t + w.buf.num_channels ≤ w.buf.size; omega, rfl⟩,
        rfl, rfl, rfl, rfl, fun hrun => ⟨fun hterm => ?_, fun hle => ?_⟩⟩
      · exfalso
        have : w.buf.status = THREAD_STATUS.TERMINATED := hterm
        rw [hrun] at this
        cases this
      · exfalso
        have : w.buf.size - w.buf.num_channels ≤ w.buf._write_pos + t := hle
        omega

end CaptureFacts

section CaptureClaims

variable {α : Type}

theorem Reset_eq (buf : AIOContinuousBuf α) :
    AIOContinuousBufReset buf = { buf with _read_pos := 0, _write_pos := 0 } := by
  unfold AIOContinuousBufReset set_write_pos set_read_pos
  rw [if_neg (by omega), if_neg (by omega)]

/-- A read by the consumer during a capture keeps the capture state. -/
theorem RawCountsWork_read_capturing (w : RawCountsWork α) (readbuf : Nat → α)
    (readbufsize size : Nat) (hcap : w.Capturing) :
    ({ w with buf := (AIOContinuousBufRead w.buf readbuf readbufsize size).2.1 }
      : RawCountsWork α).Capturing ∧
    (AIOContinuousBufRead w.buf readbuf readbufsize size).2.1.size = w.buf.size ∧
    (AIOContinuousBufRead w.buf readbuf readbufsize size).2.1.num_channels
      = w.buf.num_channels := by
  obtain ⟨hok, hS31, hN, hrw, hwN, hcount⟩ := hcap
  obtain ⟨h1, h2, h3, h4⟩ := id hok
  have hr : (AIOContinuousBufRead w.buf readbuf readbufsize size).2.1
      = { w.buf with
          _read_pos := w.buf._read_pos + min size (w.buf._write_pos - w.buf._read_pos) } := by
    unfold AIOContinuousBufRead
    simp only [get_read_pos, get_write_pos, buffer_size]
    rw [if_pos hrw, if_pos hrw, usub_of_le hrw (by omega)]
    simp only [ne_eq, not_true_eq_false, if_false]
    have e1 : (w.buf._read_pos + min size (w.buf._write_pos - w.buf._read_pos)) % w.buf.size
        = w.buf._read_pos + min size (w.buf._write_pos - w.buf._read_pos) :=
      Nat.mod_eq_of_lt (by omega)
    rw [e1, Nat.mod_eq_of_lt (by omega)]
    exact set_read_pos_of_lt h1 h2 (by omega)
  rw [hr]
  exact ⟨⟨⟨h1, h2, by show w.buf._read_pos + _ < w.buf.size; omega, h4⟩, hS31, hN,
    by show w.buf._read_pos + _ ≤ w.buf._write_pos; omega, hwN, hcount⟩, rfl, rfl⟩

theorem RawCountsWork_run_capturing (uenv : USBExternals) :
    ∀ (events : List (RawCountsEvent α)) (w : RawCountsWork α), w.Capturing →
      (∀ e ∈ events, e.bounded w.buf.num_channels) →
      (w.run uenv events).Capturing ∧ (w.run uenv events).buf.size = w.buf.size ∧
        (w.run uenv events).buf.num_channels = w.buf.num_channels := by
  intro events
  induction events with
  | nil => intro w hcap _; exact ⟨hcap, rfl, rfl⟩
  | cons e rest ih =>
    intro w hcap hev
    have he := hev e (List.mem_cons_self _ _)
    have hrest : ∀ e' ∈ rest, e'.bounded w.buf.num_channels :=
      fun e' h => hev e' (List.mem_cons_of_mem _ h)
    show ((w.event uenv e).run uenv rest).Capturing ∧ _ ∧ _
    have hstep : (w.event uenv e).Capturing ∧ (w.event uenv e).buf.size = w.buf.size ∧
        (w.event uenv e).buf.num_channels = w.buf.num_channels := by
      cases e with
      | transfer o =>
        show (if w.buf.status = THREAD_STATUS.RUNNING then w.pass uenv o else w).Capturing ∧
          (if w.buf.status = THREAD_STATUS.RUNNING then w.pass uenv o else w).buf.size = _ ∧
          (if w.buf.status = THREAD_STATUS.RUNNING then w.pass uenv o else w).buf.num_channels
            = _
        split
        · by_cases hb : o.bytes ≠ 0
          · obtain ⟨_, _, _, c, s, n, _⟩ := RawCountsWork_pass_capturing uenv w o hcap hb he
            exact ⟨c, s, n⟩
          · obtain ⟨hok, hS31, hN, hrw, hwN, hcount⟩ := hcap
            unfold RawCountsWork.pass
            rw [if_neg hb]
            split
            · exact ⟨⟨hok, hS31, hN, hrw, hwN, hcount⟩, rfl, rfl⟩
            · split
              · exact ⟨⟨hok, hS31, hN, hrw, hwN, hcount⟩, rfl, rfl⟩
              · exact ⟨⟨hok, hS31, hN, hrw, hwN, hcount⟩, rfl, rfl⟩
        · exact ⟨hcap, rfl, rfl⟩
      | read readbuf readbufsize size =>
        exact RawCountsWork_read_capturing w readbuf readbufsize size hcap
    obtain ⟨c, s, n⟩ := hstep
    obtain ⟨i1, i2, i3⟩ := ih (w.event uenv e) c (by rw [n]; exact hrest)
    exact ⟨i1, i2.trans s, i3.trans n⟩

/-- C30, for rings below `2^31` cells, the sizes the worker computes in `int`:
the counts worker starts on a reset ring of `S` cells, `N ≤ S < 2^31`,
`N ≥ 1`, with nothing counted; its passes (on transfers of at most `datasize`
bytes) interleave in any way with reads of the consumer.  In every state
reached, `write_pos ≤ S - N` and the accumulated count equals `write_pos`; on
the next transfer that delivers data the sample count
`min((S - write_pos) - N, bytes / 2)` is not negative and is below the free
space `write_size = S - occupancy`, the all-or-none write returns it, and when
the worker is running the pass sets the status to `TERMINATED` exactly when
the accumulated count has reached `S - N`. -/
theorem capture_write_never_refused (uenv : USBExternals) (b : AIOContinuousBuf α)
    (events : List (RawCountsEvent α)) (o : BulkOutcome α)
    (hN : 1 ≤ b.num_channels) (hNS : b.num_channels ≤ b.size) (hS : b.size < 2147483648)
    (hev : ∀ e ∈ events, e.bounded b.num_channels) (hb : o.bytes ≠ 0)
    (hlen : o.bytes ≤ (b.num_channels * 16 * 512) % 4294967296) :
    let w := RawCountsWork.run uenv
      { buf := AIOContinuousBufReset b, usbfail := 0, count := 0, retval := Except.ok 0 } events
    buffer_size w.buf = b.size ∧ w.buf.num_channels = b.num_channels ∧
    get_read_pos w.buf ≤ get_write_pos w.buf ∧
    get_write_pos w.buf ≤ b.size - b.num_channels ∧
    w.count = get_write_pos w.buf ∧
    0 ≤ w.tmpcount o.bytes ∧
    w.tmpcount o.bytes
      = min (((b.size - get_write_pos w.buf : Nat) : Int) - (b.num_channels : Int))
          ((o.bytes : Int) / 2) ∧
    write_size w.buf = b.size - occupancy w.buf ∧
    w.tmpcount o.bytes < (write_size w.buf : Int) ∧
    (∃ k : Nat, (k : Int) = w.tmpcount o.bytes ∧
      (AIOContinuousBufWriteCounts w.buf o.data ((b.num_channels * 16 * 512) % 4294967296 / 2)
          ((w.tmpcount o.bytes % 4294967296).toNat)
          AIOContinuousBufMode.AIOCONTINUOUS_BUF_ALLORNONE).1 = Except.ok k ∧
      (w.pass uenv o).count = w.count + k ∧
      get_write_pos (w.pass uenv o).buf = get_write_pos w.buf + k) ∧
    (w.buf.status = THREAD_STATUS.RUNNING →
      ((w.pass uenv o).buf.status = THREAD_STATUS.TERMINATED
        ↔ b.size - b.num_channels ≤ (w.pass uenv o).count)) := by
  intro w
  have h0 : RawCountsWork.Capturing
      ({ buf := AIOContinuousBufReset b, usbfail := 0, count := 0, retval := Except.ok 0 }
        : RawCountsWork α) := by
    rw [Reset_eq]
    exact ⟨⟨by show 1 ≤ b.size; omega, by show b.size < 4294967296; omega,
      by show 0 < b.size; omega, by show 0 < b.size; omega⟩, hS, hN, le_refl _,
      by show 0 + b.num_channels ≤ b.size; omega, rfl⟩
  have hsz0 : (AIOContinuousBufReset b).size = b.size := by rw [Reset_eq]
  have hn0 : (AIOContinuousBufReset b).num_channels = b.num_channels := by rw [Reset_eq]
  obtain ⟨hcap, hsz, hn⟩ : w.Capturing ∧ w.buf.size = (AIOContinuousBufReset b).size ∧
      w.buf.num_channels = (AIOContinuousBufReset b).num_channels :=
    RawCountsWork_run_capturing uenv events _ h0
      (by show ∀ e ∈ events, e.bounded (AIOContinuousBufReset b).num_channels
          rw [hn0]; exact hev)
  clear_value w
  have hsz' : w.buf.size = b.size := hsz.trans hsz0
  have hn' : w.buf.num_channels = b.num_channels := hn.trans hn0
  obtain ⟨p1, p2, p3, p4, p5, p6, p7, p8, p9⟩ := RawCountsWork_pass_capturing uenv w o hcap hb
    (by rw [hn']; exact hlen)
  have hws := write_size_eq hcap.1
  obtain ⟨hok, hS31, hN', hrw, hwN, hcount⟩ := hcap
  rw [hsz', hn'] at p1 p2 p3 p7 p9 hwN
  rw [hsz'] at hws
  unfold buffer_size get_read_pos get_write_pos
  refine ⟨hsz', hn', hrw, by omega, hcount, by rw [p1]; omega, by rw [p1]; omega, hws,
    by rw [p1]; omega, ⟨_, p1.symm, p3, by rw [p8, p7, hcount], p7⟩, p9⟩

/-- C30, witness: a ring of counts of 10 scans of 2 channels, reset, after a
delivery, a read and another delivery: the next delivery of 4 bytes gives a
sample count that is not negative and is accepted. -/
theorem capture_write_never_refused_witness :
    get_write_pos (RawCountsWork.run scenarioUSB
        { buf := AIOContinuousBufReset scenarioRawCountsWork.buf, usbfail := 0, count := 0,
          retval := Except.ok 0 }
        [RawCountsEvent.transfer scenarioDelivery, RawCountsEvent.read (fun _ => 0) 4 1,
         RawCountsEvent.transfer scenarioDelivery]).buf
      ≤ scenarioRawCountsWork.buf.size - scenarioRawCountsWork.buf.num_channels ∧
    0 ≤ (RawCountsWork.run scenarioUSB
        { buf := AIOContinuousBufReset scenarioRawCountsWork.buf, usbfail := 0, count := 0,
          retval := Except.ok 0 }
        [RawCountsEvent.transfer scenarioDelivery, RawCountsEvent.read (fun _ => 0) 4 1,
         RawCountsEvent.transfer scenarioDelivery]).tmpcount scenarioDelivery.bytes :=
  ⟨(capture_write_never_refused scenarioUSB scenarioRawCountsWork.buf
      [RawCountsEvent.transfer scenarioDelivery, RawCountsEvent.read (fun _ => 0) 4 1,
       RawCountsEvent.transfer scenarioDelivery] scenarioDelivery (by decide) (by decide)
      (by decide) (by decide) (by decide) (by decide)).2.2.2.1,
   (capture_write_never_refused scenarioUSB scenarioRawCountsWork.buf
      [RawCountsEvent.transfer scenarioDelivery, RawCountsEvent.read (fun _ => 0) 4 1,
       RawCountsEvent.transfer scenarioDelivery] scenarioDelivery (by decide) (by decide)
      (by decide) (by decide) (by decide) (by decide)).2.2.2.2.2.1⟩

/-- C30, counterexample: a reset ring of counts of `2^31 + 10` cells on one
channel.  On the first delivery (4 bytes) the `long` value `(S - 0) - 1` does
not fit an `int`: `tmpcount` is negative, the write is called with its
`unsigned` conversion `2^31 + 9` and copies the 4096 cells of the transfer
buffer, and the accumulated count is 4096 after a delivery of 2 samples. -/
theorem capture_count_negative :
    1 ≤ (NewAIOContinuousBufForCounts (fun _ => (0 : Nat)) 0 2147483658 1).num_channels ∧
    (NewAIOContinuousBufForCounts (fun _ => (0 : Nat)) 0 2147483658 1).num_channels
      ≤ (NewAIOContinuousBufForCounts (fun _ => (0 : Nat)) 0 2147483658 1).size ∧
    RawCountsWork.tmpcount
      { buf := AIOContinuousBufReset
          (NewAIOContinuousBufForCounts (fun _ => (0 : Nat)) 0 2147483658 1),
        usbfail := 0, count := 0, retval := Except.ok 0 } scenarioDelivery.bytes < 0 ∧
    (RawCountsWork.pass scenarioUSB
      { buf := AIOContinuousBufReset
          (NewAIOContinuousBufForCounts (fun _ => (0 : Nat)) 0 2147483658 1),
        usbfail := 0, count := 0, retval := Except.ok 0 } scenarioDelivery).count = 4096 := by
  decide

end CaptureClaims

end AIOUSB
